import Mathlib

/-!
# A model of the `signal` reactive library (src/signal.ts)

Shallow embedding of the reactive core: mutable cells (`signal`), memoized
derived computations (`computed`), effects (`effect`) and batching
(`batchSet`), together with the three ambient context stacks.

Effect bodies and batch bodies are reified as `Stmt` syntax; computed
bodies as `PExp` syntax. The interpreter `step` is structurally recursive
on a fuel argument so every run is computable by kernel reduction; running
out of fuel freezes the state (`fuelOut`), and a raised exception (the
library's single `throw`, the illegal-write error in `set`) freezes the
state with `err := true` and skips all remaining work — including stack
pops, exactly as the source's `push; fn(); pop` with no `finally` does.

Observation instrumentation (pure ghost fields that no operation reads):
`runs` records each invocation of an effect's `fn` (construction and
trigger re-runs), `evals` records each invocation of a computed's `fn`,
`log` records the values seen by read statements.
-/

namespace SignalModel

/-- Pure expressions: the bodies of derived computations (`computed` fns).
They may read signals, read other computeds, and combine values. -/
inductive PExp where
  | const : Int → PExp
  | readSig : Nat → PExp
  | readComp : Nat → PExp
  | add : PExp → PExp → PExp
deriving Repr, DecidableEq

/-- Statements: effect bodies, batch bodies and top-level scripts.
`readS`/`readC` log the value read (like `log.push(a())` in the tests);
`ifPos s t e` reads signal `s` and branches on whether its value is
positive; `mkEff allow body` is a nested `effect(body, {allowSignalWrites:
allow})` call; `batchS` is `batchSet`. `mutateS` carries the in-place
mutation as a function on the held value. -/
inductive Stmt where
  | readS : Nat → Stmt
  | readC : Nat → Stmt
  | setS : Nat → Int → Stmt
  | mutateS : Nat → (Int → Int) → Stmt
  | mkEff : Bool → List Stmt → Stmt
  | ifPos : Nat → List Stmt → List Stmt → Stmt
  | batchS : List Stmt → Stmt

/-- One reactive cell: the closure state of one `signal(value, options)`
call — `current`, the equality function, the `triggers` set (insertion
ordered, deduplicated) and the `cacheInvalidators` array (duplicates
kept). Triggers are identified by the id of the effect instance owning
them; invalidators by the id of the computed owning them. -/
structure SigSt where
  current : Int
  equal : Int → Int → Bool
  triggers : List Nat
  cacheInvalidators : List Nat

/-- One derived computation: the closure state of one `computed(fn)` call.
`lateEffects` models `onLateEffects`: each recorded callback, given a
future effect context, wires that context's trigger to one upstream
signal, so an entry is identified by that signal's id. -/
structure CompSt where
  body : PExp
  hasCache : Bool
  cached : Int
  lateEffects : List Nat

/-- One effect instance: the closure state of one `effect(fn, options)`
call. Each `onDestroy` teardown deletes this instance's trigger from one
signal's trigger set, so an entry is identified by that signal's id. -/
structure EffSt where
  body : List Stmt
  allowWrites : Bool
  onDestroy : List Nat
  childEffects : List Nat

/-- The global state: the allocated cells, computeds and effect instances,
the three module-level context stacks (head = top of stack; a batch
context is its pending-trigger set), and the ghost observation fields. -/
structure St where
  sigs : List SigSt
  comps : List CompSt
  effs : List EffSt
  effStack : List Nat
  compStack : List Nat
  batchStack : List (List Nat)
  runs : List Nat
  evals : List Nat
  log : List Int
  err : Bool
  fuelOut : Bool

/-- Execution is frozen: an exception is propagating or fuel ran out. -/
def halt (s : St) : Bool := s.err || s.fuelOut

/-- Freeze the state because the interpreter's fuel ran out. -/
def stall (s : St) : St := { s with fuelOut := true }

/-- Update the `i`-th element of a list in place (no-op out of range). -/
def updAt : List α → Nat → (α → α) → List α
  | [], _, _ => []
  | a :: l, 0, g => g a :: l
  | a :: l, n+1, g => a :: updAt l n g

def dummySig : SigSt := ⟨0, fun _ _ => true, [], []⟩
def dummyComp : CompSt := ⟨.const 0, false, 0, []⟩
def dummyEff : EffSt := ⟨[], false, [], []⟩

def getSig (s : St) (i : Nat) : SigSt := s.sigs.getD i dummySig
def getComp (s : St) (j : Nat) : CompSt := s.comps.getD j dummyComp
def getEff (s : St) (e : Nat) : EffSt := s.effs.getD e dummyEff

def updSig (i : Nat) (g : SigSt → SigSt) (s : St) : St :=
  { s with sigs := updAt s.sigs i g }
def updComp (j : Nat) (g : CompSt → CompSt) (s : St) : St :=
  { s with comps := updAt s.comps j g }
def updEff (e : Nat) (g : EffSt → EffSt) (s : St) : St :=
  { s with effs := updAt s.effs e g }

/-- JS `Set.add`: append if not already present (insertion-ordered
deduplication). -/
def addIfAbsent (x : Nat) (l : List Nat) : List Nat :=
  if x ∈ l then l else l ++ [x]

/-- Add every element of `src`, in order, to the set `dst`
(`triggers.forEach(t => batchContext.triggers.add(t))`). -/
def addAll (src dst : List Nat) : List Nat :=
  src.foldl (fun d t => addIfAbsent t d) dst

/-- The signal getter (signal.ts lines 41-60): if an effect context is
active (top of stack), add its trigger to this signal's set and record the
matching teardown; then, for every active computed context in array order
(bottom of stack first), record this signal's invalidator for it and a
late-binding callback on it; finally return the current value. -/
def sigRead (i : Nat) (s : St) : Int × St :=
  if halt s then (0, s) else
  let s1 := match s.effStack.head? with
    | some e =>
        updEff e (fun ef => { ef with onDestroy := ef.onDestroy ++ [i] })
          (updSig i (fun sg => { sg with triggers := addIfAbsent e sg.triggers }) s)
    | none => s
  let s2 := s1.compStack.reverse.foldl
    (fun st c =>
      updComp c (fun cc => { cc with lateEffects := cc.lateEffects ++ [i] })
        (updSig i (fun sg => { sg with cacheInvalidators := sg.cacheInvalidators ++ [c] }) st))
    s1
  ((getSig s2 i).current, s2)

/-- `EffectRef.destroy` (signal.ts lines 139-143): run every teardown;
each deletes this effect's trigger from one signal's trigger set. The
teardown list itself is kept (replaying it is a no-op). -/
def destroyEff (e : Nat) (s : St) : St :=
  (getEff s e).onDestroy.foldl
    (fun st w => updSig w (fun sg => { sg with triggers := sg.triggers.erase e }) st) s

/-- `cacheInvalidators.forEach(fn => fn())`: clear each listed computed's
cache. -/
def invalidateAll (cs : List Nat) (s : St) : St :=
  cs.foldl (fun st c => updComp c (fun cc => { cc with hasCache := false }) st) s

/-- Run a computed's recorded late-binding callbacks against effect
context `e` (signal.ts line 107 calling the closures from lines 52-56):
each wires `e`'s trigger onto one upstream signal and records the matching
teardown. -/
def wireLate (ws : List Nat) (e : Nat) (s : St) : St :=
  ws.foldl
    (fun st w =>
      updEff e (fun ef => { ef with onDestroy := ef.onDestroy ++ [w] })
        (updSig w (fun sg => { sg with triggers := addIfAbsent e sg.triggers }) st)) s

/-- The interpreter's call forms: expression evaluation, computed read,
statement execution, and the library operations that can re-enter user
code (`set`'s propagation runs triggers, effect construction runs the
body, `batchSet` runs the body then flushes). -/
inductive Call where
  | evalP : PExp → Call
  | compRead : Nat → Call
  | execStmt : Stmt → Call
  | execStmts : List Stmt → Call
  | setSig : Nat → Int → Call
  | mutateSig : Nat → (Int → Int) → Call
  | propagate : Nat → Call
  | runTrig : Nat → Call
  | runTrigs : List Nat → Call
  | fireTrigs : Nat → Nat → Call
  | mkEffRun : Bool → List Stmt → Call
  | batchRun : List Stmt → Call

/-- One interpreter layer: `r` performs the recursive calls. Mirrors
signal.ts case by case; see each branch's comment. -/
def stepB (r : Call → St → Int × St) (c : Call) (s : St) : Int × St :=
  if halt s then (0, s) else
  match c with
  | .evalP e =>
    match e with
    | .const n => (n, s)
    | .readSig i => sigRead i s
    | .readComp j => r (.compRead j) s
    | .add e1 e2 =>
      let p1 := r (.evalP e1) s
      let p2 := r (.evalP e2) p1.2
      (p1.1 + p2.1, p2.2)
  | .compRead j =>
    -- computed's returned closure (lines 101-116)
    let cc := getComp s j
    if cc.hasCache then
      match s.effStack.head? with
      | some e => (cc.cached, wireLate cc.lateEffects e s)
      | none => (cc.cached, s)
    else
      -- push context; record the fn() invocation; evaluate; cache; pop.
      -- On an exception the pop and the cache write are skipped.
      let s1 := { s with compStack := j :: s.compStack, evals := s.evals ++ [j] }
      let p := r (.evalP cc.body) s1
      if halt p.2 then p else
      let s3 := updComp j (fun c0 => { c0 with cached := p.1, hasCache := true }) p.2
      (p.1, { s3 with compStack := s3.compStack.tail })
  | .execStmt st =>
    match st with
    | .readS i =>
      let p := sigRead i s
      if halt p.2 then (0, p.2) else (0, { p.2 with log := p.2.log ++ [p.1] })
    | .readC j =>
      let p := r (.compRead j) s
      if halt p.2 then (0, p.2) else (0, { p.2 with log := p.2.log ++ [p.1] })
    | .setS i v => r (.setSig i v) s
    | .mutateS i mf => r (.mutateSig i mf) s
    | .mkEff allow body => r (.mkEffRun allow body) s
    | .ifPos i thn els =>
      let p := sigRead i s
      if halt p.2 then (0, p.2)
      else if 0 < p.1 then r (.execStmts thn) p.2
      else r (.execStmts els) p.2
    | .batchS body => r (.batchRun body) s
  | .execStmts l =>
    match l with
    | [] => (0, s)
    | st :: rest =>
      let p := r (.execStmt st) s
      r (.execStmts rest) p.2
  | .setSig i v =>
    -- set (lines 71-81): illegal-write check, equality short-circuit,
    -- assign, propagate.
    let ok := match s.effStack.head? with
      | some e => (getEff s e).allowWrites
      | none => true
    if !ok then (0, { s with err := true }) else
    if (getSig s i).equal v (getSig s i).current then (0, s) else
    r (.propagate i) (updSig i (fun sg => { sg with current := v }) s)
  | .mutateSig i mf =>
    -- mutate (lines 85-88): apply the mutation, then propagate — no
    -- effect-context check and no equality check.
    r (.propagate i) (updSig i (fun sg => { sg with current := mf sg.current }) s)
  | .propagate i =>
    -- propagateChanges (lines 62-70): invalidators first; inside a batch,
    -- route the triggers into the innermost pending set and return;
    -- otherwise fire each trigger in insertion order.
    let s1 := invalidateAll (getSig s i).cacheInvalidators s
    match s1.batchStack with
    | pend :: rest =>
        (0, { s1 with batchStack := addAll (getSig s1 i).triggers pend :: rest })
    | [] => r (.fireTrigs i 0) s1
  | .runTrig e =>
    -- an effect's trigger (lines 130-134): destroy recorded child
    -- effects, then re-run fn. The childEffects list is not cleared, and
    -- no effect context is pushed for the re-run.
    let s1 := (getEff s e).childEffects.foldl (fun st ce => destroyEff ce st) s
    let s2 := { s1 with runs := s1.runs ++ [e] }
    r (.execStmts (getEff s2 e).body) s2
  | .runTrigs ts =>
    match ts with
    | [] => (0, s)
    | t :: rest =>
      let p := r (.runTrig t) s
      r (.runTrigs rest) p.2
  | .fireTrigs i k =>
    -- `triggers.forEach((fn) => fn())` (signal.ts line 69) iterates the
    -- LIVE Set: entries appended during propagation are visited too. The
    -- getter only ever appends (addIfAbsent), so position-based iteration
    -- over the current list is the Set's visit order: fire the `k`-th
    -- trigger of the cell's CURRENT dependent list, then move on.
    match (getSig s i).triggers.drop k with
    | [] => (0, s)
    | t :: _ =>
      let p := r (.runTrig t) s
      r (.fireTrigs i (k+1)) p.2
  | .mkEffRun allow body =>
    -- effect (lines 127-148): remember the parent context, allocate the
    -- instance, push its context, run fn once, pop, and register with the
    -- parent. On an exception the pop and the parent link are skipped.
    let parent := s.effStack.head?
    let e := s.effs.length
    let s1 := { s with effs := s.effs ++ [⟨body, allow, [], []⟩],
                       effStack := e :: s.effStack, runs := s.runs ++ [e] }
    let p := r (.execStmts body) s1
    if halt p.2 then (0, p.2) else
    let s3 := { p.2 with effStack := p.2.effStack.tail }
    match parent with
    | some pa => (0, updEff pa (fun ef => { ef with childEffects := ef.childEffects ++ [e] }) s3)
    | none => (0, s3)
  | .batchRun body =>
    -- batchSet (lines 150-158): push a fresh pending set, run fn, pop,
    -- then fire every pending trigger once. On an exception the pop and
    -- the flush are skipped.
    let s1 := { s with batchStack := [] :: s.batchStack }
    let p := r (.execStmts body) s1
    if halt p.2 then (0, p.2) else
    match p.2.batchStack with
    | pend :: rest => r (.runTrigs pend) { p.2 with batchStack := rest }
    | [] => (0, p.2)

/-- The fueled interpreter: each call layer consumes one unit of fuel. -/
def step : Nat → Call → St → Int × St
  | 0, _, s => (0, stall s)
  | f+1, c, s => stepB (step f) c s

/-- Freshly created signals: given initial values, default (`===`)
equality, no dependents, no invalidators. -/
def mkSigs (vals : List Int) : List SigSt :=
  vals.map (fun v => ⟨v, fun a b => a == b, [], []⟩)

/-- Freshly created computeds: given bodies, no cache yet, empty
late-binding lists. -/
def mkComps (bodies : List PExp) : List CompSt :=
  bodies.map (fun b => ⟨b, false, 0, []⟩)

/-- Initial state: the given cells and computeds exist, nothing else. -/
def mkSt (vals : List Int) (bodies : List PExp) : St :=
  ⟨mkSigs vals, mkComps bodies, [], [], [], [], [], [], [], false, false⟩

/-- Run a top-level script (no ambient contexts beyond those in `s`). -/
def runProg (fuel : Nat) (prog : List Stmt) (s : St) : St :=
  (step fuel (.execStmts prog) s).2

/-- The condition under which `set` throws (signal.ts lines 72-75): an
effect context is active (innermost, top of stack) and its
`allowSignalWrites` option is not `true`. -/
def illegalWrite (s : St) : Bool :=
  match s.effStack.head? with
  | some e => !(getEff s e).allowWrites
  | none => false

mutual

/-- A statement contains no `set` call, at any nesting depth. -/
def setFreeS : Stmt → Bool
  | .setS _ _ => false
  | .mkEff _ body => setFreeL body
  | .ifPos _ thn els => setFreeL thn && setFreeL els
  | .batchS body => setFreeL body
  | .readS _ => true
  | .readC _ => true
  | .mutateS _ _ => true

/-- A statement list contains no `set` call. -/
def setFreeL : List Stmt → Bool
  | [] => true
  | st :: rest => setFreeS st && setFreeL rest

end

/-- Every effect instance's body is free of `set` calls. -/
def SetFreeSt (s : St) : Prop :=
  ∀ e, setFreeL (getEff s e).body = true

/-- Whether the interpreter call re-enters only set-free user code. -/
def CallSetFree : Call → Prop
  | .execStmt st => setFreeS st = true
  | .execStmts l => setFreeL l = true
  | .mkEffRun _ body => setFreeL body = true
  | .batchRun body => setFreeL body = true
  | .setSig _ _ => False
  | _ => True

/-- A statement list consisting only of plain signal reads, all of cells
below index `n`. -/
def readsIn : List Stmt → Nat → Bool
  | [], _ => true
  | .readS i :: rest, n => decide (i < n) && readsIn rest n
  | _, _ => false

/-- The cells read by a reads-only statement list, in order. -/
def readsOf : List Stmt → List Nat
  | .readS i :: rest => i :: readsOf rest
  | _ => []

/-- `[j, j-1, ..., 1, 0]`: the order in which a chain of computeds
records its cache invalidations and fn evaluations. -/
def desc : Nat → List Nat
  | 0 => [0]
  | j+1 => (j+1) :: desc j

/-- The body of the `i`-th computed in a linear chain: computed `0`
reads cell `0`; computed `i+1` reads computed `i`. -/
def chainBody : Nat → PExp
  | 0 => .readSig 0
  | i+1 => .readComp i

/-- The bodies of a linear chain of computeds: computed `0` reads cell
`0`; computed `i+1` reads computed `i`. -/
def chainBodies (k : Nat) : List PExp :=
  (List.range k).map (fun i => match i with
    | 0 => .readSig 0
    | i'+1 => .readComp i')

/-- An effect body reading each of the first `n` cells. -/
def readAll (n : Nat) : List Stmt :=
  (List.range n).map (fun i => .readS i)

/-- A batch body writing value `w i` to each of the first `n` cells. -/
def writesOf (n : Nat) (w : Nat → Int) : List Stmt :=
  (List.range n).map (fun i => .setS i (w i))

/-- The computeds directly mentioned (read) by an expression. Every
subterm of a `PExp` is evaluated unconditionally, so these are exactly
the computeds whose read is reached whenever the expression runs. -/
def mentComps : PExp → List Nat
  | .const _ => []
  | .readSig _ => []
  | .readComp j => [j]
  | .add e1 e2 => mentComps e1 ++ mentComps e2

/-- Every computed's body reads only computeds of strictly smaller index
(creation order): the dependency graph among computeds is acyclic. -/
def AcyclicComps (s : St) : Prop :=
  ∀ j, ∀ j' ∈ mentComps (getComp s j).body, j' < j

/-- Guard for the expression-evaluation calls: every computed whose `fn`
can be entered has index below `K`. Other call forms are excluded. -/
def evalGuard : Call → Nat → Prop
  | .evalP e, K => ∀ j' ∈ mentComps e, j' < K
  | .compRead j, K => j < K
  | _, _ => False

/-- Statements that only read (plain or computed): they never touch the
`runs` ghost — no effect body is entered on their behalf. -/
def calmS : Stmt → Bool
  | .readS _ => true
  | .readC _ => true
  | _ => false

def calmL : List Stmt → Bool
  | [] => true
  | st :: rest => calmS st && calmL rest

/-- Calls whose execution never appends to `runs`. -/
def calmCall : Call → Prop
  | .evalP _ => True
  | .compRead _ => True
  | .execStmt st => calmS st = true
  | .execStmts l => calmL l = true
  | _ => False

/-- A state captured during the construction run of a non-`allowWrites`
effect: its context sits on the effect stack, so a `set` here is the
illegal-write case. -/
def illegalSt : St :=
  { mkSt [1] [] with effs := [⟨[], false, [], []⟩], effStack := [0], runs := [0] }

/-- One cell holding 5 whose dependent set holds effect 0's trigger (the
effect body reads cell 0) and whose invalidator list names computed 0 —
the state after `c = computed(() => s()); c(); effect(() => log(s()))`. -/
def c8St : St :=
  ⟨[⟨5, fun a b => a == b, [0], [0]⟩], [⟨.readSig 0, true, 5, [0]⟩],
   [⟨[.readS 0], false, [0], []⟩], [], [], [], [0], [0], [5], false, false⟩

/-- The same state inside an open batch scope with no pending triggers. -/
def c8BatchSt : St :=
  { c8St with batchStack := [[]] }

/-- The state after `effect(() => { if (s1() > 0) log(s0()) })` on fresh
cells `[a, 1]`: the construction run read cell 1 (positive) then cell 0,
registering the effect's trigger on both. -/
def c10S1 (a : Int) : St :=
  ⟨[⟨a, fun x y => x == y, [0], []⟩, ⟨1, fun x y => x == y, [0], []⟩], [],
   [⟨[.ifPos 1 [.readS 0] []], false, [1, 0], []⟩], [], [], [], [0], [], [a], false, false⟩

/-- ... then after `set 1 (-1)`: the dependent effect re-ran once down its
else branch (no reads, no registration — a re-run pushes no context). -/
def c10S2 (a : Int) : St :=
  ⟨[⟨a, fun x y => x == y, [0], []⟩, ⟨-1, fun x y => x == y, [0], []⟩], [],
   [⟨[.ifPos 1 [.readS 0] []], false, [1, 0], []⟩], [], [], [], [0, 0], [], [a], false, false⟩

/-- ... then after `effect(() => mutate(0, mf))`: the mutation was applied
with no error and propagated; effect 0 re-ran under effect 1's still-open
construction context, so its read of cell 1 wired effect 1's trigger onto
cell 1 — the set that grew mid-propagation is cell 1's, not the iterated
cell 0's, so the live iteration terminated. -/
def c10S3 (a : Int) (mf : Int → Int) : St :=
  ⟨[⟨mf a, fun x y => x == y, [0], []⟩, ⟨-1, fun x y => x == y, [0, 1], []⟩], [],
   [⟨[.ifPos 1 [.readS 0] []], false, [1, 0], []⟩, ⟨[.mutateS 0 mf], false, [1], []⟩],
   [], [], [], [0, 0, 1, 0], [], [a], false, false⟩

/-- The control-and-observation part of a state: the three context
stacks, the ghost fields and the failure flags. The registration helpers
(`sigRead`, `wireLate`, `destroyEff`, `invalidateAll`) never touch it. -/
def ctl (s : St) :
    List Nat × List Nat × List (List Nat) × List Nat × List Nat × List Int × Bool × Bool :=
  (s.effStack, s.compStack, s.batchStack, s.runs, s.evals, s.log, s.err, s.fuelOut)

/-! ## Basic lemmas about the list helpers -/

theorem updAt_length (l : List α) (i : Nat) (g : α → α) :
    (updAt l i g).length = l.length := by
  induction l generalizing i with
  | nil => rfl
  | cons a t ih => cases i <;> simp [updAt, ih]

theorem getD_updAt_self (l : List α) (i : Nat) (g : α → α) (d : α)
    (h : i < l.length) : (updAt l i g).getD i d = g (l.getD i d) := by
  induction l generalizing i with
  | nil => simp at h
  | cons a t ih =>
    cases i with
    | zero => simp [updAt]
    | succ i => simpa [updAt] using ih i (by simpa using h)

theorem getD_updAt_ne (l : List α) (i j : Nat) (g : α → α) (d : α)
    (h : i ≠ j) : (updAt l i g).getD j d = l.getD j d := by
  induction l generalizing i j with
  | nil => rfl
  | cons a t ih =>
    cases i with
    | zero => cases j with
      | zero => exact absurd rfl h
      | succ j => simp [updAt]
    | succ i => cases j with
      | zero => simp [updAt]
      | succ j => simpa [updAt] using ih i j (by omega)

theorem updAt_ge (l : List α) (i : Nat) (g : α → α) (h : l.length ≤ i) :
    updAt l i g = l := by
  induction l generalizing i with
  | nil => rfl
  | cons a t ih =>
    cases i with
    | zero => simp at h
    | succ i => simp [updAt, ih i (by simpa using h)]

theorem getD_append_lt (l l' : List α) (n : Nat) (d : α) (h : n < l.length) :
    (l ++ l').getD n d = l.getD n d := by
  induction l generalizing n with
  | nil => simp at h
  | cons a t ih =>
    cases n with
    | zero => simp
    | succ n => simpa using ih n (by simpa using h)

theorem getD_append_ge (l l' : List α) (n : Nat) (d : α) (h : l.length ≤ n) :
    (l ++ l').getD n d = l'.getD (n - l.length) d := by
  induction l generalizing n with
  | nil => simp
  | cons a t ih =>
    cases n with
    | zero => simp at h
    | succ n => simpa [Nat.succ_sub_succ] using ih n (by simpa using h)

theorem mem_addIfAbsent (x y : Nat) (l : List Nat) :
    y ∈ addIfAbsent x l ↔ y ∈ l ∨ y = x := by
  by_cases hx : x ∈ l
  · simp only [addIfAbsent, if_pos hx]
    constructor
    · exact fun h => Or.inl h
    · rintro (h | rfl) <;> [exact h; exact hx]
  · simp [addIfAbsent, if_neg hx]

theorem addIfAbsent_of_mem (x : Nat) (l : List Nat) (h : x ∈ l) :
    addIfAbsent x l = l := by simp [addIfAbsent, h]

/-! ## Basic lemmas about the interpreter -/

theorem step_zero (c : Call) (s : St) : step 0 c s = (0, stall s) := rfl

theorem step_succ (f : Nat) (c : Call) (s : St) :
    step (f+1) c s = stepB (step f) c s := rfl

theorem stepB_halt (r : Call → St → Int × St) (c : Call) (s : St)
    (h : halt s = true) : stepB r c s = (0, s) := by
  cases c <;> simp [stepB, h]

theorem halt_stall (s : St) : halt (stall s) = true := by simp [halt, stall]

theorem halt_mono (f : Nat) (c : Call) (s : St) (h : halt s = true) :
    halt (step f c s).2 = true := by
  cases f with
  | zero => simpa [step_zero] using halt_stall s
  | succ f => simp [step_succ, stepB_halt _ _ _ h, h]

theorem live_of (f : Nat) (c : Call) (s : St)
    (h : halt (step f c s).2 = false) : halt s = false := by
  by_contra hc
  rw [halt_mono f c s (by simpa using Bool.not_eq_false _ ▸ hc)] at h
  · exact absurd h (by simp)

theorem live_fuel (f : Nat) (c : Call) (s : St)
    (h : halt (step f c s).2 = false) : ∃ f', f = f' + 1 := by
  cases f with
  | zero => simp [step_zero, halt_stall] at h
  | succ f => exact ⟨f, rfl⟩

/-! ## Frame lemmas: the registration helpers leave `ctl` alone -/

theorem ctl_parts {s s' : St} (h : ctl s' = ctl s) :
    s'.effStack = s.effStack ∧ s'.compStack = s.compStack ∧
    s'.batchStack = s.batchStack ∧ s'.runs = s.runs ∧ s'.evals = s.evals ∧
    s'.log = s.log ∧ s'.err = s.err ∧ s'.fuelOut = s.fuelOut := by
  simpa [ctl, Prod.ext_iff] using h

theorem ctl_updSig (i : Nat) (g : SigSt → SigSt) (s : St) :
    ctl (updSig i g s) = ctl s := rfl

theorem ctl_updComp (j : Nat) (g : CompSt → CompSt) (s : St) :
    ctl (updComp j g s) = ctl s := rfl

theorem ctl_updEff (e : Nat) (g : EffSt → EffSt) (s : St) :
    ctl (updEff e g s) = ctl s := rfl

theorem ctl_foldl {α : Type} (g : St → α → St)
    (hg : ∀ st a, ctl (g st a) = ctl st) (L : List α) (s : St) :
    ctl (L.foldl g s) = ctl s := by
  induction L generalizing s with
  | nil => rfl
  | cons a t ih => rw [List.foldl_cons, ih, hg]

theorem ctl_sigRead (i : Nat) (s : St) : ctl (sigRead i s).2 = ctl s := by
  unfold sigRead
  by_cases hh : halt s
  · simp [hh]
  · simp only [hh, Bool.false_eq_true, if_false]
    have h2 : ∀ (st : St) (c : Nat),
        ctl (updComp c (fun cc => { cc with lateEffects := cc.lateEffects ++ [i] })
          (updSig i (fun sg => { sg with cacheInvalidators := sg.cacheInvalidators ++ [c] }) st))
          = ctl st := fun _ _ => rfl
    cases s.effStack.head? with
    | none => exact ctl_foldl _ h2 _ _
    | some e => exact ctl_foldl _ h2 _ _

theorem ctl_destroyEff (e : Nat) (s : St) : ctl (destroyEff e s) = ctl s := by
  unfold destroyEff
  apply ctl_foldl
  intro st a
  rfl

theorem ctl_invalidateAll (cs : List Nat) (s : St) :
    ctl (invalidateAll cs s) = ctl s := by
  unfold invalidateAll
  apply ctl_foldl
  intro st a
  rfl

theorem ctl_wireLate (ws : List Nat) (e : Nat) (s : St) :
    ctl (wireLate ws e s) = ctl s := by
  unfold wireLate
  apply ctl_foldl
  intro st a
  rfl

/-! ## Stack discipline: normal completion restores the context stacks -/

/-- Any interpreter call that completes without halting restores the
effect- and computed-context stacks exactly (they hold context
identities), and restores the batch stack's depth (a batch context's
pending set may have gained triggers, as in the source, where the stack
holds mutable context objects). -/
theorem stacks_restored (f : Nat) : ∀ (c : Call) (s : St),
    halt (step f c s).2 = false →
    (step f c s).2.effStack = s.effStack ∧
    (step f c s).2.compStack = s.compStack ∧
    (step f c s).2.batchStack.length = s.batchStack.length := by
  induction f with
  | zero => intro c s h; simp [step_zero, halt_stall] at h
  | succ f ih =>
    intro c s h
    have hs : halt s = false := live_of _ _ _ h
    rw [step_succ] at h ⊢
    cases c with
    | evalP e =>
      cases e with
      | const n => simp [stepB, hs]
      | readSig i =>
        simp only [stepB, hs, Bool.false_eq_true, if_false]
        obtain ⟨h1, h2, h3, -⟩ := ctl_parts (ctl_sigRead i s)
        exact ⟨h1, h2, by rw [h3]⟩
      | readComp j =>
        simp only [stepB, hs, Bool.false_eq_true, if_false] at h ⊢
        exact ih _ _ h
      | add e1 e2 =>
        simp only [stepB, hs, Bool.false_eq_true, if_false] at h ⊢
        have hm : halt (step f (.evalP e1) s).2 = false := live_of _ _ _ h
        obtain ⟨a1, a2, a3⟩ := ih _ _ hm
        obtain ⟨b1, b2, b3⟩ := ih _ _ h
        exact ⟨b1.trans a1, b2.trans a2, b3.trans a3⟩
    | compRead j =>
      simp only [stepB, hs, Bool.false_eq_true, if_false] at h ⊢
      by_cases hc : (getComp s j).hasCache
      · simp only [hc, if_true] at h ⊢
        cases hh : s.effStack.head? with
        | some e =>
          simp only [hh] at h ⊢
          obtain ⟨h1, h2, h3, -⟩ := ctl_parts (ctl_wireLate (getComp s j).lateEffects e s)
          exact ⟨h1, h2, by rw [h3]⟩
        | none => simp [hh]
      · simp only [hc, if_false] at h ⊢
        set s1 : St := ({ s with compStack := j :: s.compStack, evals := s.evals ++ [j] } : St) with hs1
        by_cases hp : halt (step f (.evalP (getComp s j).body) s1).2
        · simp only [hp, if_true] at h ⊢
          exact absurd h (by simp [hp])
        · simp only [hp, Bool.false_eq_true, if_false] at h ⊢
          obtain ⟨a1, a2, a3⟩ := ih _ _ (by simpa using hp)
          refine ⟨?_, ?_, ?_⟩ <;> simp [updComp, a1, a2, a3, hs1]
    | execStmt st =>
      cases st with
      | readS i =>
        simp only [stepB, hs, Bool.false_eq_true, if_false] at h ⊢
        obtain ⟨h1, h2, h3, -⟩ := ctl_parts (ctl_sigRead i s)
        by_cases hp : halt (sigRead i s).2
        · simp only [hp, if_true]; exact ⟨h1, h2, by rw [h3]⟩
        · simp only [hp, Bool.false_eq_true, if_false]
          exact ⟨h1, h2, by rw [h3]⟩
      | readC j =>
        simp only [stepB, hs, Bool.false_eq_true, if_false] at h ⊢
        by_cases hp : halt (step f (.compRead j) s).2
        · simp only [hp, if_true] at h ⊢
          exact absurd h (by simp [hp])
        · simp only [hp, Bool.false_eq_true, if_false] at h ⊢
          obtain ⟨a1, a2, a3⟩ := ih _ _ (by simpa using hp)
          exact ⟨a1, a2, a3⟩
      | setS i v =>
        simp only [stepB, hs, Bool.false_eq_true, if_false] at h ⊢
        exact ih _ _ h
      | mutateS i mf =>
        simp only [stepB, hs, Bool.false_eq_true, if_false] at h ⊢
        exact ih _ _ h
      | mkEff allow body =>
        simp only [stepB, hs, Bool.false_eq_true, if_false] at h ⊢
        exact ih _ _ h
      | ifPos i thn els =>
        simp only [stepB, hs, Bool.false_eq_true, if_false] at h ⊢
        obtain ⟨h1, h2, h3, -⟩ := ctl_parts (ctl_sigRead i s)
        by_cases hp : halt (sigRead i s).2
        · simp only [hp, if_true] at h ⊢
          exact absurd h (by simp [hp])
        · simp only [hp, Bool.false_eq_true, if_false] at h ⊢
          by_cases hv : 0 < (sigRead i s).1
          · simp only [hv, if_true] at h ⊢
            obtain ⟨a1, a2, a3⟩ := ih _ _ h
            exact ⟨a1.trans h1, a2.trans h2, by rw [a3, h3]⟩
          · simp only [hv, if_false] at h ⊢
            obtain ⟨a1, a2, a3⟩ := ih _ _ h
            exact ⟨a1.trans h1, a2.trans h2, by rw [a3, h3]⟩
      | batchS body =>
        simp only [stepB, hs, Bool.false_eq_true, if_false] at h ⊢
        exact ih _ _ h
    | execStmts l =>
      cases l with
      | nil => simp [stepB, hs]
      | cons st rest =>
        simp only [stepB, hs, Bool.false_eq_true, if_false] at h ⊢
        have hm : halt (step f (.execStmt st) s).2 = false := live_of _ _ _ h
        obtain ⟨a1, a2, a3⟩ := ih _ _ hm
        obtain ⟨b1, b2, b3⟩ := ih _ _ h
        exact ⟨b1.trans a1, b2.trans a2, b3.trans a3⟩
    | setSig i v =>
      simp only [stepB, hs, Bool.false_eq_true, if_false] at h ⊢
      cases hh : s.effStack.head? with
      | some e =>
        simp only [hh] at h ⊢
        by_cases ha : (getEff s e).allowWrites
        · simp only [ha, Bool.not_true, Bool.false_eq_true, if_false] at h ⊢
          by_cases he : (getSig s i).equal v (getSig s i).current
          · simp [he]
          · simp only [he, Bool.false_eq_true, if_false] at h ⊢
            exact ih _ _ h
        · simp only [ha] at h ⊢
          simp only [Bool.not_false, if_true] at h ⊢
          exact absurd h (by simp [halt])
      | none =>
        simp only [hh] at h ⊢
        simp only [Bool.not_true, Bool.false_eq_true, if_false] at h ⊢
        by_cases he : (getSig s i).equal v (getSig s i).current
        · simp [he]
        · simp only [he, Bool.false_eq_true, if_false] at h ⊢
          exact ih _ _ h
    | mutateSig i mf =>
      simp only [stepB, hs, Bool.false_eq_true, if_false] at h ⊢
      exact ih _ _ h
    | propagate i =>
      simp only [stepB, hs, Bool.false_eq_true, if_false] at h ⊢
      obtain ⟨c1, c2, c3, -⟩ := ctl_parts (ctl_invalidateAll (getSig s i).cacheInvalidators s)
      cases hb : (invalidateAll (getSig s i).cacheInvalidators s).batchStack with
      | cons pend rest =>
        simp only [hb] at h ⊢
        refine ⟨c1, c2, ?_⟩
        have : s.batchStack = pend :: rest := by rw [← c3, hb]
        simp [this]
      | nil =>
        simp only [hb] at h ⊢
        obtain ⟨a1, a2, a3⟩ := ih _ _ h
        exact ⟨a1.trans c1, a2.trans c2, by rw [a3, c3]⟩
    | runTrig e =>
      simp only [stepB, hs, Bool.false_eq_true, if_false] at h ⊢
      have hctl : ctl ((getEff s e).childEffects.foldl (fun st ce => destroyEff ce st) s) = ctl s :=
        ctl_foldl _ (fun st ce => ctl_destroyEff ce st) _ _
      obtain ⟨c1, c2, c3, -⟩ := ctl_parts hctl
      obtain ⟨a1, a2, a3⟩ := ih _ _ h
      refine ⟨?_, ?_, ?_⟩
      · rw [a1]; simpa using c1
      · rw [a2]; simpa using c2
      · rw [a3]; simpa using congrArg List.length c3
    | runTrigs ts =>
      cases ts with
      | nil => simp [stepB, hs]
      | cons t rest =>
        simp only [stepB, hs, Bool.false_eq_true, if_false] at h ⊢
        have hm : halt (step f (.runTrig t) s).2 = false := live_of _ _ _ h
        obtain ⟨a1, a2, a3⟩ := ih _ _ hm
        obtain ⟨b1, b2, b3⟩ := ih _ _ h
        exact ⟨b1.trans a1, b2.trans a2, b3.trans a3⟩
    | fireTrigs i k =>
      cases hd : (getSig s i).triggers.drop k with
      | nil => simp [stepB, hs, hd]
      | cons t rest =>
        simp only [stepB, hs, Bool.false_eq_true, if_false, hd] at h ⊢
        have hm : halt (step f (.runTrig t) s).2 = false := live_of _ _ _ h
        obtain ⟨a1, a2, a3⟩ := ih _ _ hm
        obtain ⟨b1, b2, b3⟩ := ih _ _ h
        exact ⟨b1.trans a1, b2.trans a2, b3.trans a3⟩
    | mkEffRun allow body =>
      simp only [stepB, hs, Bool.false_eq_true, if_false] at h ⊢
      set s1 : St := ({ s with effs := s.effs ++ [⟨body, allow, [], []⟩], effStack := s.effs.length :: s.effStack, runs := s.runs ++ [s.effs.length] } : St) with hs1
      by_cases hp : halt (step f (.execStmts body) s1).2
      · simp only [hp, if_true] at h ⊢
        exact absurd h (by simp [hp])
      · simp only [hp, Bool.false_eq_true, if_false] at h ⊢
        obtain ⟨a1, a2, a3⟩ := ih _ _ (by simpa using hp)
        cases hpar : s.effStack.head? with
        | some pa =>
          simp only [hpar] at h ⊢
          refine ⟨?_, ?_, ?_⟩ <;> simp [updEff, a1, a2, a3, hs1]
        | none =>
          simp only [hpar] at h ⊢
          refine ⟨?_, ?_, ?_⟩ <;> simp [a1, a2, a3, hs1]
    | batchRun body =>
      simp only [stepB, hs, Bool.false_eq_true, if_false] at h ⊢
      set s1 : St := ({ s with batchStack := [] :: s.batchStack } : St) with hs1
      by_cases hp : halt (step f (.execStmts body) s1).2
      · simp only [hp, if_true] at h ⊢
        exact absurd h (by simp [hp])
      · simp only [hp, Bool.false_eq_true, if_false] at h ⊢
        obtain ⟨a1, a2, a3⟩ := ih _ _ (by simpa using hp)
        cases hb : (step f (.execStmts body) s1).2.batchStack with
        | nil =>
          exfalso
          rw [hb] at a3
          simp [hs1] at a3
        | cons pend rest =>
          simp only [hb] at h ⊢
          obtain ⟨b1, b2, b3⟩ := ih _ _ h
          have hlen : (pend :: rest).length = s1.batchStack.length := by rw [← hb, a3]
          simp only [hs1, List.length_cons] at hlen
          refine ⟨?_, ?_, ?_⟩
          · rw [b1, a1]
          · rw [b2, a2]
          · rw [b3]
            show rest.length = s.batchStack.length
            omega

/-! ## C4 — stack discipline: restored on normal exit, corrupted on throw -/

/-- C4 counterexample: the claim fails on the exceptional path. An effect
whose body performs an illegal write raises the error during the
constructor's `fn()` call; the source has no `finally`, so the
`effectContextStack` pop is skipped: after the call the stack still holds
the effect's context (`[0]`), not its pre-call state (`[]`). A batch
whose body constructs such an effect likewise keeps its pushed batch
context. -/
theorem c4_stack_counterexample :
    (runProg 30 [.mkEff false [.setS 0 7]] (mkSt [0] [])).err = true ∧
    (runProg 30 [.mkEff false [.setS 0 7]] (mkSt [0] [])).effStack = [0] ∧
    (runProg 30 [.batchS [.mkEff false [.setS 0 7]]] (mkSt [0] [])).err = true ∧
    (runProg 30 [.batchS [.mkEff false [.setS 0 7]]] (mkSt [0] [])).batchStack = [[]] ∧
    (runProg 30 [.batchS [.mkEff false [.setS 0 7]]] (mkSt [0] [])).effStack = [0] := by
  decide

/-- C4 (amended): the context stacks are pushed on entry to and popped on
exit from their constructor calls in LIFO order on every normally
completing call (for the batch stack, whose entries are mutable pending
sets, the depth is restored); when the evaluated function raises, the pop
is skipped and the entry remains on the stack (see the counterexample). -/
theorem c4_stacks_lifo :
    (∀ (f : Nat) (allow : Bool) (body : List Stmt) (s : St),
      halt (step f (.mkEffRun allow body) s).2 = false →
      (step f (.mkEffRun allow body) s).2.effStack = s.effStack ∧
      (step f (.mkEffRun allow body) s).2.compStack = s.compStack ∧
      (step f (.mkEffRun allow body) s).2.batchStack.length = s.batchStack.length) ∧
    (∀ (f : Nat) (j : Nat) (s : St),
      halt (step f (.compRead j) s).2 = false →
      (step f (.compRead j) s).2.effStack = s.effStack ∧
      (step f (.compRead j) s).2.compStack = s.compStack ∧
      (step f (.compRead j) s).2.batchStack.length = s.batchStack.length) ∧
    (∀ (f : Nat) (body : List Stmt) (s : St),
      halt (step f (.batchRun body) s).2 = false →
      (step f (.batchRun body) s).2.effStack = s.effStack ∧
      (step f (.batchRun body) s).2.compStack = s.compStack ∧
      (step f (.batchRun body) s).2.batchStack.length = s.batchStack.length) :=
  ⟨fun f allow body s h => stacks_restored f (.mkEffRun allow body) s h,
   fun f j s h => stacks_restored f (.compRead j) s h,
   fun f body s h => stacks_restored f (.batchRun body) s h⟩

/-- C4 witness: concrete normally-completing instances of all three
constructor calls. -/
theorem c4_stacks_lifo_witness :
    (halt (step 20 (.mkEffRun false [.readS 0]) (mkSt [1] [])).2 = false ∧
      (step 20 (.mkEffRun false [.readS 0]) (mkSt [1] [])).2.effStack = (mkSt [1] []).effStack) ∧
    (halt (step 20 (.compRead 0) (mkSt [1] [.readSig 0])).2 = false ∧
      (step 20 (.compRead 0) (mkSt [1] [.readSig 0])).2.compStack = (mkSt [1] [.readSig 0]).compStack) ∧
    (halt (step 20 (.batchRun [.setS 0 5]) (mkSt [1] [])).2 = false ∧
      (step 20 (.batchRun [.setS 0 5]) (mkSt [1] [])).2.batchStack.length
        = (mkSt [1] []).batchStack.length) :=
  ⟨⟨by decide, (c4_stacks_lifo.1 20 false [.readS 0] (mkSt [1] []) (by decide)).1⟩,
   ⟨by decide, (c4_stacks_lifo.2.1 20 0 (mkSt [1] [.readSig 0]) (by decide)).2.1⟩,
   ⟨by decide, (c4_stacks_lifo.2.2 20 [.setS 0 5] (mkSt [1] []) (by decide)).2.2⟩⟩

/-! ## Error discipline: only `set` raises, and only on an illegal write -/

theorem getEff_updSig (i : Nat) (g : SigSt → SigSt) (s : St) (e : Nat) :
    getEff (updSig i g s) e = getEff s e := rfl

theorem getEff_updComp (j : Nat) (g : CompSt → CompSt) (s : St) (e : Nat) :
    getEff (updComp j g s) e = getEff s e := rfl

theorem getEff_updEff_body (e e' : Nat) (g : EffSt → EffSt)
    (hg : ∀ x, (g x).body = x.body) (s : St) :
    (getEff (updEff e g s) e').body = (getEff s e').body := by
  unfold getEff updEff
  rcases eq_or_ne e e' with rfl | hne
  · by_cases hl : e < s.effs.length
    · simp only [getD_updAt_self _ _ _ _ hl, hg]
    · rw [show (updAt s.effs e g) = s.effs from updAt_ge _ _ _ (by omega)]
  · simp only [getD_updAt_ne _ _ _ _ _ hne]

theorem setFreeSt_updEff (e : Nat) (g : EffSt → EffSt)
    (hg : ∀ x, (g x).body = x.body) (s : St) (h : SetFreeSt s) :
    SetFreeSt (updEff e g s) := by
  intro e'
  rw [getEff_updEff_body e e' g hg s]
  exact h e'

theorem setFreeSt_foldl {α : Type} (g : St → α → St)
    (hg : ∀ st a, SetFreeSt st → SetFreeSt (g st a)) (L : List α) (s : St)
    (h : SetFreeSt s) : SetFreeSt (L.foldl g s) := by
  induction L generalizing s with
  | nil => exact h
  | cons a t ih => exact ih _ (hg _ _ h)

theorem setFreeSt_sigRead (i : Nat) (s : St) (h : SetFreeSt s) :
    SetFreeSt (sigRead i s).2 := by
  unfold sigRead
  by_cases hh : halt s
  · simpa [hh] using h
  · simp only [hh, Bool.false_eq_true, if_false]
    have h2 : ∀ (st : St) (c : Nat), SetFreeSt st →
        SetFreeSt (updComp c (fun cc => { cc with lateEffects := cc.lateEffects ++ [i] })
          (updSig i (fun sg => { sg with cacheInvalidators := sg.cacheInvalidators ++ [c] }) st)) :=
      fun st c hst e' => hst e'
    cases s.effStack.head? with
    | none => exact setFreeSt_foldl _ h2 _ _ h
    | some e =>
      exact setFreeSt_foldl _ h2 _ _
        (setFreeSt_updEff e (fun ef => { ef with onDestroy := ef.onDestroy ++ [i] })
          (fun x => rfl) _ (fun e' => h e'))

theorem setFreeSt_wireLate (ws : List Nat) (e : Nat) (s : St) (h : SetFreeSt s) :
    SetFreeSt (wireLate ws e s) := by
  unfold wireLate
  refine setFreeSt_foldl _ ?_ _ _ h
  intro st a hst
  exact setFreeSt_updEff e (fun ef => { ef with onDestroy := ef.onDestroy ++ [a] })
    (fun x => rfl) _ (fun e' => hst e')

theorem setFreeSt_destroyEff (e : Nat) (s : St) (h : SetFreeSt s) :
    SetFreeSt (destroyEff e s) := by
  unfold destroyEff
  refine setFreeSt_foldl _ ?_ _ _ h
  intro st a hst e'
  exact hst e'

theorem setFreeSt_invalidateAll (cs : List Nat) (s : St) (h : SetFreeSt s) :
    SetFreeSt (invalidateAll cs s) := by
  unfold invalidateAll
  refine setFreeSt_foldl _ ?_ _ _ h
  intro st a hst e'
  exact hst e'

/-- Running any set-free call leaves `err` unchanged and preserves
set-freeness of all effect bodies: no operation of the library other than
`set` is defined to fail. -/
theorem errPres (f : Nat) : ∀ (c : Call) (s : St), SetFreeSt s → CallSetFree c →
    (step f c s).2.err = s.err ∧ SetFreeSt (step f c s).2 := by
  induction f with
  | zero =>
    intro c s h hc
    exact ⟨rfl, fun e => h e⟩
  | succ f ih =>
    intro c s h hc
    rw [step_succ]
    by_cases hs : halt s
    · rw [stepB_halt _ _ _ hs]
      exact ⟨rfl, h⟩
    · simp only [Bool.not_eq_true] at hs
      cases c with
      | evalP e =>
        cases e with
        | const n => simp only [stepB, hs, Bool.false_eq_true, if_false]; exact ⟨by trivial, h⟩
        | readSig i =>
          simp only [stepB, hs, Bool.false_eq_true, if_false]
          exact ⟨(ctl_parts (ctl_sigRead i s)).2.2.2.2.2.2.1, setFreeSt_sigRead i s h⟩
        | readComp j =>
          simp only [stepB, hs, Bool.false_eq_true, if_false]
          exact ih _ _ h trivial
        | add e1 e2 =>
          simp only [stepB, hs, Bool.false_eq_true, if_false]
          obtain ⟨a1, a2⟩ := ih (.evalP e1) s h trivial
          obtain ⟨b1, b2⟩ := ih (.evalP e2) _ a2 trivial
          exact ⟨b1.trans a1, b2⟩
      | compRead j =>
        simp only [stepB, hs, Bool.false_eq_true, if_false]
        by_cases hcache : (getComp s j).hasCache
        · simp only [hcache, if_true]
          cases hh : s.effStack.head? with
          | some e =>
            exact ⟨(ctl_parts (ctl_wireLate (getComp s j).lateEffects e s)).2.2.2.2.2.2.1,
              setFreeSt_wireLate _ e s h⟩
          | none => exact ⟨rfl, h⟩
        · simp only [hcache, Bool.false_eq_true, if_false]
          obtain ⟨a1, a2⟩ := ih (.evalP (getComp s j).body)
            ({ s with compStack := j :: s.compStack, evals := s.evals ++ [j] }) (fun e => h e) trivial
          by_cases hp : halt (step f (.evalP (getComp s j).body)
              { s with compStack := j :: s.compStack, evals := s.evals ++ [j] }).2
          · simp only [hp, if_true]
            exact ⟨a1, a2⟩
          · simp only [hp, Bool.false_eq_true, if_false]
            exact ⟨a1, fun e => a2 e⟩
      | execStmt st =>
        cases st with
        | readS i =>
          simp only [stepB, hs, Bool.false_eq_true, if_false]
          have hr := (ctl_parts (ctl_sigRead i s)).2.2.2.2.2.2.1
          have hf := setFreeSt_sigRead i s h
          by_cases hp : halt (sigRead i s).2
          · simp only [hp, if_true]; exact ⟨hr, hf⟩
          · simp only [hp, Bool.false_eq_true, if_false]
            exact ⟨hr, fun e => hf e⟩
        | readC j =>
          simp only [stepB, hs, Bool.false_eq_true, if_false]
          obtain ⟨a1, a2⟩ := ih (.compRead j) s h trivial
          by_cases hp : halt (step f (.compRead j) s).2
          · simp only [hp, if_true]; exact ⟨a1, a2⟩
          · simp only [hp, Bool.false_eq_true, if_false]
            exact ⟨a1, fun e => a2 e⟩
        | setS i v => exact absurd hc (by simp [CallSetFree, setFreeS])
        | mutateS i mf =>
          simp only [stepB, hs, Bool.false_eq_true, if_false]
          exact ih _ _ h trivial
        | mkEff allow body =>
          simp only [stepB, hs, Bool.false_eq_true, if_false]
          exact ih _ _ h (by simpa [CallSetFree] using hc)
        | ifPos i thn els =>
          have hb : setFreeL thn = true ∧ setFreeL els = true := by
            simpa [CallSetFree, setFreeS, Bool.and_eq_true] using hc
          simp only [stepB, hs, Bool.false_eq_true, if_false]
          have hr := (ctl_parts (ctl_sigRead i s)).2.2.2.2.2.2.1
          have hf := setFreeSt_sigRead i s h
          by_cases hp : halt (sigRead i s).2
          · simp only [hp, if_true]; exact ⟨hr, hf⟩
          · simp only [hp, Bool.false_eq_true, if_false]
            by_cases hv : 0 < (sigRead i s).1
            · simp only [hv, if_true]
              obtain ⟨a1, a2⟩ := ih (.execStmts thn) _ hf (by simp [CallSetFree, hb.1])
              exact ⟨a1.trans hr, a2⟩
            · simp only [hv, if_false]
              obtain ⟨a1, a2⟩ := ih (.execStmts els) _ hf (by simp [CallSetFree, hb.2])
              exact ⟨a1.trans hr, a2⟩
        | batchS body =>
          simp only [stepB, hs, Bool.false_eq_true, if_false]
          exact ih _ _ h (by simpa [CallSetFree, setFreeS] using hc)
      | execStmts l =>
        cases l with
        | nil => simp only [stepB, hs, Bool.false_eq_true, if_false]; exact ⟨by trivial, h⟩
        | cons st rest =>
          have hb : setFreeS st = true ∧ setFreeL rest = true := by
            simpa [CallSetFree, setFreeL, Bool.and_eq_true] using hc
          simp only [stepB, hs, Bool.false_eq_true, if_false]
          obtain ⟨a1, a2⟩ := ih (.execStmt st) s h hb.1
          obtain ⟨b1, b2⟩ := ih (.execStmts rest) _ a2 hb.2
          exact ⟨b1.trans a1, b2⟩
      | setSig i v => exact absurd hc (by simp [CallSetFree])
      | mutateSig i mf =>
        simp only [stepB, hs, Bool.false_eq_true, if_false]
        exact ih (.propagate i) _ (fun e => h e) trivial
      | propagate i =>
        simp only [stepB, hs, Bool.false_eq_true, if_false]
        have hinv := (ctl_parts (ctl_invalidateAll (getSig s i).cacheInvalidators s)).2.2.2.2.2.2.1
        have hfi := setFreeSt_invalidateAll (getSig s i).cacheInvalidators s h
        cases hbs : (invalidateAll (getSig s i).cacheInvalidators s).batchStack with
        | cons pend rest =>
          simp only [hbs]
          exact ⟨hinv, fun e => hfi e⟩
        | nil =>
          simp only [hbs]
          obtain ⟨a1, a2⟩ := ih (.fireTrigs i 0) _ hfi trivial
          exact ⟨a1.trans hinv, a2⟩
      | runTrig e =>
        simp only [stepB, hs, Bool.false_eq_true, if_false]
        have hctl := ctl_foldl (fun st ce => destroyEff ce st)
          (fun st ce => ctl_destroyEff ce st) (getEff s e).childEffects s
        have hfd : SetFreeSt ((getEff s e).childEffects.foldl (fun st ce => destroyEff ce st) s) :=
          setFreeSt_foldl _ (fun st ce => setFreeSt_destroyEff ce st) _ _ h
        set s1 : St := (getEff s e).childEffects.foldl (fun st ce => destroyEff ce st) s with hs1
        set s2 : St := ({ s1 with runs := s1.runs ++ [e] } : St) with hs2
        have hfd2 : SetFreeSt s2 := fun e' => hfd e'
        obtain ⟨a1, a2⟩ := ih (.execStmts (getEff s2 e).body) s2 hfd2 (hfd2 e)
        refine ⟨?_, a2⟩
        rw [a1]
        show s1.err = s.err
        exact (ctl_parts hctl).2.2.2.2.2.2.1
      | runTrigs ts =>
        cases ts with
        | nil => simp only [stepB, hs, Bool.false_eq_true, if_false]; exact ⟨by trivial, h⟩
        | cons t rest =>
          simp only [stepB, hs, Bool.false_eq_true, if_false]
          obtain ⟨a1, a2⟩ := ih (.runTrig t) s h trivial
          obtain ⟨b1, b2⟩ := ih (.runTrigs rest) _ a2 trivial
          exact ⟨b1.trans a1, b2⟩
      | fireTrigs i k =>
        cases hd : (getSig s i).triggers.drop k with
        | nil => simp only [stepB, hs, Bool.false_eq_true, if_false, hd]; exact ⟨by trivial, h⟩
        | cons t rest =>
          simp only [stepB, hs, Bool.false_eq_true, if_false, hd]
          obtain ⟨a1, a2⟩ := ih (.runTrig t) s h trivial
          obtain ⟨b1, b2⟩ := ih (.fireTrigs i (k+1)) _ a2 trivial
          exact ⟨b1.trans a1, b2⟩
      | mkEffRun allow body =>
        have hbody : setFreeL body = true := by simpa [CallSetFree] using hc
        simp only [stepB, hs, Bool.false_eq_true, if_false]
        set s1 : St := ({ s with effs := s.effs ++ [⟨body, allow, [], []⟩], effStack := s.effs.length :: s.effStack, runs := s.runs ++ [s.effs.length] } : St) with hs1
        have hS1 : SetFreeSt s1 := by
          intro e'
          show setFreeL ((s.effs ++ [(⟨body, allow, [], []⟩ : EffSt)]).getD e' dummyEff).body = true
          rcases lt_trichotomy e' s.effs.length with hl | heq | hg
          · rw [getD_append_lt _ _ _ _ hl]; exact h e'
          · subst heq
            rw [getD_append_ge _ _ _ _ (le_refl _)]
            simpa using hbody
          · rw [getD_append_ge _ _ _ _ (by omega)]
            cases hd : e' - s.effs.length with
            | zero => omega
            | succ m => simp [dummyEff, setFreeL]
        obtain ⟨a1, a2⟩ := ih (.execStmts body) s1 hS1 (by simp [CallSetFree, hbody])
        by_cases hp : halt (step f (.execStmts body) s1).2
        · simp only [hp, if_true]
          exact ⟨a1, a2⟩
        · simp only [hp, Bool.false_eq_true, if_false]
          cases hpar : s.effStack.head? with
          | some pa =>
            simp only [hpar]
            refine ⟨a1, ?_⟩
            exact setFreeSt_updEff pa
              (fun ef => { ef with childEffects := ef.childEffects ++ [s.effs.length] })
              (fun x => rfl) _ (fun e' => a2 e')
          | none =>
            simp only [hpar]
            exact ⟨a1, fun e' => a2 e'⟩
      | batchRun body =>
        have hbody : setFreeL body = true := by simpa [CallSetFree] using hc
        simp only [stepB, hs, Bool.false_eq_true, if_false]
        set s1 : St := ({ s with batchStack := [] :: s.batchStack } : St) with hs1
        obtain ⟨a1, a2⟩ := ih (.execStmts body) s1 (fun e => h e)
          (by simp [CallSetFree, hbody])
        by_cases hp : halt (step f (.execStmts body) s1).2
        · simp only [hp, if_true]
          exact ⟨a1, a2⟩
        · simp only [hp, Bool.false_eq_true, if_false]
          cases hbs : (step f (.execStmts body) s1).2.batchStack with
          | nil => simp only [hbs]; exact ⟨a1, a2⟩
          | cons pend rest =>
            simp only [hbs]
            set s3 : St := ({ (step f (.execStmts body) s1).2 with batchStack := rest } : St) with hs3
            obtain ⟨b1, b2⟩ := ih (.runTrigs pend) s3 (fun e => a2 e) trivial
            refine ⟨?_, b2⟩
            rw [b1]
            show (step f (.execStmts body) s1).2.err = s.err
            exact a1

/-! ## C5 — set throws exactly on illegal writes; nothing else fails -/

/-- C5: a signal's `set` raises the illegal-write error if and only if an
effect context whose `allowSignalWrites` option is not `true` is active
(innermost, top of stack) at the call; when it raises, it does so
synchronously at the write call site, mutating nothing (the resulting
state is the input state with only `err` set); and no other operation of
the library is defined to fail: every set-free call — signal reads,
computed reads, `mutate`, effect construction, batching — leaves `err`
unchanged. (The iff assumes the effect bodies in the state are set-free,
so that errors raised at nested write call sites during propagation are
not attributed to this call.) -/
theorem c5_illegal_write_iff :
    (∀ (f : Nat) (i : Nat) (v : Int) (s : St), halt s = false → SetFreeSt s →
      ((step (f+1) (.setSig i v) s).2.err = true ↔ illegalWrite s = true)) ∧
    (∀ (f : Nat) (i : Nat) (v : Int) (s : St), halt s = false → illegalWrite s = true →
      step (f+1) (.setSig i v) s = (0, { s with err := true })) ∧
    (∀ (f : Nat) (c : Call) (s : St), SetFreeSt s → CallSetFree c →
      (step f c s).2.err = s.err) := by
  have herr : ∀ s : St, halt s = false → s.err = false := by
    intro s hs
    cases he : s.err
    · rfl
    · rw [halt, he] at hs
      simp at hs
  refine ⟨?_, ?_, ?_⟩
  · intro f i v s hs hfree
    rw [step_succ]
    simp only [stepB, hs, Bool.false_eq_true, if_false]
    cases hh : s.effStack.head? with
    | some e =>
      by_cases ha : (getEff s e).allowWrites
      · simp only [ha, Bool.not_true, Bool.false_eq_true, if_false]
        have hill : illegalWrite s = false := by simp [illegalWrite, hh, ha]
        rw [hill]
        by_cases heq : (getSig s i).equal v (getSig s i).current
        · simp [heq, herr s hs]
        · simp only [heq, Bool.false_eq_true, if_false]
          have hp := (errPres f (.propagate i)
            (updSig i (fun sg => { sg with current := v }) s)
            (fun e' => hfree e') trivial).1
          rw [hp]
          simp [updSig, herr s hs]
      · have ha' : (getEff s e).allowWrites = false := by simpa using ha
        simp only [ha', Bool.not_false, if_true]
        simp [illegalWrite, hh, ha']
    | none =>
      simp only [Bool.not_true, Bool.false_eq_true, if_false]
      have hill : illegalWrite s = false := by simp [illegalWrite, hh]
      rw [hill]
      by_cases heq : (getSig s i).equal v (getSig s i).current
      · simp [heq, herr s hs]
      · simp only [heq, Bool.false_eq_true, if_false]
        have hp := (errPres f (.propagate i)
          (updSig i (fun sg => { sg with current := v }) s)
          (fun e' => hfree e') trivial).1
        rw [hp]
        simp [updSig, herr s hs]
  · intro f i v s hs hill
    rw [step_succ]
    simp only [stepB, hs, Bool.false_eq_true, if_false]
    cases hh : s.effStack.head? with
    | some e =>
      have ha : (getEff s e).allowWrites = false := by
        cases hx : (getEff s e).allowWrites
        · rfl
        · exfalso
          simp [illegalWrite, hh, hx] at hill
      simp [ha]
    | none => simp [illegalWrite, hh] at hill
  · intro f c s hfree hcf
    exact (errPres f c s hfree hcf).1

/-- C5 witness: concrete instances of each conjunct. The second uses a
state captured mid-construction of a non-allowWrites effect
(`effStack = [0]`), where the write raises synchronously; the first shows
a top-level write raises nothing; the third runs a set-free script. -/
theorem c5_illegal_write_iff_witness :
    (halt (mkSt [1] []) = false ∧ SetFreeSt (mkSt [1] []) ∧
      (step (20+1) (.setSig 0 5) (mkSt [1] [])).2.err = false) ∧
    (halt illegalSt = false ∧ illegalWrite illegalSt = true ∧
      step (20+1) (.setSig 0 5) illegalSt = (0, { illegalSt with err := true })) ∧
    (SetFreeSt (mkSt [1] []) ∧ CallSetFree (.execStmts [.readS 0]) ∧
      (step 20 (.execStmts [.readS 0]) (mkSt [1] [])).2.err = (mkSt [1] []).err) := by
  have hfree0 : SetFreeSt (mkSt [1] []) := fun e => rfl
  have hiff := c5_illegal_write_iff.1 20 0 5 (mkSt [1] []) (by decide) hfree0
  refine ⟨⟨by decide, hfree0, ?_⟩, ⟨by decide, by decide, ?_⟩,
    ⟨hfree0, by simp [CallSetFree, setFreeL, setFreeS], ?_⟩⟩
  · cases he : (step (20+1) (.setSig 0 5) (mkSt [1] [])).2.err
    · rfl
    · exact absurd (hiff.mp he) (by decide)
  · exact c5_illegal_write_iff.2.1 20 0 5 illegalSt (by decide) (by decide)
  · exact c5_illegal_write_iff.2.2 20 (.execStmts [.readS 0]) (mkSt [1] [])
      hfree0 (by simp [CallSetFree, setFreeL, setFreeS])

/-! ## Pointwise update lemmas -/

theorem getSig_updSig_self (i : Nat) (g : SigSt → SigSt) (s : St)
    (h : i < s.sigs.length) : getSig (updSig i g s) i = g (getSig s i) := by
  unfold getSig updSig
  exact getD_updAt_self _ _ _ _ h

theorem getSig_updSig_ne (i i' : Nat) (g : SigSt → SigSt) (s : St)
    (h : i ≠ i') : getSig (updSig i g s) i' = getSig s i' := by
  unfold getSig updSig
  exact getD_updAt_ne _ _ _ _ _ h

theorem getSig_updSig_ge (i : Nat) (g : SigSt → SigSt) (s : St)
    (h : s.sigs.length ≤ i) : updSig i g s = s := by
  unfold updSig
  rw [updAt_ge _ _ _ h]

theorem getEff_updEff_self (e : Nat) (g : EffSt → EffSt) (s : St)
    (h : e < s.effs.length) : getEff (updEff e g s) e = g (getEff s e) := by
  unfold getEff updEff
  exact getD_updAt_self _ _ _ _ h

theorem getEff_updEff_ne (e e' : Nat) (g : EffSt → EffSt) (s : St)
    (h : e ≠ e') : getEff (updEff e g s) e' = getEff s e' := by
  unfold getEff updEff
  exact getD_updAt_ne _ _ _ _ _ h

theorem getSig_updEff (e : Nat) (g : EffSt → EffSt) (s : St) (i : Nat) :
    getSig (updEff e g s) i = getSig s i := rfl

theorem getSig_updComp (j : Nat) (g : CompSt → CompSt) (s : St) (i : Nat) :
    getSig (updComp j g s) i = getSig s i := rfl

theorem getComp_updSig (i : Nat) (g : SigSt → SigSt) (s : St) (j : Nat) :
    getComp (updSig i g s) j = getComp s j := rfl

theorem getComp_updEff (e : Nat) (g : EffSt → EffSt) (s : St) (j : Nat) :
    getComp (updEff e g s) j = getComp s j := rfl

/-! ## Closed forms of the signal getter -/

/-- A top-level read (no active contexts) is pure: it returns the current
value and leaves the state unchanged. -/
theorem sigRead_top (i : Nat) (s : St) (h1 : halt s = false)
    (h2 : s.effStack = []) (h3 : s.compStack = []) :
    sigRead i s = ((getSig s i).current, s) := by
  unfold sigRead
  simp [h1, h2, h3]

/-- A read with an active effect context (and no computed context) adds
the context's trigger to the cell and records the teardown. -/
theorem sigRead_eff (i : Nat) (s : St) (e : Nat) (rest : List Nat)
    (h1 : halt s = false) (h2 : s.effStack = e :: rest) (h3 : s.compStack = []) :
    sigRead i s = ((getSig s i).current,
      updEff e (fun ef => { ef with onDestroy := ef.onDestroy ++ [i] })
        (updSig i (fun sg => { sg with triggers := addIfAbsent e sg.triggers }) s)) := by
  unfold sigRead
  have hcur : (getSig (updEff e (fun ef => { ef with onDestroy := ef.onDestroy ++ [i] })
      (updSig i (fun sg => { sg with triggers := addIfAbsent e sg.triggers }) s)) i).current
      = (getSig s i).current := by
    rw [getSig_updEff]
    by_cases hl : i < s.sigs.length
    · rw [getSig_updSig_self _ _ _ hl]
    · rw [getSig_updSig_ge _ _ _ (by omega)]
  simp only [h1, h2, h3, Bool.false_eq_true, if_false, List.reverse_nil, List.foldl_nil,
    updEff, updSig]
  exact Prod.ext hcur rfl

theorem addIfAbsent_idem (x : Nat) (l : List Nat) :
    addIfAbsent x (addIfAbsent x l) = addIfAbsent x l := by
  apply addIfAbsent_of_mem
  rw [mem_addIfAbsent]
  exact Or.inr rfl

/-- A reads-only body is a list of plain cell reads of in-range cells. -/
theorem readsIn_shape (l : List Stmt) (n : Nat) (h : readsIn l n = true) :
    l = (readsOf l).map Stmt.readS ∧ ∀ i ∈ readsOf l, i < n := by
  induction l with
  | nil => exact ⟨rfl, by simp [readsOf]⟩
  | cons st rest ih =>
    cases st with
    | readS i =>
      rw [readsIn, Bool.and_eq_true, decide_eq_true_eq] at h
      obtain ⟨h1, h2⟩ := ih h.2
      refine ⟨?_, ?_⟩
      · rw [readsOf, List.map_cons, ← h1]
      · intro i' hi'
        rw [readsOf] at hi'
        rcases List.mem_cons.mp hi' with rfl | hm
        · exact h.1
        · exact h2 i' hm
    | readC j => simp [readsIn] at h
    | setS i v => simp [readsIn] at h
    | mutateS i mf => simp [readsIn] at h
    | mkEff a b => simp [readsIn] at h
    | ifPos i t e => simp [readsIn] at h
    | batchS b => simp [readsIn] at h

/-! ## Executing a reads-only body -/

/-- Executing a list of plain reads at top level (no contexts) only logs
the current values — the state is otherwise untouched. -/
theorem readsTop (L : List Nat) : ∀ (f : Nat) (s : St),
    (∀ i ∈ L, i < s.sigs.length) → s.effStack = [] → s.compStack = [] →
    halt (step f (.execStmts (L.map Stmt.readS)) s).2 = false →
    (step f (.execStmts (L.map Stmt.readS)) s).2
      = { s with log := s.log ++ L.map (fun i => (getSig s i).current) } := by
  induction L with
  | nil =>
    intro f s _ _ _ hh
    obtain ⟨f1, rfl⟩ := live_fuel _ _ _ hh
    have hs : halt s = false := live_of _ _ _ hh
    rw [step_succ]
    simp [stepB, hs]
  | cons a t ih =>
    intro f s hb he hc hh
    obtain ⟨f1, rfl⟩ := live_fuel _ _ _ hh
    have hs : halt s = false := live_of _ _ _ hh
    have hstep : step (f1+1) (.execStmts ((a :: t).map Stmt.readS)) s
        = step f1 (.execStmts (t.map Stmt.readS)) (step f1 (.execStmt (.readS a)) s).2 := by
      rw [step_succ]
      simp [stepB, hs]
    rw [hstep] at hh ⊢
    have hinner : halt (step f1 (.execStmt (.readS a)) s).2 = false := live_of _ _ _ hh
    obtain ⟨f2, hf2⟩ := live_fuel _ _ _ hinner
    have hread : (step f1 (.execStmt (.readS a)) s).2
        = { s with log := s.log ++ [(getSig s a).current] } := by
      rw [hf2, step_succ]
      simp [stepB, hs, sigRead_top a s hs he hc]
    rw [hread] at hh ⊢
    rw [ih f1 ({ s with log := s.log ++ [(getSig s a).current] } : St)
      (fun i hi => by simpa using hb i (List.mem_cons_of_mem a hi))
      (by simpa using he) (by simpa using hc) hh]
    simp [getSig, List.append_assoc]

/-! ## Cache invalidation and trigger firing -/

theorem invalidateAll_sigs (cs : List Nat) (s : St) :
    (invalidateAll cs s).sigs = s.sigs := by
  unfold invalidateAll
  induction cs generalizing s with
  | nil => rfl
  | cons a t ih => rw [List.foldl_cons, ih]; rfl

theorem invalidateAll_effs (cs : List Nat) (s : St) :
    (invalidateAll cs s).effs = s.effs := by
  unfold invalidateAll
  induction cs generalizing s with
  | nil => rfl
  | cons a t ih => rw [List.foldl_cons, ih]; rfl

theorem invalidateAll_comps_length (cs : List Nat) (s : St) :
    (invalidateAll cs s).comps.length = s.comps.length := by
  unfold invalidateAll
  induction cs generalizing s with
  | nil => rfl
  | cons a t ih =>
    rw [List.foldl_cons, ih]
    simp [updComp, updAt_length]

theorem invalidateAll_hasCache_stable (cs : List Nat) (s : St) (c : Nat)
    (h : (getComp s c).hasCache = false) :
    (getComp (invalidateAll cs s) c).hasCache = false := by
  unfold invalidateAll
  induction cs generalizing s with
  | nil => exact h
  | cons a t ih =>
    rw [List.foldl_cons]
    apply ih
    rcases eq_or_ne a c with rfl | hne
    · by_cases hl : a < s.comps.length
      · rw [show getComp (updComp a _ s) a = _ from getD_updAt_self _ _ _ _ hl]
      · unfold updComp getComp
        rw [updAt_ge _ _ _ (by omega)]
        exact h
    · unfold updComp getComp
      rw [getD_updAt_ne _ _ _ _ _ hne]
      exact h

theorem invalidateAll_hasCache_mem (cs : List Nat) (s : St) (c : Nat)
    (hm : c ∈ cs) (hl : c < s.comps.length) :
    (getComp (invalidateAll cs s) c).hasCache = false := by
  induction cs generalizing s with
  | nil => simp at hm
  | cons a t ih =>
    rcases List.mem_cons.mp hm with rfl | hmem
    · show (getComp (List.foldl _ _ t) c).hasCache = false
      have h0 : (getComp (updComp c (fun cc => { cc with hasCache := false }) s) c).hasCache
          = false := by
        rw [show getComp (updComp c _ s) c = _ from getD_updAt_self _ _ _ _ hl]
      exact invalidateAll_hasCache_stable t _ c h0
    · show (getComp (List.foldl _ _ t) c).hasCache = false
      exact ih _ hmem (by simpa [updComp, updAt_length] using hl)

/-- Firing a list of triggers whose effects have reads-only bodies and no
recorded children: each fires exactly once, in order; only the run record
and the log change. -/
theorem readsTrigs (ts : List Nat) : ∀ (f : Nat) (s : St),
    s.effStack = [] → s.compStack = [] →
    (∀ t, readsIn (getEff s t).body s.sigs.length = true) →
    (∀ t, (getEff s t).childEffects = []) →
    halt (step f (.runTrigs ts) s).2 = false →
    ∃ lg, (step f (.runTrigs ts) s).2 = { s with runs := s.runs ++ ts, log := lg } := by
  induction ts with
  | nil =>
    intro f s _ _ _ _ hh
    obtain ⟨f1, rfl⟩ := live_fuel _ _ _ hh
    have hs : halt s = false := live_of _ _ _ hh
    rw [step_succ]
    refine ⟨s.log, ?_⟩
    simp [stepB, hs]
  | cons t rest ih =>
    intro f s he hc hri hch hh
    obtain ⟨f1, rfl⟩ := live_fuel _ _ _ hh
    have hs : halt s = false := live_of _ _ _ hh
    have hstep : step (f1+1) (.runTrigs (t :: rest)) s
        = step f1 (.runTrigs rest) (step f1 (.runTrig t) s).2 := by
      rw [step_succ]
      simp [stepB, hs]
    rw [hstep] at hh ⊢
    have hinner : halt (step f1 (.runTrig t) s).2 = false := live_of _ _ _ hh
    obtain ⟨f2, hf2⟩ := live_fuel _ _ _ hinner
    obtain ⟨hshape, hbound⟩ := readsIn_shape _ _ (hri t)
    set lgv : List Int := s.log ++ ((readsOf (getEff s t).body).map (fun i => (getSig s i).current)) with hlgv
    set sMid : St := ({ s with runs := s.runs ++ [t] } : St) with hsMid
    have hTrigEq : step f1 (.runTrig t) s = step f2 (.execStmts (getEff s t).body) sMid := by
      rw [hf2, step_succ]
      simp only [stepB, hs, Bool.false_eq_true, if_false, hch t, List.foldl_nil]
      rfl
    rw [hTrigEq] at hinner
    have hrun : (step f2 (.execStmts (getEff s t).body) sMid).2 = { sMid with log := lgv } := by
      have hbody := readsTop (readsOf (getEff s t).body) f2 sMid
        (fun i hi => hbound i hi) he hc (by rw [← hshape]; exact hinner)
      rw [hshape, hbody, hlgv]
      rfl
    rw [hTrigEq] at hh ⊢
    rw [hrun] at hh ⊢
    obtain ⟨lg, hfin⟩ := ih f1 ({ sMid with log := lgv } : St)
      (by simpa [hsMid] using he) (by simpa [hsMid] using hc)
      (fun t' => by simpa [hsMid, getEff, getSig] using hri t')
      (fun t' => by simpa [hsMid, getEff] using hch t') hh
    refine ⟨lg, ?_⟩
    rw [hfin]
    simp [hsMid, List.append_assoc]

/-- Live iteration over a cell's dependent list, starting at position `k`,
when every effect body is reads-only and childless: reads-only bodies
register nothing (no effect context is pushed for a trigger re-run), so
the list never grows mid-iteration and the remaining `drop k` entries each
fire exactly once, in order; only the run record and the log change. -/
theorem fireTrigsReads (i : Nat) : ∀ (f : Nat) (k : Nat) (s : St),
    s.effStack = [] → s.compStack = [] →
    (∀ t, readsIn (getEff s t).body s.sigs.length = true) →
    (∀ t, (getEff s t).childEffects = []) →
    halt (step f (.fireTrigs i k) s).2 = false →
    ∃ lg, (step f (.fireTrigs i k) s).2
      = { s with runs := s.runs ++ (getSig s i).triggers.drop k, log := lg } := by
  intro f
  induction f with
  | zero =>
    intro k s _ _ _ _ hh
    simp [step_zero, halt_stall] at hh
  | succ f ih =>
    intro k s he hc hri hch hh
    have hs : halt s = false := live_of _ _ _ hh
    cases hd : (getSig s i).triggers.drop k with
    | nil =>
      rw [step_succ]
      refine ⟨s.log, ?_⟩
      simp [stepB, hs, hd]
    | cons t rest =>
      have hstep : step (f+1) (.fireTrigs i k) s
          = step f (.fireTrigs i (k+1)) (step f (.runTrig t) s).2 := by
        rw [step_succ]
        simp only [stepB, hs, Bool.false_eq_true, if_false, hd]
      rw [hstep] at hh ⊢
      have hinner : halt (step f (.runTrig t) s).2 = false := live_of _ _ _ hh
      obtain ⟨f2, hf2⟩ := live_fuel _ _ _ hinner
      obtain ⟨hshape, hbound⟩ := readsIn_shape _ _ (hri t)
      set lgv : List Int := s.log ++ ((readsOf (getEff s t).body).map (fun j => (getSig s j).current)) with hlgv
      set sMid : St := ({ s with runs := s.runs ++ [t] } : St) with hsMid
      have hTrigEq : step f (.runTrig t) s = step f2 (.execStmts (getEff s t).body) sMid := by
        rw [hf2, step_succ]
        simp only [stepB, hs, Bool.false_eq_true, if_false, hch t, List.foldl_nil]
        rfl
      rw [hTrigEq] at hinner
      have hrun : (step f2 (.execStmts (getEff s t).body) sMid).2 = { sMid with log := lgv } := by
        have hbody := readsTop (readsOf (getEff s t).body) f2 sMid
          (fun j hj => hbound j hj) he hc (by rw [← hshape]; exact hinner)
        rw [hshape, hbody, hlgv]
        rfl
      rw [hTrigEq] at hh ⊢
      rw [hrun] at hh ⊢
      have hdrop1 : (getSig s i).triggers.drop (k+1) = rest := by
        have h3 : (getSig s i).triggers.drop (k+1) = ((getSig s i).triggers.drop k).drop 1 := by
          rw [List.drop_drop, Nat.add_comm]
        rw [h3, hd]
        rfl
      obtain ⟨lg, hfin⟩ := ih (k+1) ({ sMid with log := lgv } : St)
        (by simpa [hsMid] using he) (by simpa [hsMid] using hc)
        (fun t' => by simpa [hsMid, getEff, getSig] using hri t')
        (fun t' => by simpa [hsMid, getEff] using hch t') hh
      refine ⟨lg, ?_⟩
      rw [hfin]
      have hgs : (getSig ({ sMid with log := lgv } : St) i).triggers.drop (k+1) = rest := by
        have htq : (getSig ({ sMid with log := lgv } : St) i).triggers = (getSig s i).triggers := by
          rw [hsMid]
          rfl
        rw [htq, hdrop1]
      rw [hgs]
      simp [hsMid, List.append_assoc]

theorem getD_map_lt {α β : Type} (g : α → β) (l : List α) (i : Nat) (d : β) (d' : α)
    (h : i < l.length) : (l.map g).getD i d = g (l.getD i d') := by
  induction l generalizing i with
  | nil => simp at h
  | cons a t ih =>
    cases i with
    | zero => simp
    | succ i => simpa using ih i (by simpa using h)

theorem list_ext_getD {α : Type} (d : α) (l1 l2 : List α)
    (hlen : l1.length = l2.length)
    (h : ∀ i, i < l1.length → l1.getD i d = l2.getD i d) : l1 = l2 := by
  induction l1 generalizing l2 with
  | nil => cases l2 with
    | nil => rfl
    | cons b t2 => simp at hlen
  | cons a t1 ih =>
    cases l2 with
    | nil => simp at hlen
    | cons b t2 =>
      have h0 := h 0 (by simp)
      simp only [List.getD_cons_zero] at h0
      subst h0
      have := ih t2 (by simpa using hlen)
        (fun i hi => by simpa using h (i+1) (by simpa using hi))
      rw [this]

/-- Running a reads-only body during an effect's construction run (its
context on top of the stack, no computed contexts): each read cell gains
the effect's trigger, the effect records the matching teardowns, the
values are logged, and nothing else changes. -/
theorem readsEffRun (L : List Nat) : ∀ (f : Nat) (s : St) (e : Nat) (rest : List Nat),
    (∀ i ∈ L, i < s.sigs.length) → s.effStack = e :: rest → s.compStack = [] →
    e < s.effs.length →
    halt (step f (.execStmts (L.map Stmt.readS)) s).2 = false →
    (step f (.execStmts (L.map Stmt.readS)) s).2.comps = s.comps ∧
    (step f (.execStmts (L.map Stmt.readS)) s).2.effStack = e :: rest ∧
    (step f (.execStmts (L.map Stmt.readS)) s).2.compStack = [] ∧
    (step f (.execStmts (L.map Stmt.readS)) s).2.batchStack = s.batchStack ∧
    (step f (.execStmts (L.map Stmt.readS)) s).2.runs = s.runs ∧
    (step f (.execStmts (L.map Stmt.readS)) s).2.evals = s.evals ∧
    (step f (.execStmts (L.map Stmt.readS)) s).2.err = s.err ∧
    (step f (.execStmts (L.map Stmt.readS)) s).2.log
      = s.log ++ L.map (fun i => (getSig s i).current) ∧
    (step f (.execStmts (L.map Stmt.readS)) s).2.sigs.length = s.sigs.length ∧
    (∀ i, i ∈ L → getSig (step f (.execStmts (L.map Stmt.readS)) s).2 i
      = { getSig s i with triggers := addIfAbsent e (getSig s i).triggers }) ∧
    (∀ i, i ∉ L → getSig (step f (.execStmts (L.map Stmt.readS)) s).2 i = getSig s i) ∧
    (step f (.execStmts (L.map Stmt.readS)) s).2.effs.length = s.effs.length ∧
    getEff (step f (.execStmts (L.map Stmt.readS)) s).2 e
      = { getEff s e with onDestroy := (getEff s e).onDestroy ++ L } ∧
    (∀ e', e' ≠ e → getEff (step f (.execStmts (L.map Stmt.readS)) s).2 e' = getEff s e') := by
  induction L with
  | nil =>
    intro f s e rest hb he hc hel hh
    obtain ⟨f1, rfl⟩ := live_fuel _ _ _ hh
    have hs : halt s = false := live_of _ _ _ hh
    rw [step_succ]
    have hid : stepB (step f1) (.execStmts ([].map Stmt.readS)) s = (0, s) := by
      simp [stepB, hs]
    rw [hid]
    refine ⟨rfl, he, hc, rfl, rfl, rfl, rfl, by simp, rfl, ?_, fun i _ => rfl, rfl, by simp, fun e' _ => rfl⟩
    intro i hi
    simp at hi
  | cons a t ih =>
    intro f s e rest hb he hc hel hh
    obtain ⟨f1, rfl⟩ := live_fuel _ _ _ hh
    have hs : halt s = false := live_of _ _ _ hh
    have hstep : step (f1+1) (.execStmts ((a :: t).map Stmt.readS)) s
        = step f1 (.execStmts (t.map Stmt.readS)) (step f1 (.execStmt (.readS a)) s).2 := by
      rw [step_succ]
      simp [stepB, hs]
    rw [hstep] at hh ⊢
    have hinner : halt (step f1 (.execStmt (.readS a)) s).2 = false := live_of _ _ _ hh
    obtain ⟨f2, hf2⟩ := live_fuel _ _ _ hinner
    set sU : St := updEff e (fun ef => { ef with onDestroy := ef.onDestroy ++ [a] }) (updSig a (fun sg => { sg with triggers := addIfAbsent e sg.triggers }) s) with hsU
    have hUhalt : halt sU = false := by
      simpa [hsU, halt, updEff, updSig] using hs
    have hread : (step f1 (.execStmt (.readS a)) s).2
        = { sU with log := sU.log ++ [(getSig s a).current] } := by
      rw [hf2, step_succ]
      simp [stepB, hs, sigRead_eff a s e rest hs he hc, hUhalt, hsU]
    rw [hread] at hh ⊢
    set sA : St := ({ sU with log := sU.log ++ [(getSig s a).current] } : St) with hsA
    have ha_lt : a < s.sigs.length := hb a (by simp)
    have hAsig_a : getSig sA a = { getSig s a with triggers := addIfAbsent e (getSig s a).triggers } := by
      show getSig (updSig a (fun sg => { sg with triggers := addIfAbsent e sg.triggers }) s) a = _
      exact getSig_updSig_self _ _ _ ha_lt
    have hAsig_ne : ∀ i, i ≠ a → getSig sA i = getSig s i := by
      intro i hne
      show getSig (updSig a (fun sg => { sg with triggers := addIfAbsent e sg.triggers }) s) i = _
      exact getSig_updSig_ne _ _ _ _ (fun hcon => hne hcon.symm)
    have hAcur : ∀ i, (getSig sA i).current = (getSig s i).current := by
      intro i
      rcases eq_or_ne i a with rfl | hne
      · rw [hAsig_a]
      · rw [hAsig_ne i hne]
    have hAeff_e : getEff sA e = { getEff s e with onDestroy := (getEff s e).onDestroy ++ [a] } := by
      show getEff (updEff e (fun ef => { ef with onDestroy := ef.onDestroy ++ [a] })
        (updSig a (fun sg => { sg with triggers := addIfAbsent e sg.triggers }) s)) e = _
      rw [getEff_updEff_self _ _ _ (show e < (updSig a (fun sg => { sg with triggers := addIfAbsent e sg.triggers }) s).effs.length from hel)]
      rfl
    have hAeff_ne : ∀ e', e' ≠ e → getEff sA e' = getEff s e' := by
      intro e' hne
      show getEff (updEff e (fun ef => { ef with onDestroy := ef.onDestroy ++ [a] })
        (updSig a (fun sg => { sg with triggers := addIfAbsent e sg.triggers }) s)) e' = _
      rw [getEff_updEff_ne _ _ _ _ (fun hcon => hne hcon.symm)]
      rfl
    have hAlen : sA.sigs.length = s.sigs.length := by
      rw [hsA, hsU]
      simp [updEff, updSig, updAt_length]
    have hAelen : sA.effs.length = s.effs.length := by
      rw [hsA, hsU]
      simp [updEff, updSig, updAt_length]
    obtain ⟨k1, k2, k3, k4, k5, k6, k7, k8, k9, k10, k11, k12, k13, k14⟩ :=
      ih f1 sA e rest (fun i hi => by rw [hAlen]; exact hb i (by simp [hi]))
        (by rw [hsA, hsU]; simpa [updEff, updSig] using he)
        (by rw [hsA, hsU]; simpa [updEff, updSig] using hc)
        (by rw [hAelen]; exact hel) hh
    refine ⟨?_, k2, k3, ?_, ?_, ?_, ?_, ?_, ?_, ?_, ?_, ?_, ?_, ?_⟩
    · rw [k1, hsA, hsU]
      rfl
    · rw [k4, hsA, hsU]
      rfl
    · rw [k5, hsA, hsU]
      rfl
    · rw [k6, hsA, hsU]
      rfl
    · rw [k7, hsA, hsU]
      rfl
    · rw [k8]
      have hmap : t.map (fun i => (getSig sA i).current) = t.map (fun i => (getSig s i).current) :=
        List.map_congr_left (fun i _ => hAcur i)
      rw [hmap]
      show sA.log ++ _ = _
      rw [hsA]
      show (sU.log ++ [(getSig s a).current]) ++ _ = _
      rw [show sU.log = s.log from by rw [hsU]; rfl]
      simp [List.append_assoc]
    · rw [k9, hAlen]
    · intro i hi
      rcases eq_or_ne i a with rfl | hne
      · by_cases hit : i ∈ t
        · rw [k10 i hit, hAsig_a]
          simp [addIfAbsent_idem]
        · rw [k11 i hit, hAsig_a]
      · have hit : i ∈ t := by
          rcases List.mem_cons.mp hi with rfl | hmem
          · exact absurd rfl hne
          · exact hmem
        rw [k10 i hit, hAsig_ne i hne]
    · intro i hi
      have hia : i ≠ a := fun hcon => hi (hcon ▸ List.mem_cons_self a t)
      have hit : i ∉ t := fun hcon => hi (List.mem_cons_of_mem a hcon)
      rw [k11 i hit, hAsig_ne i hia]
    · rw [k12, hAelen]
    · rw [k13, hAeff_e]
      simp [List.append_assoc]
    · intro e' hne
      rw [k14 e' hne, hAeff_ne e' hne]

theorem invalidateAll_comps_nil (cs : List Nat) (s : St) (h : s.comps = []) :
    invalidateAll cs s = s := by
  unfold invalidateAll
  induction cs generalizing s with
  | nil => rfl
  | cons a t ih =>
    rw [List.foldl_cons]
    have hstep : updComp a (fun cc => { cc with hasCache := false }) s = s := by
      unfold updComp
      rw [show updAt s.comps a (fun cc => { cc with hasCache := false }) = s.comps from by rw [h]; rfl]
    rw [hstep]
    exact ih s h

theorem foldl_congr_mem {α β : Type} (L : List α) (g g' : β → α → β) (b : β)
    (h : ∀ acc, ∀ a ∈ L, g acc a = g' acc a) : L.foldl g b = L.foldl g' b := by
  induction L generalizing b with
  | nil => rfl
  | cons a t ih =>
    rw [List.foldl_cons, List.foldl_cons, h b a (by simp)]
    exact ih _ (fun acc a' ha' => h acc a' (by simp [ha']))

/-- Writes to distinct, unequal-valued cells inside an open batch scope:
no user code runs (no trigger fires, `runs` is unchanged), the values are
updated, and each written cell's dependent triggers are routed into the
innermost pending set, deduplicated, in write order. -/
theorem batchWrites (L : List (Nat × Int)) : ∀ (f : Nat) (s : St) (pend : List Nat)
    (rest : List (List Nat)),
    s.comps = [] → s.effStack = [] → s.batchStack = pend :: rest →
    (∀ p ∈ L, p.1 < s.sigs.length) →
    (∀ p ∈ L, ((getSig s p.1).equal p.2 (getSig s p.1).current) = false) →
    (L.map Prod.fst).Nodup →
    halt (step f (.execStmts (L.map (fun p => Stmt.setS p.1 p.2))) s).2 = false →
    (step f (.execStmts (L.map (fun p => Stmt.setS p.1 p.2))) s).2.batchStack
      = (L.foldl (fun acc p => addAll (getSig s p.1).triggers acc) pend) :: rest ∧
    (step f (.execStmts (L.map (fun p => Stmt.setS p.1 p.2))) s).2.runs = s.runs ∧
    (step f (.execStmts (L.map (fun p => Stmt.setS p.1 p.2))) s).2.err = s.err ∧
    (step f (.execStmts (L.map (fun p => Stmt.setS p.1 p.2))) s).2.log = s.log ∧
    (step f (.execStmts (L.map (fun p => Stmt.setS p.1 p.2))) s).2.effStack = [] ∧
    (step f (.execStmts (L.map (fun p => Stmt.setS p.1 p.2))) s).2.compStack = s.compStack ∧
    (step f (.execStmts (L.map (fun p => Stmt.setS p.1 p.2))) s).2.comps = [] ∧
    (step f (.execStmts (L.map (fun p => Stmt.setS p.1 p.2))) s).2.effs = s.effs ∧
    (step f (.execStmts (L.map (fun p => Stmt.setS p.1 p.2))) s).2.sigs.length = s.sigs.length := by
  induction L with
  | nil =>
    intro f s pend rest hcomps he hbs _ _ _ hh
    obtain ⟨f1, rfl⟩ := live_fuel _ _ _ hh
    have hs : halt s = false := live_of _ _ _ hh
    rw [step_succ]
    have hid : stepB (step f1) (.execStmts ([].map (fun p : Nat × Int => Stmt.setS p.1 p.2))) s
        = (0, s) := by
      simp [stepB, hs]
    rw [hid]
    exact ⟨by simpa using hbs, rfl, rfl, rfl, he, rfl, hcomps, rfl, rfl⟩
  | cons p t ih =>
    obtain ⟨a, v⟩ := p
    intro f s pend rest hcomps he hbs hbnd heqf hnd hh
    obtain ⟨f1, rfl⟩ := live_fuel _ _ _ hh
    have hs : halt s = false := live_of _ _ _ hh
    have hstep : step (f1+1) (.execStmts (((a, v) :: t).map (fun p => Stmt.setS p.1 p.2))) s
        = step f1 (.execStmts (t.map (fun p => Stmt.setS p.1 p.2)))
            (step f1 (.execStmt (.setS a v)) s).2 := by
      rw [step_succ]
      simp [stepB, hs]
    rw [hstep] at hh ⊢
    have hinner : halt (step f1 (.execStmt (.setS a v)) s).2 = false := live_of _ _ _ hh
    obtain ⟨f2, hf2⟩ := live_fuel _ _ _ hinner
    have hinner2 : halt (step f2 (.setSig a v) s).2 = false := by
      rw [hf2, step_succ] at hinner
      simpa [stepB, hs] using hinner
    obtain ⟨f3, hf3⟩ := live_fuel _ _ _ hinner2
    set X : St := updSig a (fun sg => { sg with current := v }) s with hX
    have hXhalt : halt X = false := by simpa [hX, halt, updSig] using hs
    have heqa : ((getSig s a).equal v (getSig s a).current) = false := heqf (a, v) (by simp)
    have hXtrig : (getSig X a).triggers = (getSig s a).triggers := by
      by_cases hl : a < s.sigs.length
      · rw [hX, getSig_updSig_self _ _ _ hl]
      · rw [hX, getSig_updSig_ge _ _ _ (by omega)]
    have hXinv : invalidateAll (getSig X a).cacheInvalidators X = X :=
      invalidateAll_comps_nil _ _ (by rw [hX]; simpa [updSig] using hcomps)
    set sW : St := ({ X with batchStack := addAll (getSig s a).triggers pend :: rest } : St) with hsW
    have hsetEq : (step f1 (.execStmt (.setS a v)) s).2 = sW := by
      rw [hf2, step_succ]
      have h1 : stepB (step f2) (.execStmt (.setS a v)) s = step f2 (.setSig a v) s := by
        simp [stepB, hs]
      rw [h1, hf3, step_succ]
      have h2 : stepB (step f3) (.setSig a v) s = step f3 (.propagate a) X := by
        simp only [stepB, hs, Bool.false_eq_true, if_false, he, List.head?_nil]
        simp [heqa, hX]
      rw [h2]
      obtain ⟨f4, hf4⟩ := live_fuel f3 (.propagate a) X (by
        rw [← h2, ← step_succ, ← hf3]
        rw [← h1, ← step_succ, ← hf2]
        exact hinner)
      rw [hf4, step_succ]
      simp only [stepB, hXhalt, Bool.false_eq_true, if_false, hXinv]
      rw [show X.batchStack = pend :: rest from by rw [hX]; simpa [updSig] using hbs]
      simp only [hXtrig]
    rw [hsetEq] at hh ⊢
    have hWsig_ne : ∀ i, i ≠ a → getSig sW i = getSig s i := by
      intro i hne
      rw [hsW]
      show getSig X i = getSig s i
      rw [hX]
      exact getSig_updSig_ne _ _ _ _ (fun hcon => hne hcon.symm)
    have hWtrig : ∀ i, (getSig sW i).triggers = (getSig s i).triggers := by
      intro i
      rcases eq_or_ne i a with rfl | hne
      · show (getSig X i).triggers = _
        exact hXtrig
      · rw [hWsig_ne i hne]
    have hnd2 : (a :: t.map Prod.fst).Nodup := by
      rw [List.map_cons] at hnd
      exact hnd
    have hnotmem : a ∉ t.map Prod.fst := (List.nodup_cons.mp hnd2).1
    obtain ⟨k1, k2, k3, k4, k5, k6, k7, k8, k9⟩ := ih f1 sW (addAll (getSig s a).triggers pend) rest
      (by rw [hsW]; show X.comps = []; rw [hX]; simpa [updSig] using hcomps)
      (by rw [hsW]; show X.effStack = []; rw [hX]; simpa [updSig] using he)
      (by rw [hsW])
      (fun q hq => by
        have : sW.sigs.length = s.sigs.length := by
          rw [hsW]
          show X.sigs.length = _
          rw [hX]
          simp [updSig, updAt_length]
        rw [this]
        exact hbnd q (by simp [hq]))
      (fun q hq => by
        have hqa : q.1 ≠ a := by
          intro hcon
          exact hnotmem (hcon ▸ List.mem_map_of_mem Prod.fst hq)
        rw [hWsig_ne q.1 hqa]
        exact heqf q (by simp [hq]))
      ((List.nodup_cons.mp hnd2).2) hh
    refine ⟨?_, ?_, ?_, ?_, k5, ?_, k7, ?_, ?_⟩
    · rw [k1]
      rw [List.foldl_cons]
      congr 1
      exact foldl_congr_mem t _ _ _ (fun acc q hq => by rw [hWtrig q.1])
    · rw [k2, hsW]
      show X.runs = s.runs
      rw [hX]
      rfl
    · rw [k3, hsW]
      show X.err = s.err
      rw [hX]
      rfl
    · rw [k4, hsW]
      show X.log = s.log
      rw [hX]
      rfl
    · rw [k6, hsW]
      show X.compStack = s.compStack
      rw [hX]
      rfl
    · rw [k8, hsW]
      show X.effs = s.effs
      rw [hX]
      rfl
    · rw [k9, hsW]
      show X.sigs.length = s.sigs.length
      rw [hX]
      simp [updSig, updAt_length]

theorem getD_ge {α : Type} (l : List α) (n : Nat) (d : α) (h : l.length ≤ n) :
    l.getD n d = d := by
  induction l generalizing n with
  | nil => cases n <;> rfl
  | cons a t ih =>
    cases n with
    | zero => simp at h
    | succ n => simpa using ih n (by simpa using h)

theorem readAll_eq (n : Nat) : readAll n = (List.range n).map Stmt.readS := rfl

theorem readsIn_map_readS (L : List Nat) (n : Nat) (h : ∀ i ∈ L, i < n) :
    readsIn (L.map Stmt.readS) n = true := by
  induction L with
  | nil => rfl
  | cons a t ih =>
    rw [List.map_cons, readsIn, Bool.and_eq_true, decide_eq_true_eq]
    exact ⟨h a (by simp), ih (fun i hi => h i (by simp [hi]))⟩

theorem foldl_addAll_start0 (L : List (Nat × Int)) (g : Nat × Int → List Nat)
    (hg : ∀ p ∈ L, g p = [0]) :
    L.foldl (fun acc p => addAll (g p) acc) [0] = [0] := by
  induction L with
  | nil => rfl
  | cons a t ih =>
    rw [List.foldl_cons, hg a (by simp)]
    rw [show addAll [0] [0] = [0] from by simp [addAll, addIfAbsent]]
    exact ih (fun p hp => hg p (by simp [hp]))

theorem foldl_addAll_pend (L : List (Nat × Int)) (g : Nat × Int → List Nat)
    (hg : ∀ p ∈ L, g p = [0]) (hne : L ≠ []) :
    L.foldl (fun acc p => addAll (g p) acc) [] = [0] := by
  cases L with
  | nil => exact absurd rfl hne
  | cons a t =>
    rw [List.foldl_cons, hg a (by simp)]
    rw [show addAll [0] ([] : List Nat) = [0] from by simp [addAll, addIfAbsent]]
    exact foldl_addAll_start0 t g (fun p hp => hg p (by simp [hp]))

/-- The state after `effect(() => { read every cell })` on fresh cells:
each cell's dependent set is exactly the effect's trigger, the effect ran
once, and the stacks are empty again. -/
theorem c6Setup (vals : List Int) : ∀ (f : Nat),
    halt (step f (.mkEffRun false (readAll vals.length)) (mkSt vals [])).2 = false →
    (step f (.mkEffRun false (readAll vals.length)) (mkSt vals [])).2.runs = [0] ∧
    (step f (.mkEffRun false (readAll vals.length)) (mkSt vals [])).2.err = false ∧
    (step f (.mkEffRun false (readAll vals.length)) (mkSt vals [])).2.comps = [] ∧
    (step f (.mkEffRun false (readAll vals.length)) (mkSt vals [])).2.effStack = [] ∧
    (step f (.mkEffRun false (readAll vals.length)) (mkSt vals [])).2.compStack = [] ∧
    (step f (.mkEffRun false (readAll vals.length)) (mkSt vals [])).2.batchStack = [] ∧
    (step f (.mkEffRun false (readAll vals.length)) (mkSt vals [])).2.sigs.length = vals.length ∧
    (step f (.mkEffRun false (readAll vals.length)) (mkSt vals [])).2.effs.length = 1 ∧
    (∀ i, i < vals.length →
      getSig (step f (.mkEffRun false (readAll vals.length)) (mkSt vals [])).2 i
        = ⟨vals.getD i 0, fun a b => a == b, [0], []⟩) ∧
    getEff (step f (.mkEffRun false (readAll vals.length)) (mkSt vals [])).2 0
      = ⟨readAll vals.length, false, List.range vals.length, []⟩ ∧
    (∀ t, 1 ≤ t →
      getEff (step f (.mkEffRun false (readAll vals.length)) (mkSt vals [])).2 t = dummyEff) := by
  intro f hh
  obtain ⟨f1, rfl⟩ := live_fuel _ _ _ hh
  have hs0 : halt (mkSt vals []) = false := live_of _ _ _ hh
  set sP : St := ({ mkSt vals [] with effs := [⟨readAll vals.length, false, [], []⟩], effStack := [0], runs := [0] } : St) with hsP
  have hunf : step (f1+1) (.mkEffRun false (readAll vals.length)) (mkSt vals [])
      = (if halt (step f1 (.execStmts (readAll vals.length)) sP).2 = true
          then (0, (step f1 (.execStmts (readAll vals.length)) sP).2)
          else (0, { (step f1 (.execStmts (readAll vals.length)) sP).2 with
            effStack := (step f1 (.execStmts (readAll vals.length)) sP).2.effStack.tail })) := by
    rw [step_succ]
    simp only [stepB, hs0, Bool.false_eq_true, if_false]
    rfl
  rw [hunf] at hh ⊢
  by_cases hp : halt (step f1 (.execStmts (readAll vals.length)) sP).2 = true
  · rw [if_pos hp] at hh
    exact absurd hh (by simp [hp])
  · rw [if_neg hp] at hh ⊢
    have hp' : halt (step f1 (.execStmts ((List.range vals.length).map Stmt.readS)) sP).2 = false := by
      rw [← readAll_eq]
      simpa using hp
    obtain ⟨k1, k2, k3, k4, k5, k6, k7, k8, k9, k10, k11, k12, k13, k14⟩ :=
      readsEffRun (List.range vals.length) f1 sP 0 []
        (fun i hi => by
          show i < sP.sigs.length
          rw [hsP]
          show i < (mkSigs vals).length
          simpa [mkSigs] using List.mem_range.mp hi)
        (by rw [hsP]) (by rw [hsP]; rfl) (by rw [hsP]; simp) hp'
    rw [readAll_eq] at hh ⊢
    refine ⟨?_, ?_, ?_, ?_, ?_, ?_, ?_, ?_, ?_, ?_, ?_⟩
    · show (step f1 (.execStmts ((List.range vals.length).map Stmt.readS)) sP).2.runs = [0]
      rw [k5, hsP]
    · show (step f1 (.execStmts ((List.range vals.length).map Stmt.readS)) sP).2.err = false
      rw [k7, hsP]
      rfl
    · show (step f1 (.execStmts ((List.range vals.length).map Stmt.readS)) sP).2.comps = []
      rw [k1, hsP]
      rfl
    · show (step f1 (.execStmts ((List.range vals.length).map Stmt.readS)) sP).2.effStack.tail = []
      rw [k2]
      rfl
    · show (step f1 (.execStmts ((List.range vals.length).map Stmt.readS)) sP).2.compStack = []
      rw [k3]
    · show (step f1 (.execStmts ((List.range vals.length).map Stmt.readS)) sP).2.batchStack = []
      rw [k4, hsP]
      rfl
    · show (step f1 (.execStmts ((List.range vals.length).map Stmt.readS)) sP).2.sigs.length = _
      rw [k9, hsP]
      show (mkSigs vals).length = vals.length
      simp [mkSigs]
    · show (step f1 (.execStmts ((List.range vals.length).map Stmt.readS)) sP).2.effs.length = 1
      rw [k12, hsP]
      rfl
    · intro i hi
      show getSig (step f1 (.execStmts ((List.range vals.length).map Stmt.readS)) sP).2 i = _
      rw [k10 i (List.mem_range.mpr hi)]
      have hgP : getSig sP i = ⟨vals.getD i 0, fun a b => a == b, [], []⟩ := by
        rw [hsP]
        show (mkSigs vals).getD i dummySig = _
        unfold mkSigs
        rw [getD_map_lt _ _ _ _ 0 (by simpa using hi)]
      rw [hgP]
      simp [addIfAbsent]
    · show getEff (step f1 (.execStmts ((List.range vals.length).map Stmt.readS)) sP).2 0 = _
      rw [k13]
      rw [show getEff sP 0 = ⟨readAll vals.length, false, [], []⟩ from by rw [hsP]; rfl]
      simp [readAll_eq]
    · intro t ht
      show getEff (step f1 (.execStmts ((List.range vals.length).map Stmt.readS)) sP).2 t = _
      rw [k14 t (by omega)]
      rw [hsP]
      show ([⟨readAll vals.length, false, [], []⟩] : List EffSt).getD t dummyEff = dummyEff
      exact getD_ge _ _ _ (by simpa using ht)

/-! ## C6 — batch coalescing -/

/-- C6: N writes of unequal values to the N distinct cells feeding one
effect, inside one `batchSet`. First conjunct: while the batch body runs
the effect does not run (`runs` stays `[0]`), and the pending set at the
close of the body is the deduplicated singleton `[0]` even though all N
cells contributed the same trigger. Second conjunct: the full `batchSet`
call fires the effect exactly once, after the batched function returns
(`runs = [0, 0]`, not `[0]` plus N re-runs), with no error. Third
conjunct: with two effects wired to two distinct cells, the pending
triggers fire in insertion order (`runs = [0, 1, 0, 1]`). -/
theorem c6_batch_coalescing :
    (∀ (vals : List Int) (w : Nat → Int) (f1 f3 : Nat),
      1 ≤ vals.length →
      (∀ i, i < vals.length → ((w i) == vals.getD i 0) = false) →
      halt (step f1 (.mkEffRun false (readAll vals.length)) (mkSt vals [])).2 = false →
      halt (step f3 (.execStmts (writesOf vals.length w)) ({ (step f1 (.mkEffRun false (readAll vals.length)) (mkSt vals [])).2 with batchStack := [[]] } : St)).2 = false →
      (step f3 (.execStmts (writesOf vals.length w)) ({ (step f1 (.mkEffRun false (readAll vals.length)) (mkSt vals [])).2 with batchStack := [[]] } : St)).2.runs = [0] ∧
      (step f3 (.execStmts (writesOf vals.length w)) ({ (step f1 (.mkEffRun false (readAll vals.length)) (mkSt vals [])).2 with batchStack := [[]] } : St)).2.batchStack = [[0]]) ∧
    (∀ (vals : List Int) (w : Nat → Int) (f1 f2 : Nat),
      1 ≤ vals.length →
      (∀ i, i < vals.length → ((w i) == vals.getD i 0) = false) →
      halt (step f1 (.mkEffRun false (readAll vals.length)) (mkSt vals [])).2 = false →
      halt (step f2 (.batchRun (writesOf vals.length w)) (step f1 (.mkEffRun false (readAll vals.length)) (mkSt vals [])).2).2 = false →
      (step f2 (.batchRun (writesOf vals.length w)) (step f1 (.mkEffRun false (readAll vals.length)) (mkSt vals [])).2).2.runs = [0, 0] ∧
      (step f2 (.batchRun (writesOf vals.length w)) (step f1 (.mkEffRun false (readAll vals.length)) (mkSt vals [])).2).2.err = false) ∧
    (∀ (a b va vb : Int), ((va == a) = false) → ((vb == b) = false) →
      (runProg 12 [.mkEff false [.readS 0], .mkEff false [.readS 1], .batchS [.setS 0 va, .setS 1 vb]] (mkSt [a, b] [])).runs = [0, 1, 0, 1] ∧
      (runProg 12 [.mkEff false [.readS 0], .mkEff false [.readS 1], .batchS [.setS 0 va, .setS 1 vb]] (mkSt [a, b] [])).err = false) := by
  have hwritesEq : ∀ (n : Nat) (w : Nat → Int),
      writesOf n w = ((List.range n).map (fun i => (i, w i))).map (fun p => Stmt.setS p.1 p.2) := by
    intro n w
    rw [List.map_map]
    rfl
  have hbatchCore : ∀ (vals : List Int) (w : Nat → Int) (f1 f3 : Nat) (pend0 : List (List Nat)),
      1 ≤ vals.length →
      (∀ i, i < vals.length → ((w i) == vals.getD i 0) = false) →
      halt (step f1 (.mkEffRun false (readAll vals.length)) (mkSt vals [])).2 = false →
      halt (step f3 (.execStmts (writesOf vals.length w)) ({ (step f1 (.mkEffRun false (readAll vals.length)) (mkSt vals [])).2 with batchStack := [] :: pend0 } : St)).2 = false →
      (step f3 (.execStmts (writesOf vals.length w)) ({ (step f1 (.mkEffRun false (readAll vals.length)) (mkSt vals [])).2 with batchStack := [] :: pend0 } : St)).2.runs = [0] ∧
      (step f3 (.execStmts (writesOf vals.length w)) ({ (step f1 (.mkEffRun false (readAll vals.length)) (mkSt vals [])).2 with batchStack := [] :: pend0 } : St)).2.batchStack = [0] :: pend0 ∧
      (step f3 (.execStmts (writesOf vals.length w)) ({ (step f1 (.mkEffRun false (readAll vals.length)) (mkSt vals [])).2 with batchStack := [] :: pend0 } : St)).2.err = false ∧
      (step f3 (.execStmts (writesOf vals.length w)) ({ (step f1 (.mkEffRun false (readAll vals.length)) (mkSt vals [])).2 with batchStack := [] :: pend0 } : St)).2.effStack = [] ∧
      (step f3 (.execStmts (writesOf vals.length w)) ({ (step f1 (.mkEffRun false (readAll vals.length)) (mkSt vals [])).2 with batchStack := [] :: pend0 } : St)).2.compStack = [] ∧
      (step f3 (.execStmts (writesOf vals.length w)) ({ (step f1 (.mkEffRun false (readAll vals.length)) (mkSt vals [])).2 with batchStack := [] :: pend0 } : St)).2.effs = (step f1 (.mkEffRun false (readAll vals.length)) (mkSt vals [])).2.effs ∧
      (step f3 (.execStmts (writesOf vals.length w)) ({ (step f1 (.mkEffRun false (readAll vals.length)) (mkSt vals [])).2 with batchStack := [] :: pend0 } : St)).2.sigs.length = vals.length := by
    intro vals w f1 f3 pend0 hn hw hh1 hh3
    obtain ⟨q1, q2, q3, q4, q5, q6, q7, q8, q9, q10, q11⟩ := c6Setup vals f1 hh1
    set s1 : St := (step f1 (.mkEffRun false (readAll vals.length)) (mkSt vals [])).2 with hs1
    set sPush : St := ({ s1 with batchStack := [] :: pend0 } : St) with hsPush
    set pairs : List (Nat × Int) := (List.range vals.length).map (fun i => (i, w i)) with hpairs
    have hwr : writesOf vals.length w = pairs.map (fun p => Stmt.setS p.1 p.2) := hwritesEq _ _
    rw [hwr] at hh3 ⊢
    have hsig : ∀ p ∈ pairs, getSig sPush p.1 = ⟨vals.getD p.1 0, fun a b => a == b, [0], []⟩ := by
      intro p hp
      obtain ⟨i, hi, rfl⟩ := List.mem_map.mp hp
      show getSig s1 i = _
      exact q9 i (List.mem_range.mp hi)
    have hnd : (pairs.map Prod.fst).Nodup := by
      rw [hpairs, List.map_map]
      have : (List.range vals.length).map (Prod.fst ∘ fun i => (i, w i))
          = List.range vals.length := List.map_id _
      rw [this]
      exact List.nodup_range _
    obtain ⟨b1, b2, b3, b4, b5, b6, b7, b8, b9⟩ := batchWrites pairs f3 sPush [] pend0
      (by show s1.comps = []; exact q3)
      (by show s1.effStack = []; exact q4)
      (by rw [hsPush])
      (fun p hp => by
        obtain ⟨i, hi, rfl⟩ := List.mem_map.mp hp
        show i < s1.sigs.length
        rw [q7]
        exact List.mem_range.mp hi)
      (fun p hp => by
        obtain ⟨i, hi, rfl⟩ := List.mem_map.mp hp
        rw [hsig (i, w i) hp]
        exact hw i (List.mem_range.mp hi))
      hnd hh3
    have hfold : pairs.foldl (fun acc p => addAll (getSig sPush p.1).triggers acc) [] = [0] := by
      refine foldl_addAll_pend pairs _ ?_ ?_
      · intro p hp
        rw [hsig p hp]
      · intro hcon
        have : pairs.length = 0 := by rw [hcon]; rfl
        rw [hpairs] at this
        rw [List.length_map, List.length_range] at this
        omega
    refine ⟨?_, ?_, ?_, b5, ?_, ?_, ?_⟩
    · rw [b2]
      show s1.runs = [0]
      exact q1
    · rw [b1, hfold]
    · rw [b3]
      show s1.err = false
      exact q2
    · rw [b6]
      show s1.compStack = []
      exact q5
    · rw [b8]
    · rw [b9]
      show s1.sigs.length = vals.length
      exact q7
  refine ⟨?_, ?_, ?_⟩
  · intro vals w f1 f3 hn hw hh1 hh3
    obtain ⟨c1, c2, -⟩ := hbatchCore vals w f1 f3 [] hn hw hh1 hh3
    exact ⟨c1, c2⟩
  · intro vals w f1 f2 hn hw hh1 hh2
    obtain ⟨q1, q2, q3, q4, q5, q6, q7, q8, q9, q10, q11⟩ := c6Setup vals f1 hh1
    set s1 : St := (step f1 (.mkEffRun false (readAll vals.length)) (mkSt vals [])).2 with hs1
    obtain ⟨g1, rfl⟩ := live_fuel _ _ _ hh2
    have hs1live : halt s1 = false := live_of _ _ _ hh2
    have hbstep : step (g1+1) (.batchRun (writesOf vals.length w)) s1
        = (if halt (step g1 (.execStmts (writesOf vals.length w)) ({ s1 with batchStack := [] :: s1.batchStack } : St)).2 = true
           then (0, (step g1 (.execStmts (writesOf vals.length w)) ({ s1 with batchStack := [] :: s1.batchStack } : St)).2)
           else (match (step g1 (.execStmts (writesOf vals.length w)) ({ s1 with batchStack := [] :: s1.batchStack } : St)).2.batchStack with
             | pend :: rest => step g1 (.runTrigs pend) ({ (step g1 (.execStmts (writesOf vals.length w)) ({ s1 with batchStack := [] :: s1.batchStack } : St)).2 with batchStack := rest } : St)
             | [] => (0, (step g1 (.execStmts (writesOf vals.length w)) ({ s1 with batchStack := [] :: s1.batchStack } : St)).2))) := by
      rw [step_succ]
      simp only [stepB, hs1live, Bool.false_eq_true, if_false]
    have hbatch0 : s1.batchStack = [] := q6
    rw [hbatch0] at hbstep
    rw [hbstep] at hh2 ⊢
    by_cases hpm : halt (step g1 (.execStmts (writesOf vals.length w)) ({ s1 with batchStack := [] :: ([] : List (List Nat)) } : St)).2 = true
    · rw [if_pos hpm] at hh2
      exact absurd hh2 (by simp [hpm])
    · rw [if_neg hpm] at hh2 ⊢
      obtain ⟨c1, c2, c3, c4, c5, c6, c7⟩ := hbatchCore vals w f1 g1 []
        hn hw hh1 (by simpa using hpm)
      set sMid : St := (step g1 (.execStmts (writesOf vals.length w)) ({ s1 with batchStack := [] :: ([] : List (List Nat)) } : St)).2 with hsMid
      rw [show sMid.batchStack = [0] :: [] from c2] at hh2 ⊢
      set X : St := ({ sMid with batchStack := ([] : List (List Nat)) } : St) with hX
      obtain ⟨lg, hfin⟩ := readsTrigs [0] g1 X
        (by show sMid.effStack = []; exact c4)
        (by show sMid.compStack = []; exact c5)
        (fun t => by
          have heq : getEff X t = getEff s1 t := by
            show sMid.effs.getD t dummyEff = s1.effs.getD t dummyEff
            rw [c6, hs1]
          rw [heq]
          have hlen : X.sigs.length = vals.length := by
            show sMid.sigs.length = _
            exact c7
          rw [hlen]
          match t with
          | 0 =>
            rw [q10]
            show readsIn (readAll vals.length) vals.length = true
            rw [readAll_eq]
            exact readsIn_map_readS _ _ (fun i hi => List.mem_range.mp hi)
          | Nat.succ r =>
            rw [q11 (r+1) (by omega)]
            rfl)
        (fun t => by
          have heq : getEff X t = getEff s1 t := by
            show sMid.effs.getD t dummyEff = s1.effs.getD t dummyEff
            rw [c6, hs1]
          rw [heq]
          match t with
          | 0 => rw [q10]
          | Nat.succ r => rw [q11 (r+1) (by omega)]; rfl)
        hh2
      rw [hfin]
      constructor
      · show X.runs ++ [0] = [0, 0]
        rw [show X.runs = sMid.runs from rfl, c1]
        rfl
      · show X.err = false
        rw [show X.err = sMid.err from rfl, c3]
  · intro a b va vb h1 h2
    have hnil9 : ∀ s : St, (step 9 (.execStmts []) s).2 = s := by
      intro s
      rw [show (9:Nat) = 8+1 from rfl, step_succ]
      by_cases h : halt s = true <;> simp [stepB, h]
    have st1 : (step 11 (.execStmt (.mkEff false [.readS 0])) (mkSt [a, b] [])).2
        = (⟨[⟨a, fun x y => x == y, [0], []⟩, ⟨b, fun x y => x == y, [], []⟩], [], [⟨[.readS 0], false, [0], []⟩], [], [], [], [0], [], [a], false, false⟩ : St) := by
      simp [step, stepB, sigRead, mkSt, mkSigs, mkComps, halt, stall, getSig, getEff, getComp, updSig, updEff, updComp, updAt, invalidateAll, addIfAbsent, addAll, destroyEff, wireLate]
    have st2 : (step 10 (.execStmt (.mkEff false [.readS 1])) (⟨[⟨a, fun x y => x == y, [0], []⟩, ⟨b, fun x y => x == y, [], []⟩], [], [⟨[.readS 0], false, [0], []⟩], [], [], [], [0], [], [a], false, false⟩ : St)).2
        = (⟨[⟨a, fun x y => x == y, [0], []⟩, ⟨b, fun x y => x == y, [1], []⟩], [], [⟨[.readS 0], false, [0], []⟩, ⟨[.readS 1], false, [1], []⟩], [], [], [], [0, 1], [], [a, b], false, false⟩ : St) := by
      simp [step, stepB, sigRead, halt, stall, getSig, getEff, getComp, updSig, updEff, updComp, updAt, invalidateAll, addIfAbsent, addAll, destroyEff, wireLate]
    have g12 : step 12 (.execStmts [.mkEff false [.readS 0], .mkEff false [.readS 1], .batchS [.setS 0 va, .setS 1 vb]]) (mkSt [a, b] [])
        = step 11 (.execStmts [.mkEff false [.readS 1], .batchS [.setS 0 va, .setS 1 vb]]) (step 11 (.execStmt (.mkEff false [.readS 0])) (mkSt [a, b] [])).2 := by
      rw [show (12:Nat) = 11+1 from rfl, step_succ]
      simp [stepB, halt, mkSt, mkSigs, mkComps]
    have g11 : step 11 (.execStmts [.mkEff false [.readS 1], .batchS [.setS 0 va, .setS 1 vb]]) (⟨[⟨a, fun x y => x == y, [0], []⟩, ⟨b, fun x y => x == y, [], []⟩], [], [⟨[.readS 0], false, [0], []⟩], [], [], [], [0], [], [a], false, false⟩ : St)
        = step 10 (.execStmts [.batchS [.setS 0 va, .setS 1 vb]]) (step 10 (.execStmt (.mkEff false [.readS 1])) (⟨[⟨a, fun x y => x == y, [0], []⟩, ⟨b, fun x y => x == y, [], []⟩], [], [⟨[.readS 0], false, [0], []⟩], [], [], [], [0], [], [a], false, false⟩ : St)).2 := by
      rw [show (11:Nat) = 10+1 from rfl, step_succ]
      simp [stepB, halt]
    have g10 : step 10 (.execStmts [.batchS [.setS 0 va, .setS 1 vb]]) (⟨[⟨a, fun x y => x == y, [0], []⟩, ⟨b, fun x y => x == y, [1], []⟩], [], [⟨[.readS 0], false, [0], []⟩, ⟨[.readS 1], false, [1], []⟩], [], [], [], [0, 1], [], [a, b], false, false⟩ : St)
        = step 9 (.execStmts []) (step 9 (.execStmt (.batchS [.setS 0 va, .setS 1 vb])) (⟨[⟨a, fun x y => x == y, [0], []⟩, ⟨b, fun x y => x == y, [1], []⟩], [], [⟨[.readS 0], false, [0], []⟩, ⟨[.readS 1], false, [1], []⟩], [], [], [], [0, 1], [], [a, b], false, false⟩ : St)).2 := by
      rw [show (10:Nat) = 9+1 from rfl, step_succ]
      simp [stepB, halt]
    have hb : (step 9 (.execStmt (.batchS [.setS 0 va, .setS 1 vb])) (⟨[⟨a, fun x y => x == y, [0], []⟩, ⟨b, fun x y => x == y, [1], []⟩], [], [⟨[.readS 0], false, [0], []⟩, ⟨[.readS 1], false, [1], []⟩], [], [], [], [0, 1], [], [a, b], false, false⟩ : St)).2.runs = [0, 1, 0, 1] ∧
        (step 9 (.execStmt (.batchS [.setS 0 va, .setS 1 vb])) (⟨[⟨a, fun x y => x == y, [0], []⟩, ⟨b, fun x y => x == y, [1], []⟩], [], [⟨[.readS 0], false, [0], []⟩, ⟨[.readS 1], false, [1], []⟩], [], [], [], [0, 1], [], [a, b], false, false⟩ : St)).2.err = false := by
      constructor <;> simp [step, stepB, sigRead, halt, stall, getSig, getEff, getComp, updSig, updEff, updComp, updAt, invalidateAll, addIfAbsent, addAll, destroyEff, wireLate, h1, h2]
    constructor
    · rw [show (runProg 12 [.mkEff false [.readS 0], .mkEff false [.readS 1], .batchS [.setS 0 va, .setS 1 vb]] (mkSt [a, b] [])) = (step 12 (.execStmts [.mkEff false [.readS 0], .mkEff false [.readS 1], .batchS [.setS 0 va, .setS 1 vb]]) (mkSt [a, b] [])).2 from rfl, g12, st1, g11, st2, g10, hnil9]
      exact hb.1
    · rw [show (runProg 12 [.mkEff false [.readS 0], .mkEff false [.readS 1], .batchS [.setS 0 va, .setS 1 vb]] (mkSt [a, b] [])) = (step 12 (.execStmts [.mkEff false [.readS 0], .mkEff false [.readS 1], .batchS [.setS 0 va, .setS 1 vb]]) (mkSt [a, b] [])).2 from rfl, g12, st1, g11, st2, g10, hnil9]
      exact hb.2

/-- C6 witness: two cells holding 1 with an effect reading both, then a
batch writing 2 and 3. -/
theorem c6_batch_coalescing_witness :
    (1 ≤ ([1, 1] : List Int).length ∧
      (step 9 (.batchRun (writesOf 2 (fun i => (i : Int) + 2)))
        (step 6 (.mkEffRun false (readAll 2)) (mkSt [1, 1] [])).2).2.runs = [0, 0]) ∧
    ((step 8 (.execStmts (writesOf 2 (fun i => (i : Int) + 2)))
        ({ (step 6 (.mkEffRun false (readAll 2)) (mkSt [1, 1] [])).2 with batchStack := [[]] } : St)).2.runs = [0] ∧
      (step 8 (.execStmts (writesOf 2 (fun i => (i : Int) + 2)))
        ({ (step 6 (.mkEffRun false (readAll 2)) (mkSt [1, 1] [])).2 with batchStack := [[]] } : St)).2.batchStack = [[0]]) ∧
    (runProg 12 [.mkEff false [.readS 0], .mkEff false [.readS 1],
      .batchS [.setS 0 9, .setS 1 8]] (mkSt [4, 5] [])).runs = [0, 1, 0, 1] := by
  have hw : ∀ i, i < ([1, 1] : List Int).length →
      (((fun i => (i : Int) + 2) i) == ([1, 1] : List Int).getD i 0) = false := by decide
  have hA := (c6_batch_coalescing.2.1 [1, 1] (fun i => (i : Int) + 2) 6 9
    (by decide) hw (by decide) (by decide)).1
  have hB := c6_batch_coalescing.1 [1, 1] (fun i => (i : Int) + 2) 6 8
    (by decide) hw (by decide) (by decide)
  have hC := (c6_batch_coalescing.2.2 4 5 9 8 (by decide) (by decide)).1
  exact ⟨⟨by decide, hA⟩, ⟨hB.1, hB.2⟩, hC⟩

/-! ## C8 — mutate always propagates, with no equality check -/

/-- C8: `mutate` applies the mutation function to the held value and then
propagates unconditionally — there is no equality check. Outside a batch
(first conjunct), every registered cache invalidator runs (each listed
computed's cache is cleared) and every dependent trigger fires exactly
once, in order (`runs` gains exactly the dependent list) — for every
mutation function `mf`, including the identity, so propagation happens
even when the held value is unchanged. Inside a batch (second conjunct),
the invalidators still run, the value is still updated, and the dependent
triggers are routed into the innermost pending set instead of firing. -/
theorem c8_mutate_propagates :
    (∀ (f : Nat) (i : Nat) (mf : Int → Int) (s : St),
      s.effStack = [] → s.compStack = [] → s.batchStack = [] →
      i < s.sigs.length →
      (∀ t, readsIn (getEff s t).body s.sigs.length = true) →
      (∀ t, (getEff s t).childEffects = []) →
      halt (step f (.mutateSig i mf) s).2 = false →
      (step f (.mutateSig i mf) s).2.runs = s.runs ++ (getSig s i).triggers ∧
      (getSig (step f (.mutateSig i mf) s).2 i).current = mf (getSig s i).current ∧
      (step f (.mutateSig i mf) s).2.err = s.err ∧
      (∀ c ∈ (getSig s i).cacheInvalidators, c < s.comps.length →
        (getComp (step f (.mutateSig i mf) s).2 c).hasCache = false)) ∧
    (∀ (f : Nat) (i : Nat) (mf : Int → Int) (s : St) (pend : List Nat)
        (rest : List (List Nat)),
      halt s = false → s.batchStack = pend :: rest → i < s.sigs.length →
      (step (f+2) (.mutateSig i mf) s).2
        = { invalidateAll (getSig s i).cacheInvalidators
              (updSig i (fun sg => { sg with current := mf sg.current }) s) with
            batchStack := addAll (getSig s i).triggers pend :: rest } ∧
      (step (f+2) (.mutateSig i mf) s).2.runs = s.runs) := by
  constructor
  · intro f i mf s he hc hb hl hri hch hh
    obtain ⟨f1, rfl⟩ := live_fuel _ _ _ hh
    have hs : halt s = false := live_of _ _ _ hh
    set X : St := updSig i (fun sg => { sg with current := mf sg.current }) s with hX
    have hXsig : getSig X i = { getSig s i with current := mf (getSig s i).current } := by
      rw [hX, getSig_updSig_self _ _ _ hl]
    have hstep : step (f1+1) (.mutateSig i mf) s = step f1 (.propagate i) X := by
      rw [step_succ]
      simp [stepB, hs, hX]
    rw [hstep] at hh ⊢
    obtain ⟨f2, hf2⟩ := live_fuel _ _ _ hh
    set s1 : St := invalidateAll (getSig X i).cacheInvalidators X with hs1
    have hXhalt : halt X = false := by
      obtain ⟨-, -, -, -, -, -, he2, hf2'⟩ := ctl_parts (show ctl X = ctl s from rfl)
      simp [halt, he2, hf2', (by simpa [halt, Bool.or_eq_false_iff] using hs : _)]
    have hprop : step f1 (.propagate i) X = step f2 (.fireTrigs i 0) s1 := by
      rw [hf2, step_succ]
      have hb1 : s1.batchStack = [] := by
        have := (ctl_parts (ctl_invalidateAll (getSig X i).cacheInvalidators X)).2.2.1
        rw [hs1, this, hX]
        simpa using hb
      simp only [stepB, hXhalt, Bool.false_eq_true, if_false, ← hs1, hb1]
    rw [hprop] at hh ⊢
    have hsig1 : s1.sigs = X.sigs := by rw [hs1]; exact invalidateAll_sigs _ _
    have htrig : (getSig s1 i).triggers = (getSig s i).triggers := by
      show ((s1.sigs).getD i dummySig).triggers = _
      rw [hsig1]
      show (getSig X i).triggers = _
      rw [hXsig]
    obtain ⟨lg, hfin⟩ := fireTrigsReads i f2 0 s1
      (by rw [hs1, (ctl_parts (ctl_invalidateAll _ _)).1, hX]; simpa using he)
      (by rw [hs1, (ctl_parts (ctl_invalidateAll _ _)).2.1, hX]; simpa using hc)
      (fun t => by
        have heff : getEff s1 t = getEff s t := by
          show (s1.effs.getD t dummyEff) = _
          rw [hs1, invalidateAll_effs]
          rfl
        have hlen : s1.sigs.length = s.sigs.length := by
          rw [hsig1, hX]
          simp [updSig, updAt_length]
        rw [heff, hlen]
        exact hri t)
      (fun t => by
        have heff : getEff s1 t = getEff s t := by
          show (s1.effs.getD t dummyEff) = _
          rw [hs1, invalidateAll_effs]
          rfl
        rw [heff]
        exact hch t) hh
    rw [hfin]
    refine ⟨?_, ?_, ?_, ?_⟩
    · show s1.runs ++ _ = s.runs ++ _
      rw [List.drop_zero, htrig]
      have : s1.runs = s.runs := by
        rw [hs1, (ctl_parts (ctl_invalidateAll _ _)).2.2.2.1, hX]
        rfl
      rw [this]
    · show (getSig s1 i).current = _
      show ((s1.sigs).getD i dummySig).current = _
      rw [hsig1]
      show (getSig X i).current = _
      rw [hXsig]
    · show s1.err = s.err
      rw [hs1, (ctl_parts (ctl_invalidateAll _ _)).2.2.2.2.2.2.1, hX]
      rfl
    · intro c hm hcl
      show (getComp s1 c).hasCache = false
      rw [hs1]
      refine invalidateAll_hasCache_mem _ _ _ ?_ ?_
      · have : (getSig X i).cacheInvalidators = (getSig s i).cacheInvalidators := by
          rw [hXsig]
        rw [this]
        exact hm
      · show c < X.comps.length
        rw [hX]
        simpa [updSig] using hcl
  · intro f i mf s pend rest hs hbs hl
    rw [step_succ]
    have hstep : stepB (step (f+1)) (.mutateSig i mf) s
        = step (f+1) (.propagate i)
            (updSig i (fun sg => { sg with current := mf sg.current }) s) := by
      simp [stepB, hs]
    rw [hstep, step_succ]
    set X : St := updSig i (fun sg => { sg with current := mf sg.current }) s with hX
    have hXhalt : halt X = false := by
      simpa [halt, hX, updSig] using hs
    have hbX : (invalidateAll (getSig X i).cacheInvalidators X).batchStack = pend :: rest := by
      rw [(ctl_parts (ctl_invalidateAll _ _)).2.2.1, hX]
      simpa [updSig] using hbs
    have hXsig : getSig X i = { getSig s i with current := mf (getSig s i).current } := by
      rw [hX, getSig_updSig_self _ _ _ hl]
    have htrig : (getSig (invalidateAll (getSig X i).cacheInvalidators X) i).triggers
        = (getSig s i).triggers := by
      show ((invalidateAll (getSig X i).cacheInvalidators X).sigs.getD i dummySig).triggers = _
      rw [invalidateAll_sigs]
      show (getSig X i).triggers = _
      rw [hXsig]
    have hinv : (getSig X i).cacheInvalidators = (getSig s i).cacheInvalidators := by
      rw [hXsig]
    have hbX2 : (invalidateAll (getSig s i).cacheInvalidators X).batchStack = pend :: rest := by
      rw [← hinv]
      exact hbX
    have htrig2 : (getSig (invalidateAll (getSig s i).cacheInvalidators X) i).triggers
        = (getSig s i).triggers := by
      rw [← hinv]
      exact htrig
    constructor
    · simp only [stepB, hXhalt, Bool.false_eq_true, if_false, hinv, hbX2, htrig2]
    · simp only [stepB, hXhalt, Bool.false_eq_true, if_false, hinv, hbX2]
      show (invalidateAll (getSig s i).cacheInvalidators X).runs = s.runs
      rw [(ctl_parts (ctl_invalidateAll _ _)).2.2.2.1, hX]
      rfl

/-- C8 witness: one cell holding 5 with one dependent effect and one
registered invalidator, mutated with the identity function — the effect
still re-runs and the cache is still cleared. -/
theorem c8_mutate_propagates_witness :
    (c8St.effStack = [] ∧ c8St.compStack = [] ∧ c8St.batchStack = [] ∧
      (0:Nat) < c8St.sigs.length ∧
      (step 30 (.mutateSig 0 (fun x => x)) c8St).2.runs = c8St.runs ++ (getSig c8St 0).triggers ∧
      (getSig (step 30 (.mutateSig 0 (fun x => x)) c8St).2 0).current = (getSig c8St 0).current) ∧
    (halt c8BatchSt = false ∧ c8BatchSt.batchStack = [[]] ∧
      (step (28+2) (.mutateSig 0 (fun x => x + 1)) c8BatchSt).2.runs = c8BatchSt.runs) := by
  have hri : ∀ t, readsIn (getEff c8St t).body c8St.sigs.length = true := by
    intro t
    match t with
    | 0 => decide
    | Nat.succ r => rfl
  have hch : ∀ t, (getEff c8St t).childEffects = [] := by
    intro t
    match t with
    | 0 => rfl
    | Nat.succ r => rfl
  have hA := c8_mutate_propagates.1 30 0 (fun x => x) c8St rfl rfl rfl (by decide)
    hri hch (by decide)
  have hB := c8_mutate_propagates.2 28 0 (fun x => x + 1) c8BatchSt [] []
    (by decide) rfl (by decide)
  exact ⟨⟨rfl, rfl, rfl, by decide, hA.1, by rw [hA.2.1]⟩, ⟨by decide, rfl, hB.2⟩⟩

/-! ## C10 — mutate never raises the illegal-write error -/

/-- C10: `mutate` never raises the illegal-write error: unlike `set`, it
performs no effect-context check (signal.ts lines 85-88), so it preserves
`err` on every state whose effect bodies are set-free (first conjunct).
Concretely (second conjunct): effect 1's body calls `mutate` on cell 0
during its construction run — a non-`allowSignalWrites` effect context is
active, the exact condition under which `set` throws — yet the mutation
is applied (`current = mf a`, for every mutation function `mf`, with no
equality check), its dependent effect 0 re-runs, and no error is raised:
`runs = [0, 0, 1, 0]` records effect 0's construction, its re-run after
`set 1 (-1)`, effect 1's construction, and effect 0's re-run fired by the
mutation's propagation (a live iteration that terminates, because by then
effect 0's body reads only cell 1, whose dependent set is not the one
being iterated). -/
theorem c10_mutate_no_error (a : Int) (mf : Int → Int) :
    (∀ (f i : Nat) (g : Int → Int) (s : St), SetFreeSt s →
      (step f (.mutateSig i g) s).2.err = s.err) ∧
    (runProg 16 [.mkEff false [.ifPos 1 [.readS 0] []], .setS 1 (-1),
        .mkEff false [.mutateS 0 mf]] (mkSt [a, 1] [])).err = false ∧
    (getSig (runProg 16 [.mkEff false [.ifPos 1 [.readS 0] []], .setS 1 (-1),
        .mkEff false [.mutateS 0 mf]] (mkSt [a, 1] [])) 0).current = mf a ∧
    (runProg 16 [.mkEff false [.ifPos 1 [.readS 0] []], .setS 1 (-1),
        .mkEff false [.mutateS 0 mf]] (mkSt [a, 1] [])).runs = [0, 0, 1, 0] := by
  have h1 : step 15 (.execStmt (.mkEff false [.ifPos 1 [.readS 0] []])) (mkSt [a, 1] []) = (0, c10S1 a) := by
    simp [step, stepB, sigRead, mkSt, mkSigs, mkComps, halt, stall, c10S1,
      getSig, getEff, getComp, updSig, updEff, updComp, updAt, invalidateAll,
      addIfAbsent, addAll, destroyEff, wireLate]
  have h2 : step 14 (.execStmt (.setS 1 (-1))) (c10S1 a) = (0, c10S2 a) := by
    simp [step, stepB, sigRead, halt, stall, c10S1, c10S2,
      getSig, getEff, getComp, updSig, updEff, updComp, updAt, invalidateAll,
      addIfAbsent, addAll, destroyEff, wireLate, List.drop]
  have h3 : step 13 (.execStmt (.mkEff false [.mutateS 0 mf])) (c10S2 a) = (0, c10S3 a mf) := by
    simp [step, stepB, sigRead, halt, stall, c10S2, c10S3,
      getSig, getEff, getComp, updSig, updEff, updComp, updAt, invalidateAll,
      addIfAbsent, addAll, destroyEff, wireLate, List.drop]
  have hall : runProg 16 [.mkEff false [.ifPos 1 [.readS 0] []], .setS 1 (-1),
      .mkEff false [.mutateS 0 mf]] (mkSt [a, 1] []) = c10S3 a mf := by
    show (step 16 (.execStmts [.mkEff false [.ifPos 1 [.readS 0] []], .setS 1 (-1),
      .mkEff false [.mutateS 0 mf]]) (mkSt [a, 1] [])).2 = c10S3 a mf
    rw [show (16:Nat) = 15+1 from rfl, step_succ]
    simp only [stepB, show halt (mkSt [a, 1] []) = false from rfl, Bool.false_eq_true, if_false]
    rw [h1]
    show (step 15 (.execStmts [.setS 1 (-1), .mkEff false [.mutateS 0 mf]]) (c10S1 a)).2 = c10S3 a mf
    rw [show (15:Nat) = 14+1 from rfl, step_succ]
    simp only [stepB, show halt (c10S1 a) = false from rfl, Bool.false_eq_true, if_false]
    rw [h2]
    show (step 14 (.execStmts [.mkEff false [.mutateS 0 mf]]) (c10S2 a)).2 = c10S3 a mf
    rw [show (14:Nat) = 13+1 from rfl, step_succ]
    simp only [stepB, show halt (c10S2 a) = false from rfl, Bool.false_eq_true, if_false]
    rw [h3]
    show (step 13 (.execStmts []) (c10S3 a mf)).2 = c10S3 a mf
    rw [show (13:Nat) = 12+1 from rfl, step_succ]
    simp only [stepB, show halt (c10S3 a mf) = false from rfl, Bool.false_eq_true, if_false]
  exact ⟨fun f i g s hS => (errPres f (.mutateSig i g) s hS trivial).1,
    (congrArg St.err hall).trans rfl,
    (congrArg (fun s => (getSig s 0).current) hall).trans rfl,
    (congrArg St.runs hall).trans rfl⟩

/-- C10 witness: mutating with `fun x => x + 1` inside an active
non-`allowSignalWrites` effect context (the state `illegalSt`, whose one
effect body is empty and hence set-free) leaves `err` untouched. -/
theorem c10_mutate_no_error_witness :
    SetFreeSt illegalSt ∧
    (step 6 (.mutateSig 0 (fun x => x + 1)) illegalSt).2.err = illegalSt.err :=
  ⟨fun e => by cases e <;> rfl,
   (c10_mutate_no_error 0 (fun x => x)).1 6 0 (fun x => x + 1) illegalSt
     (fun e => by cases e <;> rfl)⟩

/-! ## C9 — no dependency registration during trigger re-runs -/

/-- C9: dependencies are registered only during an effect's construction
run. The effect's body reads cell 1 only when cell 0 is positive; cell 0
starts non-positive, so cell 1 is read for the first time during the
re-run caused by `set 0 p` (the `log = [b]` entry shows that read
happened). A trigger re-run pushes no effect context, so cell 1 gains no
trigger — its dependent set stays empty — and the later write `set 1 w`
does not re-run the effect: `runs` stays `[0, 0]`. -/
theorem c9_rerun_no_registration (a b p w : Int) (h1 : ¬ 0 < a)
    (h2 : (p == a) = false) (h3 : 0 < p) (h4 : (w == b) = false) :
    (getSig (runProg 40 [.mkEff false [.ifPos 0 [.readS 1] []], .setS 0 p, .setS 1 w]
        (mkSt [a, b] [])) 1).triggers = [] ∧
    (runProg 40 [.mkEff false [.ifPos 0 [.readS 1] []], .setS 0 p, .setS 1 w]
        (mkSt [a, b] [])).runs = [0, 0] ∧
    (runProg 40 [.mkEff false [.ifPos 0 [.readS 1] []], .setS 0 p, .setS 1 w]
        (mkSt [a, b] [])).log = [b] ∧
    (runProg 40 [.mkEff false [.ifPos 0 [.readS 1] []], .setS 0 p, .setS 1 w]
        (mkSt [a, b] [])).err = false := by
  simp [runProg, step, stepB, sigRead, mkSt, mkSigs, mkComps, halt, stall,
    getSig, getEff, getComp, updSig, updEff, updComp, updAt, invalidateAll,
    addIfAbsent, addAll, destroyEff, wireLate, h1, h2, h3, h4]

/-- C9 witness: the concrete instance `a = 0, b = 7, p = 3, w = 9`. -/
theorem c9_rerun_no_registration_witness :
    (¬ (0:Int) < 0) ∧ (((3:Int) == (0:Int)) = false) ∧ ((0:Int) < 3) ∧
    (((9:Int) == (7:Int)) = false) ∧
    ((getSig (runProg 40 [.mkEff false [.ifPos 0 [.readS 1] []], .setS 0 3, .setS 1 9]
        (mkSt [0, 7] [])) 1).triggers = [] ∧
     (runProg 40 [.mkEff false [.ifPos 0 [.readS 1] []], .setS 0 3, .setS 1 9]
        (mkSt [0, 7] [])).runs = [0, 0] ∧
     (runProg 40 [.mkEff false [.ifPos 0 [.readS 1] []], .setS 0 3, .setS 1 9]
        (mkSt [0, 7] [])).log = [7] ∧
     (runProg 40 [.mkEff false [.ifPos 0 [.readS 1] []], .setS 0 3, .setS 1 9]
        (mkSt [0, 7] [])).err = false) :=
  ⟨by decide, by decide, by decide, by decide,
    c9_rerun_no_registration 0 7 3 9 (by decide) (by decide) (by decide) (by decide)⟩

/-! ## C3 — nested-effect cleanup fails beyond the first re-run -/

/-- C3 evidence: the nested-effect cleanup does not keep the dependent
set bounded. A parent effect reads cell 0 and creates a child effect
reading cell 1. Because a trigger re-run pushes no effect context, the
children created during re-runs are never recorded in the parent's
`childEffects`, and the recorded list is never cleared; so after 2 parent
re-runs cell 1's dependent set holds 2 triggers and after 3 re-runs it
holds 3 — growing with the number of re-runs instead of staying bounded.
No error is raised, and every re-run leaks one more child subscription. -/
theorem c3_nested_leak :
    (getSig (runProg 120 [.mkEff false [.readS 0, .mkEff false [.readS 1]],
        .setS 0 1, .setS 0 2] (mkSt [0, 0] [])) 1).triggers.length = 2 ∧
    (getSig (runProg 200 [.mkEff false [.readS 0, .mkEff false [.readS 1]],
        .setS 0 1, .setS 0 2, .setS 0 3] (mkSt [0, 0] [])) 1).triggers.length = 3 ∧
    (runProg 120 [.mkEff false [.readS 0, .mkEff false [.readS 1]],
        .setS 0 1, .setS 0 2] (mkSt [0, 0] [])).err = false ∧
    (runProg 200 [.mkEff false [.readS 0, .mkEff false [.readS 1]],
        .setS 0 1, .setS 0 2, .setS 0 3] (mkSt [0, 0] [])).err = false := by
  decide


/-! ## C7 — memoization -/

theorem map_body_updAt (l : List CompSt) (j : Nat) (g : CompSt → CompSt)
    (h : ∀ x, (g x).body = x.body) :
    (updAt l j g).map CompSt.body = l.map CompSt.body := by
  induction l generalizing j with
  | nil => rfl
  | cons a t ih =>
    cases j with
    | zero => simp [updAt, h a]
    | succ j => simp [updAt, ih j]

theorem comps_foldl {α : Type} (g : St → α → St)
    (hg : ∀ st x, (g st x).comps = st.comps) :
    ∀ (L : List α) (s : St), (L.foldl g s).comps = s.comps := by
  intro L
  induction L with
  | nil => intro s; rfl
  | cons a t ih => intro s; rw [List.foldl_cons, ih, hg]

theorem mapBody_foldl {α : Type} (g : St → α → St)
    (hg : ∀ st x, (g st x).comps.map CompSt.body = st.comps.map CompSt.body) :
    ∀ (L : List α) (s : St),
      (L.foldl g s).comps.map CompSt.body = s.comps.map CompSt.body := by
  intro L
  induction L with
  | nil => intro s; rfl
  | cons a t ih => intro s; rw [List.foldl_cons, ih, hg]

theorem mapBody_sigRead (i : Nat) (s : St) :
    (sigRead i s).2.comps.map CompSt.body = s.comps.map CompSt.body := by
  by_cases hs : halt s = true
  · simp [sigRead, hs]
  · have h1 : ∀ s' : St,
        ((s'.compStack.reverse.foldl
          (fun st c => updComp c (fun cc => { cc with lateEffects := cc.lateEffects ++ [i] }) (updSig i (fun sg => { sg with cacheInvalidators := sg.cacheInvalidators ++ [c] }) st))
          s')).comps.map CompSt.body = s'.comps.map CompSt.body := by
      intro s'
      refine mapBody_foldl _ ?_ _ _
      intro st c
      have h2 : (updComp c (fun cc => { cc with lateEffects := cc.lateEffects ++ [i] }) (updSig i (fun sg => { sg with cacheInvalidators := sg.cacheInvalidators ++ [c] }) st)).comps = updAt st.comps c (fun cc => { cc with lateEffects := cc.lateEffects ++ [i] }) := rfl
      rw [h2]
      exact map_body_updAt _ _ _ (fun x => rfl)
    cases hh : s.effStack.head? with
    | some e =>
      simp only [sigRead, hs, Bool.false_eq_true, if_false, hh]
      rw [h1]
      rfl
    | none =>
      simp only [sigRead, hs, Bool.false_eq_true, if_false, hh]
      rw [h1]

theorem comps_wireLate (ws : List Nat) (e : Nat) (s : St) :
    (wireLate ws e s).comps = s.comps := by
  refine comps_foldl _ ?_ _ _
  intro st w
  rfl

theorem map_body_getD : ∀ (l l' : List CompSt), l.map CompSt.body = l'.map CompSt.body →
    ∀ j : Nat, (l.getD j dummyComp).body = (l'.getD j dummyComp).body := by
  intro l
  induction l with
  | nil =>
    intro l' h j
    cases l' with
    | nil => rfl
    | cons b t' => simp at h
  | cons a t ih =>
    intro l' h j
    cases l' with
    | nil => simp at h
    | cons b t' =>
      rw [List.map_cons, List.map_cons] at h
      injection h with h1 h2
      cases j with
      | zero => simpa using h1
      | succ m => simpa using ih t' h2 m

theorem acyclic_of_mapBody (s s' : St)
    (h : s'.comps.map CompSt.body = s.comps.map CompSt.body)
    (hA : AcyclicComps s) : AcyclicComps s' := by
  intro j j' hj'
  have hb : (getComp s' j).body = (getComp s j).body := map_body_getD _ _ h j
  rw [hb] at hj'
  exact hA j j' hj'

/-- During expression evaluation under an acyclic computed graph, every
`evals` entry appended names a computed of index below `K` (for a direct
computed read, below `K` whenever the computed itself is), and no
computed's body changes. -/
theorem evalsBelow (f : Nat) : ∀ (c : Call) (s : St) (K : Nat), AcyclicComps s →
    evalGuard c K →
    ∃ L, (step f c s).2.evals = s.evals ++ L ∧ (∀ x ∈ L, x < K) ∧
      (step f c s).2.comps.map CompSt.body = s.comps.map CompSt.body := by
  induction f with
  | zero =>
    intro c s K _ _
    exact ⟨[], by simp [step_zero, stall], by simp, by simp [step_zero, stall]⟩
  | succ f ih =>
    intro c s K hA hg
    rw [step_succ]
    by_cases hs : halt s = true
    · rw [stepB_halt _ _ _ hs]
      exact ⟨[], by simp, by simp, by simp⟩
    · simp only [Bool.not_eq_true] at hs
      cases c with
      | evalP e =>
        cases e with
        | const n =>
          simp only [stepB, hs, Bool.false_eq_true, if_false]
          exact ⟨[], by simp, by simp, by simp⟩
        | readSig i =>
          simp only [stepB, hs, Bool.false_eq_true, if_false]
          exact ⟨[], by simp [(ctl_parts (ctl_sigRead i s)).2.2.2.2.1], by simp,
            mapBody_sigRead i s⟩
        | readComp j =>
          simp only [stepB, hs, Bool.false_eq_true, if_false]
          exact ih (.compRead j) s K hA (hg j (by simp [mentComps]))
        | add e1 e2 =>
          simp only [stepB, hs, Bool.false_eq_true, if_false]
          have hg1 : evalGuard (.evalP e1) K := fun j' hj' => hg j' (by simp [mentComps, hj'])
          have hg2 : evalGuard (.evalP e2) K := fun j' hj' => hg j' (by simp [mentComps, hj'])
          obtain ⟨L1, a1, a2, a3⟩ := ih (.evalP e1) s K hA hg1
          obtain ⟨L2, b1, b2, b3⟩ := ih (.evalP e2) _ K (acyclic_of_mapBody _ _ a3 hA) hg2
          refine ⟨L1 ++ L2, ?_, ?_, b3.trans a3⟩
          · rw [b1, a1, List.append_assoc]
          · intro x hx
            rcases List.mem_append.mp hx with h | h
            · exact a2 x h
            · exact b2 x h
      | compRead j =>
        simp only [stepB, hs, Bool.false_eq_true, if_false]
        by_cases hcache : (getComp s j).hasCache
        · simp only [hcache, if_true]
          cases hh : s.effStack.head? with
          | some e =>
            refine ⟨[], ?_, by simp, ?_⟩
            · simp [(ctl_parts (ctl_wireLate (getComp s j).lateEffects e s)).2.2.2.2.1]
            · rw [comps_wireLate]
          | none => exact ⟨[], by simp, by simp, by simp⟩
        · simp only [hcache, Bool.false_eq_true, if_false]
          have hA1 : AcyclicComps ({ s with compStack := j :: s.compStack, evals := s.evals ++ [j] } : St) := fun a b hb => hA a b hb
          have hg1 : evalGuard (.evalP (getComp s j).body) K :=
            fun j' hj' => lt_trans (hA j j' hj') hg
          obtain ⟨L, a1, a2, a3⟩ := ih (.evalP (getComp s j).body)
            ({ s with compStack := j :: s.compStack, evals := s.evals ++ [j] }) K hA1 hg1
          have hmem : ∀ x ∈ j :: L, x < K := by
            intro x hx
            rcases List.mem_cons.mp hx with rfl | h
            · exact hg
            · exact a2 x h
          by_cases hp : halt (step f (.evalP (getComp s j).body)
              ({ s with compStack := j :: s.compStack, evals := s.evals ++ [j] } : St)).2 = true
          · simp only [hp, if_true]
            refine ⟨j :: L, ?_, hmem, a3⟩
            rw [a1]
            simp
          · simp only [hp, Bool.false_eq_true, if_false]
            refine ⟨j :: L, ?_, hmem, ?_⟩
            · show (step f (.evalP (getComp s j).body) ({ s with compStack := j :: s.compStack, evals := s.evals ++ [j] } : St)).2.evals = s.evals ++ (j :: L)
              rw [a1]
              simp
            · show (updAt (step f (.evalP (getComp s j).body) ({ s with compStack := j :: s.compStack, evals := s.evals ++ [j] } : St)).2.comps j (fun c0 => { c0 with cached := (step f (.evalP (getComp s j).body) ({ s with compStack := j :: s.compStack, evals := s.evals ++ [j] } : St)).1, hasCache := true })).map CompSt.body = s.comps.map CompSt.body
              exact (map_body_updAt _ j (fun c0 => { c0 with cached := (step f (.evalP (getComp s j).body) ({ s with compStack := j :: s.compStack, evals := s.evals ++ [j] } : St)).1, hasCache := true }) (fun x => rfl)).trans a3
      | execStmt st => exact hg.elim
      | execStmts l => exact hg.elim
      | setSig i v => exact hg.elim
      | mutateSig i mf => exact hg.elim
      | propagate i => exact hg.elim
      | runTrig e => exact hg.elim
      | runTrigs ts => exact hg.elim
      | fireTrigs i vk => exact hg.elim
      | mkEffRun allow body => exact hg.elim
      | batchRun body => exact hg.elim

/-- C7: memoization. With an acyclic computed graph, a completing first
read of a dirty computed `c` (`hasCache = false`) invokes its `fn`
exactly once (`evals` gains exactly one entry `c`) and stores the
returned value in the cache; a second read straight after (any fuel)
returns the same value and leaves `evals` unchanged; and in general a
read of a clean computed (`hasCache = true`) returns the cached value
and never invokes any `fn` — `fn` runs at most once per dirty period. -/
theorem c7_memoization (s : St) (c : Nat) (f1 f2 : Nat)
    (hA : AcyclicComps s) (hlen : c < s.comps.length)
    (hmiss : (getComp s c).hasCache = false)
    (hh : halt (step f1 (.compRead c) s).2 = false) :
    (step f1 (.compRead c) s).2.evals.count c = s.evals.count c + 1 ∧
    (getComp (step f1 (.compRead c) s).2 c).hasCache = true ∧
    (getComp (step f1 (.compRead c) s).2 c).cached = (step f1 (.compRead c) s).1 ∧
    (step (f2+1) (.compRead c) (step f1 (.compRead c) s).2).1 = (step f1 (.compRead c) s).1 ∧
    (step (f2+1) (.compRead c) (step f1 (.compRead c) s).2).2.evals = (step f1 (.compRead c) s).2.evals ∧
    (∀ (g : Nat) (s' : St), (getComp s' c).hasCache = true → halt s' = false →
      (step (g+1) (.compRead c) s').1 = (getComp s' c).cached ∧
      (step (g+1) (.compRead c) s').2.evals = s'.evals) := by
  have hclean : ∀ (g : Nat) (s' : St), (getComp s' c).hasCache = true → halt s' = false →
      (step (g+1) (.compRead c) s').1 = (getComp s' c).cached ∧
      (step (g+1) (.compRead c) s').2.evals = s'.evals := by
    intro g s' hc' hs'
    rw [step_succ]
    simp only [stepB, hs', Bool.false_eq_true, if_false, hc', if_true]
    cases hh' : s'.effStack.head? with
    | some e =>
      exact ⟨rfl, (ctl_parts (ctl_wireLate (getComp s' c).lateEffects e s')).2.2.2.2.1⟩
    | none => exact ⟨rfl, rfl⟩
  obtain ⟨g1, rfl⟩ := live_fuel _ _ _ hh
  have hs : halt s = false := live_of _ _ _ hh
  by_cases hp : halt (step g1 (.evalP (getComp s c).body) ({ s with compStack := c :: s.compStack, evals := s.evals ++ [c] } : St)).2 = true
  · exfalso
    have hfr : (step (g1+1) (.compRead c) s).2 = (step g1 (.evalP (getComp s c).body) ({ s with compStack := c :: s.compStack, evals := s.evals ++ [c] } : St)).2 := by
      rw [step_succ]
      simp only [stepB, hs, Bool.false_eq_true, if_false, hmiss, hp, if_true]
    rw [hfr] at hh
    rw [hp] at hh
    simp at hh
  · have hstep2 : (step (g1+1) (.compRead c) s).2 = ({ updComp c (fun c0 => { c0 with cached := (step g1 (.evalP (getComp s c).body) ({ s with compStack := c :: s.compStack, evals := s.evals ++ [c] } : St)).1, hasCache := true }) (step g1 (.evalP (getComp s c).body) ({ s with compStack := c :: s.compStack, evals := s.evals ++ [c] } : St)).2 with compStack := (updComp c (fun c0 => { c0 with cached := (step g1 (.evalP (getComp s c).body) ({ s with compStack := c :: s.compStack, evals := s.evals ++ [c] } : St)).1, hasCache := true }) (step g1 (.evalP (getComp s c).body) ({ s with compStack := c :: s.compStack, evals := s.evals ++ [c] } : St)).2).compStack.tail } : St) := by
      rw [step_succ]
      simp only [stepB, hs, Bool.false_eq_true, if_false, hmiss, hp]
    have hstep1 : (step (g1+1) (.compRead c) s).1 = (step g1 (.evalP (getComp s c).body) ({ s with compStack := c :: s.compStack, evals := s.evals ++ [c] } : St)).1 := by
      rw [step_succ]
      simp only [stepB, hs, Bool.false_eq_true, if_false, hmiss, hp]
    obtain ⟨L, a1, a2, a3⟩ := evalsBelow g1 (.evalP (getComp s c).body)
      ({ s with compStack := c :: s.compStack, evals := s.evals ++ [c] } : St) c
      (fun a b hb => hA a b hb) (fun j' hj' => hA c j' hj')
    have hlen2 : (step g1 (.evalP (getComp s c).body) ({ s with compStack := c :: s.compStack, evals := s.evals ++ [c] } : St)).2.comps.length = s.comps.length := by
      have h' := congrArg List.length a3
      simpa using h'
    have hgc : getComp (step (g1+1) (.compRead c) s).2 c = { getComp (step g1 (.evalP (getComp s c).body) ({ s with compStack := c :: s.compStack, evals := s.evals ++ [c] } : St)).2 c with cached := (step g1 (.evalP (getComp s c).body) ({ s with compStack := c :: s.compStack, evals := s.evals ++ [c] } : St)).1, hasCache := true } := by
      rw [hstep2]
      show (updAt (step g1 (.evalP (getComp s c).body) ({ s with compStack := c :: s.compStack, evals := s.evals ++ [c] } : St)).2.comps c (fun c0 => { c0 with cached := (step g1 (.evalP (getComp s c).body) ({ s with compStack := c :: s.compStack, evals := s.evals ++ [c] } : St)).1, hasCache := true })).getD c dummyComp = _
      rw [getD_updAt_self _ _ _ _ (by rw [hlen2]; exact hlen)]
      rfl
    have hev : (step (g1+1) (.compRead c) s).2.evals = (s.evals ++ [c]) ++ L := by
      rw [hstep2]
      exact a1
    have hcount : (step (g1+1) (.compRead c) s).2.evals.count c = s.evals.count c + 1 := by
      rw [hev, List.count_append, List.count_append]
      have hL0 : L.count c = 0 := by
        rw [List.count_eq_zero]
        intro hmem
        exact absurd (a2 c hmem) (lt_irrefl c)
      simp [hL0]
    have hc2 : (getComp (step (g1+1) (.compRead c) s).2 c).hasCache = true := by
      rw [hgc]
    have hc3 : (getComp (step (g1+1) (.compRead c) s).2 c).cached = (step (g1+1) (.compRead c) s).1 := by
      rw [hgc, hstep1]
    obtain ⟨sv, se⟩ := hclean f2 ((step (g1+1) (.compRead c) s).2) hc2 hh
    exact ⟨hcount, hc2, hc3, sv.trans hc3, se, hclean⟩

/-- C7 witness: `computed(() => s() + 3)` over one cell holding 5: the
first read evaluates the function once (one `evals` entry), the second
read hits the cache. -/
theorem c7_memoization_witness :
    AcyclicComps (mkSt [5] [.add (.readSig 0) (.const 3)]) ∧
    0 < (mkSt [5] [.add (.readSig 0) (.const 3)]).comps.length ∧
    (getComp (mkSt [5] [.add (.readSig 0) (.const 3)]) 0).hasCache = false ∧
    halt (step 5 (.compRead 0) (mkSt [5] [.add (.readSig 0) (.const 3)])).2 = false ∧
    ((step 5 (.compRead 0) (mkSt [5] [.add (.readSig 0) (.const 3)])).2.evals.count 0 = (mkSt [5] [.add (.readSig 0) (.const 3)]).evals.count 0 + 1 ∧
     (getComp (step 5 (.compRead 0) (mkSt [5] [.add (.readSig 0) (.const 3)])).2 0).hasCache = true ∧
     (getComp (step 5 (.compRead 0) (mkSt [5] [.add (.readSig 0) (.const 3)])).2 0).cached = (step 5 (.compRead 0) (mkSt [5] [.add (.readSig 0) (.const 3)])).1 ∧
     (step (0+1) (.compRead 0) (step 5 (.compRead 0) (mkSt [5] [.add (.readSig 0) (.const 3)])).2).1 = (step 5 (.compRead 0) (mkSt [5] [.add (.readSig 0) (.const 3)])).1 ∧
     (step (0+1) (.compRead 0) (step 5 (.compRead 0) (mkSt [5] [.add (.readSig 0) (.const 3)])).2).2.evals = (step 5 (.compRead 0) (mkSt [5] [.add (.readSig 0) (.const 3)])).2.evals ∧
     (∀ (g : Nat) (s' : St), (getComp s' 0).hasCache = true → halt s' = false →
       (step (g+1) (.compRead 0) s').1 = (getComp s' 0).cached ∧
       (step (g+1) (.compRead 0) s').2.evals = s'.evals)) := by
  have hA : AcyclicComps (mkSt [5] [.add (.readSig 0) (.const 3)]) := by
    intro j j' hj'
    match j with
    | 0 => simp [getComp, mkSt, mkComps, mentComps] at hj'
    | r+1 => simp [getComp, mkSt, mkComps, dummyComp, mentComps] at hj'
  exact ⟨hA, by decide, by decide, by decide,
    c7_memoization (mkSt [5] [.add (.readSig 0) (.const 3)]) 0 5 0 hA (by decide) (by decide) (by decide)⟩


/-! ## C2 — late binding on the cache-hit path -/

theorem execStmts_nil (f : Nat) (s : St) : (step (f+1) (.execStmts []) s).2 = s := by
  rw [step_succ]
  by_cases h : halt s = true <;> simp [stepB, h]

theorem runTrigs_nil (f : Nat) (s : St) : (step (f+1) (.runTrigs []) s).2 = s := by
  rw [step_succ]
  by_cases h : halt s = true <;> simp [stepB, h]

theorem wireLate_sigs_len (ws : List Nat) (e : Nat) : ∀ (s : St),
    (wireLate ws e s).sigs.length = s.sigs.length := by
  induction ws with
  | nil => intro s; rfl
  | cons w t ih =>
    intro s
    have h0 : wireLate (w :: t) e s = wireLate t e (updEff e (fun ef => { ef with onDestroy := ef.onDestroy ++ [w] }) (updSig w (fun sg => { sg with triggers := addIfAbsent e sg.triggers }) s)) := rfl
    rw [h0, ih]
    show (updAt s.sigs w (fun sg => { sg with triggers := addIfAbsent e sg.triggers })).length = s.sigs.length
    exact updAt_length _ _ _

theorem wireLate_getSig (ws : List Nat) (e : Nat) : ∀ (s : St) (x : Nat),
    x < s.sigs.length →
    getSig (wireLate ws e s) x = { getSig s x with
      triggers := if x ∈ ws then addIfAbsent e (getSig s x).triggers else (getSig s x).triggers } := by
  induction ws with
  | nil =>
    intro s x hx
    simp [wireLate]
  | cons w t ih =>
    intro s x hx
    have h0 : wireLate (w :: t) e s = wireLate t e (updEff e (fun ef => { ef with onDestroy := ef.onDestroy ++ [w] }) (updSig w (fun sg => { sg with triggers := addIfAbsent e sg.triggers }) s)) := rfl
    rw [h0]
    have hx' : x < (updEff e (fun ef => { ef with onDestroy := ef.onDestroy ++ [w] }) (updSig w (fun sg => { sg with triggers := addIfAbsent e sg.triggers }) s)).sigs.length := by
      show x < (updAt s.sigs w (fun sg => { sg with triggers := addIfAbsent e sg.triggers })).length
      rw [updAt_length]
      exact hx
    rw [ih _ _ hx']
    rw [getSig_updEff]
    rcases eq_or_ne w x with rfl | hne
    · rw [getSig_updSig_self _ _ _ hx]
      by_cases hmem : w ∈ t
      · simp [hmem, addIfAbsent_idem]
      · simp [hmem]
    · rw [getSig_updSig_ne _ _ _ _ hne]
      by_cases hmem : x ∈ t
      · simp [hmem, List.mem_cons, Ne.symm hne]
      · simp [hmem, List.mem_cons, Ne.symm hne]

theorem getEff_updEff_keep (e e' : Nat) (g : EffSt → EffSt)
    (hb : ∀ x, (g x).body = x.body) (ha : ∀ x, (g x).allowWrites = x.allowWrites)
    (hc : ∀ x, (g x).childEffects = x.childEffects) (s : St) :
    (getEff (updEff e g s) e').body = (getEff s e').body ∧
    (getEff (updEff e g s) e').allowWrites = (getEff s e').allowWrites ∧
    (getEff (updEff e g s) e').childEffects = (getEff s e').childEffects := by
  unfold getEff updEff
  rcases eq_or_ne e e' with rfl | hne
  · by_cases hl : e < s.effs.length
    · show ((updAt s.effs e g).getD e dummyEff).body = _ ∧ _ ∧ _
      rw [getD_updAt_self _ _ _ _ hl]
      exact ⟨hb _, ha _, hc _⟩
    · show ((updAt s.effs e g).getD e dummyEff).body = _ ∧ _ ∧ _
      rw [updAt_ge _ _ _ (by omega)]
      exact ⟨rfl, rfl, rfl⟩
  · show ((updAt s.effs e g).getD e' dummyEff).body = _ ∧ _ ∧ _
    rw [getD_updAt_ne _ _ _ _ _ hne]
    exact ⟨rfl, rfl, rfl⟩

theorem wireLate_getEff (ws : List Nat) (e : Nat) : ∀ (s : St) (t : Nat),
    (getEff (wireLate ws e s) t).body = (getEff s t).body ∧
    (getEff (wireLate ws e s) t).allowWrites = (getEff s t).allowWrites ∧
    (getEff (wireLate ws e s) t).childEffects = (getEff s t).childEffects := by
  induction ws with
  | nil => intro s t; exact ⟨rfl, rfl, rfl⟩
  | cons w tl ih =>
    intro s t
    have h0 : wireLate (w :: tl) e s = wireLate tl e (updEff e (fun ef => { ef with onDestroy := ef.onDestroy ++ [w] }) (updSig w (fun sg => { sg with triggers := addIfAbsent e sg.triggers }) s)) := rfl
    rw [h0]
    obtain ⟨i1, i2, i3⟩ := ih (updEff e (fun ef => { ef with onDestroy := ef.onDestroy ++ [w] }) (updSig w (fun sg => { sg with triggers := addIfAbsent e sg.triggers }) s)) t
    obtain ⟨k1, k2, k3⟩ := getEff_updEff_keep e t (fun ef => { ef with onDestroy := ef.onDestroy ++ [w] }) (fun x => rfl) (fun x => rfl) (fun x => rfl) (updSig w (fun sg => { sg with triggers := addIfAbsent e sg.triggers }) s)
    exact ⟨i1.trans k1, i2.trans k2, i3.trans k3⟩

/-- Pure-read calls never append to `runs`: no effect body is entered. -/
theorem runsPres (f : Nat) : ∀ (c : Call) (s : St), calmCall c →
    (step f c s).2.runs = s.runs := by
  induction f with
  | zero => intro c s _; rfl
  | succ f ih =>
    intro c s hc
    rw [step_succ]
    by_cases hs : halt s = true
    · rw [stepB_halt _ _ _ hs]
    · simp only [Bool.not_eq_true] at hs
      cases c with
      | evalP e =>
        cases e with
        | const n => simp [stepB, hs]
        | readSig i =>
          simp only [stepB, hs, Bool.false_eq_true, if_false]
          exact (ctl_parts (ctl_sigRead i s)).2.2.2.1
        | readComp j =>
          simp only [stepB, hs, Bool.false_eq_true, if_false]
          exact ih (.compRead j) s trivial
        | add e1 e2 =>
          simp only [stepB, hs, Bool.false_eq_true, if_false]
          exact (ih (.evalP e2) _ trivial).trans (ih (.evalP e1) s trivial)
      | compRead j =>
        simp only [stepB, hs, Bool.false_eq_true, if_false]
        by_cases hcache : (getComp s j).hasCache
        · simp only [hcache, if_true]
          cases hh : s.effStack.head? with
          | some e => exact (ctl_parts (ctl_wireLate (getComp s j).lateEffects e s)).2.2.2.1
          | none => rfl
        · simp only [hcache, Bool.false_eq_true, if_false]
          have h1 := ih (.evalP (getComp s j).body) ({ s with compStack := j :: s.compStack, evals := s.evals ++ [j] } : St) trivial
          by_cases hp : halt (step f (.evalP (getComp s j).body) ({ s with compStack := j :: s.compStack, evals := s.evals ++ [j] } : St)).2 = true
          · simp only [hp, if_true]
            exact h1
          · simp only [hp, Bool.false_eq_true, if_false]
            exact h1
      | execStmt st =>
        cases st with
        | readS i =>
          simp only [stepB, hs, Bool.false_eq_true, if_false]
          have hr := (ctl_parts (ctl_sigRead i s)).2.2.2.1
          by_cases hp : halt (sigRead i s).2 = true
          · simp only [hp, if_true]
            exact hr
          · simp only [hp, Bool.false_eq_true, if_false]
            exact hr
        | readC j =>
          simp only [stepB, hs, Bool.false_eq_true, if_false]
          have h1 := ih (.compRead j) s trivial
          by_cases hp : halt (step f (.compRead j) s).2 = true
          · simp only [hp, if_true]
            exact h1
          · simp only [hp, Bool.false_eq_true, if_false]
            exact h1
        | setS i v => exact absurd hc (by simp [calmCall, calmS])
        | mutateS i mf => exact absurd hc (by simp [calmCall, calmS])
        | mkEff allow body => exact absurd hc (by simp [calmCall, calmS])
        | ifPos i thn els => exact absurd hc (by simp [calmCall, calmS])
        | batchS body => exact absurd hc (by simp [calmCall, calmS])
      | execStmts l =>
        cases l with
        | nil => simp [stepB, hs]
        | cons st rest =>
          have hb : calmS st = true ∧ calmL rest = true := by
            simpa [calmCall, calmL, Bool.and_eq_true] using hc
          simp only [stepB, hs, Bool.false_eq_true, if_false]
          exact (ih (.execStmts rest) _ hb.2).trans (ih (.execStmt st) s hb.1)
      | setSig i v => exact hc.elim
      | mutateSig i mf => exact hc.elim
      | propagate i => exact hc.elim
      | runTrig e => exact hc.elim
      | runTrigs ts => exact hc.elim
      | fireTrigs i vk => exact hc.elim
      | mkEffRun allow body => exact hc.elim
      | batchRun body => exact hc.elim

/-- The construction run of `effect(() => read c)` over an already-cached
computed `c`: the read is a cache hit (no `evals` entry), the cached value
is logged, the effect runs once, and the computed's recorded late-binding
callbacks wire the new effect's trigger onto every cell in its
`lateEffects` list. -/
theorem c2Setup (s : St) (c : Nat) (f1 : Nat)
    (hcache : (getComp s c).hasCache = true)
    (heff : s.effStack = [])
    (hh1 : halt (step f1 (.mkEffRun false [.readC c]) s).2 = false) :
    (step f1 (.mkEffRun false [.readC c]) s).2.evals = s.evals ∧
    (step f1 (.mkEffRun false [.readC c]) s).2.log = s.log ++ [(getComp s c).cached] ∧
    (step f1 (.mkEffRun false [.readC c]) s).2.runs = s.runs ++ [s.effs.length] ∧
    (step f1 (.mkEffRun false [.readC c]) s).2.effStack = [] ∧
    (step f1 (.mkEffRun false [.readC c]) s).2.batchStack = s.batchStack ∧
    (step f1 (.mkEffRun false [.readC c]) s).2.sigs.length = s.sigs.length ∧
    (getEff (step f1 (.mkEffRun false [.readC c]) s).2 s.effs.length).body = [.readC c] ∧
    (getEff (step f1 (.mkEffRun false [.readC c]) s).2 s.effs.length).childEffects = [] ∧
    (∀ x, x < s.sigs.length →
      getSig (step f1 (.mkEffRun false [.readC c]) s).2 x
        = { getSig s x with triggers := if x ∈ (getComp s c).lateEffects then addIfAbsent s.effs.length (getSig s x).triggers else (getSig s x).triggers }) := by
  obtain ⟨g1, rfl⟩ := live_fuel _ _ _ hh1
  have hs : halt s = false := live_of _ _ _ hh1
  have hpar : s.effStack.head? = none := by rw [heff]; rfl
  have h1 : step (g1+1) (.mkEffRun false [.readC c]) s
      = (if halt (step g1 (.execStmts [.readC c]) ({ s with effs := s.effs ++ [(⟨[.readC c], false, [], []⟩ : EffSt)], effStack := s.effs.length :: s.effStack, runs := s.runs ++ [s.effs.length] } : St)).2 = true
         then (0, (step g1 (.execStmts [.readC c]) ({ s with effs := s.effs ++ [(⟨[.readC c], false, [], []⟩ : EffSt)], effStack := s.effs.length :: s.effStack, runs := s.runs ++ [s.effs.length] } : St)).2)
         else (0, { (step g1 (.execStmts [.readC c]) ({ s with effs := s.effs ++ [(⟨[.readC c], false, [], []⟩ : EffSt)], effStack := s.effs.length :: s.effStack, runs := s.runs ++ [s.effs.length] } : St)).2 with effStack := (step g1 (.execStmts [.readC c]) ({ s with effs := s.effs ++ [(⟨[.readC c], false, [], []⟩ : EffSt)], effStack := s.effs.length :: s.effStack, runs := s.runs ++ [s.effs.length] } : St)).2.effStack.tail })) := by
    rw [step_succ]
    simp only [stepB, hs, Bool.false_eq_true, if_false, hpar]
  rw [h1] at hh1 ⊢
  by_cases hP : halt (step g1 (.execStmts [.readC c]) ({ s with effs := s.effs ++ [(⟨[.readC c], false, [], []⟩ : EffSt)], effStack := s.effs.length :: s.effStack, runs := s.runs ++ [s.effs.length] } : St)).2 = true
  · rw [if_pos hP] at hh1
    exact absurd hh1 (by simp [hP])
  · rw [if_neg hP] at hh1 ⊢
    simp only [Bool.not_eq_true] at hP
    obtain ⟨g2, rfl⟩ := live_fuel _ _ _ hP
    have hS1 : halt ({ s with effs := s.effs ++ [(⟨[.readC c], false, [], []⟩ : EffSt)], effStack := s.effs.length :: s.effStack, runs := s.runs ++ [s.effs.length] } : St) = false := hs
    have h2 : step (g2+1) (.execStmts [.readC c]) ({ s with effs := s.effs ++ [(⟨[.readC c], false, [], []⟩ : EffSt)], effStack := s.effs.length :: s.effStack, runs := s.runs ++ [s.effs.length] } : St) = step g2 (.execStmts []) (step g2 (.execStmt (.readC c)) ({ s with effs := s.effs ++ [(⟨[.readC c], false, [], []⟩ : EffSt)], effStack := s.effs.length :: s.effStack, runs := s.runs ++ [s.effs.length] } : St)).2 := by
      rw [step_succ]
      simp only [stepB, hS1, Bool.false_eq_true, if_false]
    rw [h2] at hP ⊢
    obtain ⟨g3, rfl⟩ := live_fuel _ _ _ hP
    rw [execStmts_nil] at hP ⊢
    have h3 : step (g3+1) (.execStmt (.readC c)) ({ s with effs := s.effs ++ [(⟨[.readC c], false, [], []⟩ : EffSt)], effStack := s.effs.length :: s.effStack, runs := s.runs ++ [s.effs.length] } : St)
        = (if halt (step g3 (.compRead c) ({ s with effs := s.effs ++ [(⟨[.readC c], false, [], []⟩ : EffSt)], effStack := s.effs.length :: s.effStack, runs := s.runs ++ [s.effs.length] } : St)).2 = true then (0, (step g3 (.compRead c) ({ s with effs := s.effs ++ [(⟨[.readC c], false, [], []⟩ : EffSt)], effStack := s.effs.length :: s.effStack, runs := s.runs ++ [s.effs.length] } : St)).2) else (0, { (step g3 (.compRead c) ({ s with effs := s.effs ++ [(⟨[.readC c], false, [], []⟩ : EffSt)], effStack := s.effs.length :: s.effStack, runs := s.runs ++ [s.effs.length] } : St)).2 with log := (step g3 (.compRead c) ({ s with effs := s.effs ++ [(⟨[.readC c], false, [], []⟩ : EffSt)], effStack := s.effs.length :: s.effStack, runs := s.runs ++ [s.effs.length] } : St)).2.log ++ [(step g3 (.compRead c) ({ s with effs := s.effs ++ [(⟨[.readC c], false, [], []⟩ : EffSt)], effStack := s.effs.length :: s.effStack, runs := s.runs ++ [s.effs.length] } : St)).1] })) := by
      rw [step_succ]
      simp only [stepB, hS1, Bool.false_eq_true, if_false]
    rw [h3] at hP ⊢
    by_cases hC : halt (step g3 (.compRead c) ({ s with effs := s.effs ++ [(⟨[.readC c], false, [], []⟩ : EffSt)], effStack := s.effs.length :: s.effStack, runs := s.runs ++ [s.effs.length] } : St)).2 = true
    · rw [if_pos hC] at hP
      exact absurd hP (by simp [hC])
    · rw [if_neg hC] at hP ⊢
      simp only [Bool.not_eq_true] at hC
      obtain ⟨g4, rfl⟩ := live_fuel _ _ _ hC
      have hcache1 : (getComp ({ s with effs := s.effs ++ [(⟨[.readC c], false, [], []⟩ : EffSt)], effStack := s.effs.length :: s.effStack, runs := s.runs ++ [s.effs.length] } : St) c).hasCache = true := hcache
      have h4 : step (g4+1) (.compRead c) ({ s with effs := s.effs ++ [(⟨[.readC c], false, [], []⟩ : EffSt)], effStack := s.effs.length :: s.effStack, runs := s.runs ++ [s.effs.length] } : St) = ((getComp ({ s with effs := s.effs ++ [(⟨[.readC c], false, [], []⟩ : EffSt)], effStack := s.effs.length :: s.effStack, runs := s.runs ++ [s.effs.length] } : St) c).cached, wireLate (getComp ({ s with effs := s.effs ++ [(⟨[.readC c], false, [], []⟩ : EffSt)], effStack := s.effs.length :: s.effStack, runs := s.runs ++ [s.effs.length] } : St) c).lateEffects s.effs.length ({ s with effs := s.effs ++ [(⟨[.readC c], false, [], []⟩ : EffSt)], effStack := s.effs.length :: s.effStack, runs := s.runs ++ [s.effs.length] } : St)) := by
        rw [step_succ]
        simp only [stepB, hS1, Bool.false_eq_true, if_false, hcache1, if_true, List.head?_cons]
      rw [h4]
      have hctl := ctl_parts (ctl_wireLate (getComp ({ s with effs := s.effs ++ [(⟨[.readC c], false, [], []⟩ : EffSt)], effStack := s.effs.length :: s.effStack, runs := s.runs ++ [s.effs.length] } : St) c).lateEffects s.effs.length ({ s with effs := s.effs ++ [(⟨[.readC c], false, [], []⟩ : EffSt)], effStack := s.effs.length :: s.effStack, runs := s.runs ++ [s.effs.length] } : St))
      have hE : getEff ({ s with effs := s.effs ++ [(⟨[.readC c], false, [], []⟩ : EffSt)], effStack := s.effs.length :: s.effStack, runs := s.runs ++ [s.effs.length] } : St) s.effs.length = (⟨[.readC c], false, [], []⟩ : EffSt) := by
        show (s.effs ++ [(⟨[.readC c], false, [], []⟩ : EffSt)]).getD s.effs.length dummyEff = _
        rw [getD_append_ge _ _ _ _ (le_refl _)]
        simp
      refine ⟨?_, ?_, ?_, ?_, ?_, ?_, ?_, ?_, ?_⟩
      · exact hctl.2.2.2.2.1
      · show (wireLate (getComp ({ s with effs := s.effs ++ [(⟨[.readC c], false, [], []⟩ : EffSt)], effStack := s.effs.length :: s.effStack, runs := s.runs ++ [s.effs.length] } : St) c).lateEffects s.effs.length ({ s with effs := s.effs ++ [(⟨[.readC c], false, [], []⟩ : EffSt)], effStack := s.effs.length :: s.effStack, runs := s.runs ++ [s.effs.length] } : St)).log ++ [(getComp s c).cached] = s.log ++ [(getComp s c).cached]
        rw [hctl.2.2.2.2.2.1]
      · exact hctl.2.2.2.1
      · show (wireLate (getComp ({ s with effs := s.effs ++ [(⟨[.readC c], false, [], []⟩ : EffSt)], effStack := s.effs.length :: s.effStack, runs := s.runs ++ [s.effs.length] } : St) c).lateEffects s.effs.length ({ s with effs := s.effs ++ [(⟨[.readC c], false, [], []⟩ : EffSt)], effStack := s.effs.length :: s.effStack, runs := s.runs ++ [s.effs.length] } : St)).effStack.tail = []
        rw [hctl.1]
        show (s.effs.length :: s.effStack).tail = []
        rw [heff]
        rfl
      · exact hctl.2.2.1
      · exact wireLate_sigs_len _ _ _
      · exact ((wireLate_getEff (getComp ({ s with effs := s.effs ++ [(⟨[.readC c], false, [], []⟩ : EffSt)], effStack := s.effs.length :: s.effStack, runs := s.runs ++ [s.effs.length] } : St) c).lateEffects s.effs.length ({ s with effs := s.effs ++ [(⟨[.readC c], false, [], []⟩ : EffSt)], effStack := s.effs.length :: s.effStack, runs := s.runs ++ [s.effs.length] } : St) s.effs.length).1).trans (by rw [hE])
      · exact ((wireLate_getEff (getComp ({ s with effs := s.effs ++ [(⟨[.readC c], false, [], []⟩ : EffSt)], effStack := s.effs.length :: s.effStack, runs := s.runs ++ [s.effs.length] } : St) c).lateEffects s.effs.length ({ s with effs := s.effs ++ [(⟨[.readC c], false, [], []⟩ : EffSt)], effStack := s.effs.length :: s.effStack, runs := s.runs ++ [s.effs.length] } : St) s.effs.length).2.2).trans (by rw [hE])
      · intro x hx
        exact wireLate_getSig (getComp ({ s with effs := s.effs ++ [(⟨[.readC c], false, [], []⟩ : EffSt)], effStack := s.effs.length :: s.effStack, runs := s.runs ++ [s.effs.length] } : St) c).lateEffects s.effs.length ({ s with effs := s.effs ++ [(⟨[.readC c], false, [], []⟩ : EffSt)], effStack := s.effs.length :: s.effStack, runs := s.runs ++ [s.effs.length] } : St) x hx




/-! ## C1 — propagation along cell → computed* → effect chains -/

theorem getSig_updSig_keep (i : Nat) (g : SigSt → SigSt)
    (hc : ∀ r, (g r).current = r.current) (he : ∀ r, (g r).equal = r.equal)
    (s : St) (x : Nat) :
    (getSig (updSig i g s) x).current = (getSig s x).current ∧
    (getSig (updSig i g s) x).equal = (getSig s x).equal := by
  rcases eq_or_ne i x with rfl | hne
  · by_cases hl : i < s.sigs.length
    · show ((updAt s.sigs i g).getD i dummySig).current = _ ∧ ((updAt s.sigs i g).getD i dummySig).equal = _
      rw [getD_updAt_self _ _ _ _ hl]
      exact ⟨hc _, he _⟩
    · show ((updAt s.sigs i g).getD i dummySig).current = _ ∧ ((updAt s.sigs i g).getD i dummySig).equal = _
      rw [updAt_ge _ _ _ (by omega)]
      exact ⟨rfl, rfl⟩
  · show ((updAt s.sigs i g).getD x dummySig).current = _ ∧ ((updAt s.sigs i g).getD x dummySig).equal = _
    rw [getD_updAt_ne _ _ _ _ _ hne]
    exact ⟨rfl, rfl⟩

theorem getSig_updSig_keepT (i : Nat) (g : SigSt → SigSt)
    (ht : ∀ r, (g r).triggers = r.triggers) (s : St) (x : Nat) :
    (getSig (updSig i g s) x).triggers = (getSig s x).triggers := by
  rcases eq_or_ne i x with rfl | hne
  · by_cases hl : i < s.sigs.length
    · show ((updAt s.sigs i g).getD i dummySig).triggers = _
      rw [getD_updAt_self _ _ _ _ hl]
      exact ht _
    · show ((updAt s.sigs i g).getD i dummySig).triggers = _
      rw [updAt_ge _ _ _ (by omega)]
      rfl
  · show ((updAt s.sigs i g).getD x dummySig).triggers = _
    rw [getD_updAt_ne _ _ _ _ _ hne]
    rfl

theorem effs_foldl {α : Type} (g : St → α → St)
    (hg : ∀ st x, (g st x).effs = st.effs) :
    ∀ (L : List α) (s : St), (L.foldl g s).effs = s.effs := by
  intro L
  induction L with
  | nil => intro s; rfl
  | cons a t ih => intro s; rw [List.foldl_cons, ih, hg]

theorem getD_range : ∀ (k i d : Nat), i < k → (List.range k).getD i d = i := by
  intro k
  induction k with
  | zero => intro i d h; omega
  | succ k ih =>
    intro i d h
    rw [List.range_succ]
    by_cases hi : i < k
    · rw [getD_append_lt _ _ _ _ (by simpa using hi)]
      exact ih i d hi
    · have hik : i = k := by omega
      subst hik
      rw [getD_append_ge _ _ _ _ (by simp)]
      simp

/-- Everything the getter leaves alone, plus the trigger registration it
performs on the read cell when an effect context is on top. -/
theorem sigRead_facts (i : Nat) (s : St) (h1 : halt s = false) :
    (sigRead i s).1 = (getSig s i).current ∧
    (∀ x, (getSig (sigRead i s).2 x).current = (getSig s x).current ∧
          (getSig (sigRead i s).2 x).equal = (getSig s x).equal) ∧
    (sigRead i s).2.sigs.length = s.sigs.length ∧
    (∀ t, (getEff (sigRead i s).2 t).body = (getEff s t).body ∧
          (getEff (sigRead i s).2 t).allowWrites = (getEff s t).allowWrites ∧
          (getEff (sigRead i s).2 t).childEffects = (getEff s t).childEffects) ∧
    (∀ E, s.effStack.head? = some E → i < s.sigs.length →
      (getSig (sigRead i s).2 i).triggers = addIfAbsent E (getSig s i).triggers) ∧
    (s.effStack.head? = none →
      ∀ x, (getSig (sigRead i s).2 x).triggers = (getSig s x).triggers) := by
  have hfold : ∀ (L : List Nat) (st : St),
      ((L.foldl (fun st c => updComp c (fun cc => { cc with lateEffects := cc.lateEffects ++ [i] }) (updSig i (fun sg => { sg with cacheInvalidators := sg.cacheInvalidators ++ [c] }) st)) st).sigs.length = st.sigs.length) ∧
      (∀ x, (getSig (L.foldl (fun st c => updComp c (fun cc => { cc with lateEffects := cc.lateEffects ++ [i] }) (updSig i (fun sg => { sg with cacheInvalidators := sg.cacheInvalidators ++ [c] }) st)) st) x).current = (getSig st x).current ∧
            (getSig (L.foldl (fun st c => updComp c (fun cc => { cc with lateEffects := cc.lateEffects ++ [i] }) (updSig i (fun sg => { sg with cacheInvalidators := sg.cacheInvalidators ++ [c] }) st)) st) x).equal = (getSig st x).equal ∧
            (getSig (L.foldl (fun st c => updComp c (fun cc => { cc with lateEffects := cc.lateEffects ++ [i] }) (updSig i (fun sg => { sg with cacheInvalidators := sg.cacheInvalidators ++ [c] }) st)) st) x).triggers = (getSig st x).triggers) ∧
      ((L.foldl (fun st c => updComp c (fun cc => { cc with lateEffects := cc.lateEffects ++ [i] }) (updSig i (fun sg => { sg with cacheInvalidators := sg.cacheInvalidators ++ [c] }) st)) st).effs = st.effs) := by
    intro L
    induction L with
    | nil => intro st; exact ⟨rfl, fun x => ⟨rfl, rfl, rfl⟩, rfl⟩
    | cons c0 t iht =>
      intro st
      rw [List.foldl_cons]
      obtain ⟨j1, j2, j3⟩ := iht (updComp c0 (fun cc => { cc with lateEffects := cc.lateEffects ++ [i] }) (updSig i (fun sg => { sg with cacheInvalidators := sg.cacheInvalidators ++ [c0] }) st))
      refine ⟨?_, ?_, ?_⟩
      · rw [j1]
        show (updAt st.sigs i (fun sg => { sg with cacheInvalidators := sg.cacheInvalidators ++ [c0] })).length = st.sigs.length
        exact updAt_length _ _ _
      · intro x
        obtain ⟨m1, m2, m3⟩ := j2 x
        have hcur := getSig_updSig_keep i (fun sg => { sg with cacheInvalidators := sg.cacheInvalidators ++ [c0] }) (fun r => rfl) (fun r => rfl) st x
        have htr := getSig_updSig_keepT i (fun sg => { sg with cacheInvalidators := sg.cacheInvalidators ++ [c0] }) (fun r => rfl) st x
        exact ⟨m1.trans hcur.1, m2.trans hcur.2, m3.trans htr⟩
      · rw [j3]
        rfl
  cases hh : s.effStack.head? with
  | some e =>
    have hsr : sigRead i s = ((getSig ((updEff e (fun ef => { ef with onDestroy := ef.onDestroy ++ [i] }) (updSig i (fun sg => { sg with triggers := addIfAbsent e sg.triggers }) s)).compStack.reverse.foldl (fun st c => updComp c (fun cc => { cc with lateEffects := cc.lateEffects ++ [i] }) (updSig i (fun sg => { sg with cacheInvalidators := sg.cacheInvalidators ++ [c] }) st)) (updEff e (fun ef => { ef with onDestroy := ef.onDestroy ++ [i] }) (updSig i (fun sg => { sg with triggers := addIfAbsent e sg.triggers }) s))) i).current, (updEff e (fun ef => { ef with onDestroy := ef.onDestroy ++ [i] }) (updSig i (fun sg => { sg with triggers := addIfAbsent e sg.triggers }) s)).compStack.reverse.foldl (fun st c => updComp c (fun cc => { cc with lateEffects := cc.lateEffects ++ [i] }) (updSig i (fun sg => { sg with cacheInvalidators := sg.cacheInvalidators ++ [c] }) st)) (updEff e (fun ef => { ef with onDestroy := ef.onDestroy ++ [i] }) (updSig i (fun sg => { sg with triggers := addIfAbsent e sg.triggers }) s))) := by
      unfold sigRead
      simp only [h1, Bool.false_eq_true, if_false, hh]
    rw [hsr]
    obtain ⟨j1, j2, j3⟩ := hfold (updEff e (fun ef => { ef with onDestroy := ef.onDestroy ++ [i] }) (updSig i (fun sg => { sg with triggers := addIfAbsent e sg.triggers }) s)).compStack.reverse (updEff e (fun ef => { ef with onDestroy := ef.onDestroy ++ [i] }) (updSig i (fun sg => { sg with triggers := addIfAbsent e sg.triggers }) s))
    have hs1cur : ∀ x, (getSig (updEff e (fun ef => { ef with onDestroy := ef.onDestroy ++ [i] }) (updSig i (fun sg => { sg with triggers := addIfAbsent e sg.triggers }) s)) x).current = (getSig s x).current ∧ (getSig (updEff e (fun ef => { ef with onDestroy := ef.onDestroy ++ [i] }) (updSig i (fun sg => { sg with triggers := addIfAbsent e sg.triggers }) s)) x).equal = (getSig s x).equal := by
      intro x
      exact getSig_updSig_keep i (fun sg => { sg with triggers := addIfAbsent e sg.triggers }) (fun r => rfl) (fun r => rfl) s x
    refine ⟨?_, ?_, ?_, ?_, ?_, ?_⟩
    · exact ((j2 i).1).trans (hs1cur i).1
    · intro x
      exact ⟨((j2 x).1).trans (hs1cur x).1, ((j2 x).2.1).trans (hs1cur x).2⟩
    · rw [j1]
      show (updAt s.sigs i (fun sg => { sg with triggers := addIfAbsent e sg.triggers })).length = s.sigs.length
      exact updAt_length _ _ _
    · intro t
      have hk := getEff_updEff_keep e t (fun ef => { ef with onDestroy := ef.onDestroy ++ [i] }) (fun x => rfl) (fun x => rfl) (fun x => rfl) (updSig i (fun sg => { sg with triggers := addIfAbsent e sg.triggers }) s)
      have hj3b : getEff ((updEff e (fun ef => { ef with onDestroy := ef.onDestroy ++ [i] }) (updSig i (fun sg => { sg with triggers := addIfAbsent e sg.triggers }) s)).compStack.reverse.foldl (fun st c => updComp c (fun cc => { cc with lateEffects := cc.lateEffects ++ [i] }) (updSig i (fun sg => { sg with cacheInvalidators := sg.cacheInvalidators ++ [c] }) st)) (updEff e (fun ef => { ef with onDestroy := ef.onDestroy ++ [i] }) (updSig i (fun sg => { sg with triggers := addIfAbsent e sg.triggers }) s))) t = getEff (updEff e (fun ef => { ef with onDestroy := ef.onDestroy ++ [i] }) (updSig i (fun sg => { sg with triggers := addIfAbsent e sg.triggers }) s)) t := by
        unfold getEff
        rw [j3]
      rw [hj3b]
      exact hk
    · intro E hE hlen
      injection hE with hEe
      subst hEe
      have hself : getSig (updSig i (fun sg => { sg with triggers := addIfAbsent e sg.triggers }) s) i = { getSig s i with triggers := addIfAbsent e (getSig s i).triggers } := by
        rw [getSig_updSig_self _ _ _ hlen]
      exact ((j2 i).2.2).trans (by show (getSig (updSig i (fun sg => { sg with triggers := addIfAbsent e sg.triggers }) s) i).triggers = addIfAbsent e (getSig s i).triggers; rw [hself])
    · intro hE
      exact Option.noConfusion hE
  | none =>
    have hsr : sigRead i s = ((getSig (s.compStack.reverse.foldl (fun st c => updComp c (fun cc => { cc with lateEffects := cc.lateEffects ++ [i] }) (updSig i (fun sg => { sg with cacheInvalidators := sg.cacheInvalidators ++ [c] }) st)) s) i).current, s.compStack.reverse.foldl (fun st c => updComp c (fun cc => { cc with lateEffects := cc.lateEffects ++ [i] }) (updSig i (fun sg => { sg with cacheInvalidators := sg.cacheInvalidators ++ [c] }) st)) s) := by
      unfold sigRead
      simp only [h1, Bool.false_eq_true, if_false, hh]
    rw [hsr]
    obtain ⟨j1, j2, j3⟩ := hfold s.compStack.reverse s
    refine ⟨(j2 i).1, ?_, j1, ?_, ?_, ?_⟩
    · intro x
      exact ⟨(j2 x).1, (j2 x).2.1⟩
    · intro t
      have hj3b : getEff (s.compStack.reverse.foldl (fun st c => updComp c (fun cc => { cc with lateEffects := cc.lateEffects ++ [i] }) (updSig i (fun sg => { sg with cacheInvalidators := sg.cacheInvalidators ++ [c] }) st)) s) t = getEff s t := by
        unfold getEff
        rw [j3]
      rw [hj3b]
      exact ⟨rfl, rfl, rfl⟩
    · intro E hE hlen
      simp at hE
    · intro _ x
      exact (j2 x).2.2

/-- `wireLate` keeps every cell's value and equality function. -/
theorem wireLate_sig_keep (ws : List Nat) (e : Nat) (s : St) (x : Nat) :
    (getSig (wireLate ws e s) x).current = (getSig s x).current ∧
    (getSig (wireLate ws e s) x).equal = (getSig s x).equal := by
  by_cases hl : x < s.sigs.length
  · rw [wireLate_getSig ws e s x hl]
    exact ⟨rfl, rfl⟩
  · have h1 : getSig (wireLate ws e s) x = dummySig := by
      show (wireLate ws e s).sigs.getD x dummySig = dummySig
      rw [getD_ge _ _ _ (by rw [wireLate_sigs_len]; omega)]
    have h2 : getSig s x = dummySig := by
      show s.sigs.getD x dummySig = dummySig
      rw [getD_ge _ _ _ (by omega)]
    rw [h1, h2]
    exact ⟨rfl, rfl⟩

/-- Frame theorem for pure-read calls: they never touch the effect
stack, the batch stack, any cell's value or equality function, any
effect's body, `allowSignalWrites` option or child list, or the number
of cells. -/
theorem evalFrame (f : Nat) : ∀ (c : Call) (s : St), calmCall c →
    (∀ t, (getEff (step f c s).2 t).body = (getEff s t).body ∧
          (getEff (step f c s).2 t).allowWrites = (getEff s t).allowWrites ∧
          (getEff (step f c s).2 t).childEffects = (getEff s t).childEffects) ∧
    (step f c s).2.effStack = s.effStack ∧
    (step f c s).2.batchStack = s.batchStack ∧
    (∀ i, (getSig (step f c s).2 i).current = (getSig s i).current ∧
          (getSig (step f c s).2 i).equal = (getSig s i).equal) ∧
    (step f c s).2.sigs.length = s.sigs.length := by
  induction f with
  | zero =>
    intro c s _
    exact ⟨fun t => ⟨rfl, rfl, rfl⟩, rfl, rfl, fun i => ⟨rfl, rfl⟩, rfl⟩
  | succ f ih =>
    intro c s hc
    rw [step_succ]
    by_cases hs : halt s = true
    · rw [stepB_halt _ _ _ hs]
      exact ⟨fun t => ⟨rfl, rfl, rfl⟩, rfl, rfl, fun i => ⟨rfl, rfl⟩, rfl⟩
    · simp only [Bool.not_eq_true] at hs
      cases c with
      | evalP e =>
        cases e with
        | const n =>
          simp [stepB, hs]
        | readSig i =>
          simp only [stepB, hs, Bool.false_eq_true, if_false]
          obtain ⟨s1, s2, s3, s4, s5⟩ := sigRead_facts i s hs
          exact ⟨s4, (ctl_parts (ctl_sigRead i s)).1, (ctl_parts (ctl_sigRead i s)).2.2.1, s2, s3⟩
        | readComp j =>
          simp only [stepB, hs, Bool.false_eq_true, if_false]
          exact ih (.compRead j) s trivial
        | add e1 e2 =>
          simp only [stepB, hs, Bool.false_eq_true, if_false]
          obtain ⟨a1, a2, a3, a4, a5⟩ := ih (.evalP e1) s trivial
          obtain ⟨b1, b2, b3, b4, b5⟩ := ih (.evalP e2) (step f (.evalP e1) s).2 trivial
          refine ⟨?_, b2.trans a2, b3.trans a3, ?_, b5.trans a5⟩
          · intro t
            obtain ⟨x1, x2, x3⟩ := a1 t
            obtain ⟨y1, y2, y3⟩ := b1 t
            exact ⟨y1.trans x1, y2.trans x2, y3.trans x3⟩
          · intro i
            exact ⟨((b4 i).1).trans ((a4 i).1), ((b4 i).2).trans ((a4 i).2)⟩
      | compRead j =>
        simp only [stepB, hs, Bool.false_eq_true, if_false]
        by_cases hcache : (getComp s j).hasCache
        · simp only [hcache, if_true]
          cases hh : s.effStack.head? with
          | some e =>
            refine ⟨wireLate_getEff _ _ _, (ctl_parts (ctl_wireLate (getComp s j).lateEffects e s)).1, (ctl_parts (ctl_wireLate (getComp s j).lateEffects e s)).2.2.1, ?_, wireLate_sigs_len _ _ _⟩
            intro i
            exact wireLate_sig_keep _ _ _ _
          | none =>
            exact ⟨fun t => ⟨rfl, rfl, rfl⟩, rfl, rfl, fun i => ⟨rfl, rfl⟩, rfl⟩
        · simp only [hcache, Bool.false_eq_true, if_false]
          obtain ⟨a1, a2, a3, a4, a5⟩ := ih (.evalP (getComp s j).body) ({ s with compStack := j :: s.compStack, evals := s.evals ++ [j] } : St) trivial
          by_cases hp : halt (step f (.evalP (getComp s j).body) ({ s with compStack := j :: s.compStack, evals := s.evals ++ [j] } : St)).2 = true
          · simp only [hp, if_true]
            exact ⟨a1, a2, a3, a4, a5⟩
          · simp only [hp, Bool.false_eq_true, if_false]
            refine ⟨?_, a2, a3, a4, a5⟩
            intro t
            obtain ⟨x1, x2, x3⟩ := a1 t
            exact ⟨x1, x2, x3⟩
      | execStmt st =>
        cases st with
        | readS i =>
          simp only [stepB, hs, Bool.false_eq_true, if_false]
          obtain ⟨s1, s2, s3, s4, s5⟩ := sigRead_facts i s hs
          have hfr : ∀ t, (getEff (sigRead i s).2 t).body = (getEff s t).body ∧ (getEff (sigRead i s).2 t).allowWrites = (getEff s t).allowWrites ∧ (getEff (sigRead i s).2 t).childEffects = (getEff s t).childEffects := s4
          by_cases hp : halt (sigRead i s).2 = true
          · simp only [hp, if_true]
            exact ⟨hfr, (ctl_parts (ctl_sigRead i s)).1, (ctl_parts (ctl_sigRead i s)).2.2.1, s2, s3⟩
          · simp only [hp, Bool.false_eq_true, if_false]
            exact ⟨hfr, (ctl_parts (ctl_sigRead i s)).1, (ctl_parts (ctl_sigRead i s)).2.2.1, s2, s3⟩
        | readC j =>
          simp only [stepB, hs, Bool.false_eq_true, if_false]
          obtain ⟨a1, a2, a3, a4, a5⟩ := ih (.compRead j) s trivial
          by_cases hp : halt (step f (.compRead j) s).2 = true
          · simp only [hp, if_true]
            exact ⟨a1, a2, a3, a4, a5⟩
          · simp only [hp, Bool.false_eq_true, if_false]
            exact ⟨a1, a2, a3, a4, a5⟩
        | setS i v => exact absurd hc (by simp [calmCall, calmS])
        | mutateS i mf => exact absurd hc (by simp [calmCall, calmS])
        | mkEff allow body => exact absurd hc (by simp [calmCall, calmS])
        | ifPos i thn els => exact absurd hc (by simp [calmCall, calmS])
        | batchS body => exact absurd hc (by simp [calmCall, calmS])
      | execStmts l =>
        cases l with
        | nil =>
          simp [stepB, hs]
        | cons st rest =>
          have hb : calmS st = true ∧ calmL rest = true := by
            simpa [calmCall, calmL, Bool.and_eq_true] using hc
          simp only [stepB, hs, Bool.false_eq_true, if_false]
          obtain ⟨a1, a2, a3, a4, a5⟩ := ih (.execStmt st) s hb.1
          obtain ⟨b1, b2, b3, b4, b5⟩ := ih (.execStmts rest) (step f (.execStmt st) s).2 hb.2
          refine ⟨?_, b2.trans a2, b3.trans a3, ?_, b5.trans a5⟩
          · intro t
            obtain ⟨x1, x2, x3⟩ := a1 t
            obtain ⟨y1, y2, y3⟩ := b1 t
            exact ⟨y1.trans x1, y2.trans x2, y3.trans x3⟩
          · intro i
            exact ⟨((b4 i).1).trans ((a4 i).1), ((b4 i).2).trans ((a4 i).2)⟩
      | setSig i v => exact hc.elim
      | mutateSig i mf => exact hc.elim
      | propagate i => exact hc.elim
      | runTrig e => exact hc.elim
      | runTrigs ts => exact hc.elim
      | fireTrigs i vk => exact hc.elim
      | mkEffRun allow body => exact hc.elim
      | batchRun body => exact hc.elim

/-- With no active effect context, calm (pure-read) calls never change any
cell's dependent list: the getter registers a trigger only when an effect
context sits on the stack (signal.ts lines 62-67). -/
theorem trigsPres (f : Nat) : ∀ (c : Call) (s : St), calmCall c → s.effStack = [] →
    ∀ x, (getSig (step f c s).2 x).triggers = (getSig s x).triggers := by
  induction f with
  | zero => intro c s _ _ x; rfl
  | succ f ih =>
    intro c s hc he x
    rw [step_succ]
    by_cases hs : halt s
    · rw [stepB_halt _ _ _ hs]
    · simp only [Bool.not_eq_true] at hs
      cases c with
      | evalP e =>
        cases e with
        | const n => simp [stepB, hs]
        | readSig i =>
          simp only [stepB, hs, Bool.false_eq_true, if_false]
          obtain ⟨-, -, -, -, -, s6⟩ := sigRead_facts i s hs
          exact s6 (by rw [he]; rfl) x
        | readComp j =>
          simp only [stepB, hs, Bool.false_eq_true, if_false]
          exact ih (.compRead j) s trivial he x
        | add e1 e2 =>
          simp only [stepB, hs, Bool.false_eq_true, if_false]
          have hmid : (step f (.evalP e1) s).2.effStack = [] := by
            rw [(evalFrame f (.evalP e1) s trivial).2.1, he]
          exact (ih (.evalP e2) _ trivial hmid x).trans (ih (.evalP e1) s trivial he x)
      | compRead j =>
        simp only [stepB, hs, Bool.false_eq_true, if_false]
        by_cases hcache : (getComp s j).hasCache
        · have hh : s.effStack.head? = none := by rw [he]; rfl
          simp [hcache, hh]
        · simp only [hcache, Bool.false_eq_true, if_false]
          have hmid := ih (.evalP (getComp s j).body) ({ s with compStack := j :: s.compStack, evals := s.evals ++ [j] } : St) trivial he x
          by_cases hp : halt (step f (.evalP (getComp s j).body) ({ s with compStack := j :: s.compStack, evals := s.evals ++ [j] } : St)).2 = true
          · simp only [hp, if_true]
            exact hmid
          · simp only [hp, Bool.false_eq_true, if_false]
            exact hmid
      | execStmt st =>
        cases st with
        | readS i =>
          simp only [stepB, hs, Bool.false_eq_true, if_false]
          obtain ⟨-, -, -, -, -, s6⟩ := sigRead_facts i s hs
          have h6 := s6 (by rw [he]; rfl) x
          by_cases hp : halt (sigRead i s).2 = true
          · simp only [hp, if_true]; exact h6
          · simp only [hp, Bool.false_eq_true, if_false]; exact h6
        | readC j =>
          simp only [stepB, hs, Bool.false_eq_true, if_false]
          have hmid := ih (.compRead j) s trivial he x
          by_cases hp : halt (step f (.compRead j) s).2 = true
          · simp only [hp, if_true]; exact hmid
          · simp only [hp, Bool.false_eq_true, if_false]; exact hmid
        | setS i v => exact absurd hc (by simp [calmCall, calmS])
        | mutateS i mf => exact absurd hc (by simp [calmCall, calmS])
        | mkEff allow body => exact absurd hc (by simp [calmCall, calmS])
        | ifPos i thn els => exact absurd hc (by simp [calmCall, calmS])
        | batchS body => exact absurd hc (by simp [calmCall, calmS])
      | execStmts l =>
        cases l with
        | nil => simp [stepB, hs]
        | cons st rest =>
          have hb : calmS st = true ∧ calmL rest = true := by
            simpa [calmCall, calmL, Bool.and_eq_true] using hc
          simp only [stepB, hs, Bool.false_eq_true, if_false]
          have hmid : (step f (.execStmt st) s).2.effStack = [] := by
            rw [(evalFrame f (.execStmt st) s hb.1).2.1, he]
          exact (ih (.execStmts rest) _ hb.2 hmid x).trans (ih (.execStmt st) s hb.1 he x)
      | setSig i v => exact hc.elim
      | mutateSig i mf => exact hc.elim
      | propagate i => exact hc.elim
      | runTrig e => exact hc.elim
      | runTrigs ts => exact hc.elim
      | fireTrigs i vk2 => exact hc.elim
      | mkEffRun allow body => exact hc.elim
      | batchRun body => exact hc.elim

/-- Evaluating an all-dirty chain of computeds reaches the root cell:
the returned value is the cell's current value, and the active effect
context's trigger is registered on the cell. -/
theorem chainEval (j : Nat) : ∀ (f : Nat) (s : St) (E : Nat),
    (getComp s 0).body = .readSig 0 →
    (∀ i, i < j → (getComp s (i+1)).body = .readComp i) →
    (∀ i, i ≤ j → (getComp s i).hasCache = false) →
    s.effStack.head? = some E →
    0 < s.sigs.length →
    halt (step f (.compRead j) s).2 = false →
    (step f (.compRead j) s).1 = (getSig s 0).current ∧
    (getSig (step f (.compRead j) s).2 0).triggers = addIfAbsent E (getSig s 0).triggers := by
  induction j with
  | zero =>
    intro f s E hb0 hbs hdirty hhead hlen hh
    obtain ⟨g1, rfl⟩ := live_fuel _ _ _ hh
    have hs : halt s = false := live_of _ _ _ hh
    have hm : (getComp s 0).hasCache = false := hdirty 0 (le_refl 0)
    have h1 : step (g1+1) (.compRead 0) s
        = (if halt (step g1 (.evalP (.readSig 0)) ({ s with compStack := 0 :: s.compStack, evals := s.evals ++ [0] } : St)).2 = true
           then step g1 (.evalP (.readSig 0)) ({ s with compStack := 0 :: s.compStack, evals := s.evals ++ [0] } : St)
           else ((step g1 (.evalP (.readSig 0)) ({ s with compStack := 0 :: s.compStack, evals := s.evals ++ [0] } : St)).1, { updComp 0 (fun c0 => { c0 with cached := (step g1 (.evalP (.readSig 0)) ({ s with compStack := 0 :: s.compStack, evals := s.evals ++ [0] } : St)).1, hasCache := true }) (step g1 (.evalP (.readSig 0)) ({ s with compStack := 0 :: s.compStack, evals := s.evals ++ [0] } : St)).2 with compStack := (updComp 0 (fun c0 => { c0 with cached := (step g1 (.evalP (.readSig 0)) ({ s with compStack := 0 :: s.compStack, evals := s.evals ++ [0] } : St)).1, hasCache := true }) (step g1 (.evalP (.readSig 0)) ({ s with compStack := 0 :: s.compStack, evals := s.evals ++ [0] } : St)).2).compStack.tail })) := by
      rw [step_succ]
      simp only [stepB, hs, Bool.false_eq_true, if_false, hm, hb0]
    rw [h1] at hh ⊢
    by_cases hP : halt (step g1 (.evalP (.readSig 0)) ({ s with compStack := 0 :: s.compStack, evals := s.evals ++ [0] } : St)).2 = true
    · rw [if_pos hP] at hh
      exact absurd hh (by simp [hP])
    · rw [if_neg hP] at hh ⊢
      simp only [Bool.not_eq_true] at hP
      obtain ⟨g2, rfl⟩ := live_fuel _ _ _ hP
      have hSS : halt ({ s with compStack := 0 :: s.compStack, evals := s.evals ++ [0] } : St) = false := hs
      have h2 : step (g2+1) (.evalP (.readSig 0)) ({ s with compStack := 0 :: s.compStack, evals := s.evals ++ [0] } : St) = sigRead 0 ({ s with compStack := 0 :: s.compStack, evals := s.evals ++ [0] } : St) := by
        rw [step_succ]
        simp only [stepB, hSS, Bool.false_eq_true, if_false]
      rw [h2] at hP ⊢
      obtain ⟨v1, v2, v3, v4, v5, -⟩ := sigRead_facts 0 ({ s with compStack := 0 :: s.compStack, evals := s.evals ++ [0] } : St) hSS
      exact ⟨v1, v5 E hhead hlen⟩
  | succ j ih =>
    intro f s E hb0 hbs hdirty hhead hlen hh
    obtain ⟨g1, rfl⟩ := live_fuel _ _ _ hh
    have hs : halt s = false := live_of _ _ _ hh
    have hm : (getComp s (j+1)).hasCache = false := hdirty (j+1) (le_refl _)
    have hbody : (getComp s (j+1)).body = .readComp j := hbs j (Nat.lt_succ_self j)
    have h1 : step (g1+1) (.compRead (j+1)) s
        = (if halt (step g1 (.evalP (.readComp j)) ({ s with compStack := (j+1) :: s.compStack, evals := s.evals ++ [j+1] } : St)).2 = true
           then step g1 (.evalP (.readComp j)) ({ s with compStack := (j+1) :: s.compStack, evals := s.evals ++ [j+1] } : St)
           else ((step g1 (.evalP (.readComp j)) ({ s with compStack := (j+1) :: s.compStack, evals := s.evals ++ [j+1] } : St)).1, { updComp (j+1) (fun c0 => { c0 with cached := (step g1 (.evalP (.readComp j)) ({ s with compStack := (j+1) :: s.compStack, evals := s.evals ++ [j+1] } : St)).1, hasCache := true }) (step g1 (.evalP (.readComp j)) ({ s with compStack := (j+1) :: s.compStack, evals := s.evals ++ [j+1] } : St)).2 with compStack := (updComp (j+1) (fun c0 => { c0 with cached := (step g1 (.evalP (.readComp j)) ({ s with compStack := (j+1) :: s.compStack, evals := s.evals ++ [j+1] } : St)).1, hasCache := true }) (step g1 (.evalP (.readComp j)) ({ s with compStack := (j+1) :: s.compStack, evals := s.evals ++ [j+1] } : St)).2).compStack.tail })) := by
      rw [step_succ]
      simp only [stepB, hs, Bool.false_eq_true, if_false, hm, hbody]
    rw [h1] at hh ⊢
    by_cases hP : halt (step g1 (.evalP (.readComp j)) ({ s with compStack := (j+1) :: s.compStack, evals := s.evals ++ [j+1] } : St)).2 = true
    · rw [if_pos hP] at hh
      exact absurd hh (by simp [hP])
    · rw [if_neg hP] at hh ⊢
      simp only [Bool.not_eq_true] at hP
      obtain ⟨g2, rfl⟩ := live_fuel _ _ _ hP
      have hSS : halt ({ s with compStack := (j+1) :: s.compStack, evals := s.evals ++ [j+1] } : St) = false := hs
      have h2 : step (g2+1) (.evalP (.readComp j)) ({ s with compStack := (j+1) :: s.compStack, evals := s.evals ++ [j+1] } : St) = step g2 (.compRead j) ({ s with compStack := (j+1) :: s.compStack, evals := s.evals ++ [j+1] } : St) := by
        rw [step_succ]
        simp only [stepB, hSS, Bool.false_eq_true, if_false]
      rw [h2] at hP ⊢
      obtain ⟨w1, w2⟩ := ih g2 ({ s with compStack := (j+1) :: s.compStack, evals := s.evals ++ [j+1] } : St) E hb0 (fun i hi => hbs i (Nat.lt_succ_of_lt hi)) (fun i hi => hdirty i (Nat.le_succ_of_le hi)) hhead hlen hP
      exact ⟨w1, w2⟩

/-- One unequal write to a cell whose dependent set is exactly `[E]`,
outside a batch, with a read-only effect body: the effect re-runs
exactly once before the write call returns. -/
theorem fireOnce (R : St) (x E : Nat) (v : Int) (f2 : Nat)
    (hReff : R.effStack = [])
    (hRbatch : R.batchStack = [])
    (hxR : x < R.sigs.length)
    (htrigR : (getSig R x).triggers = [E])
    (hneR : ((getSig R x).equal v (getSig R x).current) = false)
    (hbodyR : calmL (getEff R E).body = true)
    (hchR : (getEff R E).childEffects = [])
    (hh2 : halt (step f2 (.setSig x v) R).2 = false) :
    (step f2 (.setSig x v) R).2.runs = R.runs ++ [E] := by
  obtain ⟨q1, rfl⟩ := live_fuel _ _ _ hh2
  have hlive : halt R = false := live_of _ _ _ hh2
  have hhead : R.effStack.head? = none := by
    rw [hReff]
    rfl
  have h5 : step (q1+1) (.setSig x v) R = step q1 (.propagate x) (updSig x (fun sg => { sg with current := v }) R) := by
    rw [step_succ]
    simp only [stepB, hlive, Bool.false_eq_true, if_false, hhead, Bool.not_true, hneR]
  rw [h5] at hh2 ⊢
  obtain ⟨q2, rfl⟩ := live_fuel _ _ _ hh2
  have hSU : halt (updSig x (fun sg => { sg with current := v }) R) = false := hlive
  have hIVb : (invalidateAll (getSig (updSig x (fun sg => { sg with current := v }) R) x).cacheInvalidators (updSig x (fun sg => { sg with current := v }) R)).batchStack = [] := by
    rw [(ctl_parts (ctl_invalidateAll _ _)).2.2.1]
    show R.batchStack = []
    exact hRbatch
  have htr2 : (getSig (invalidateAll (getSig (updSig x (fun sg => { sg with current := v }) R) x).cacheInvalidators (updSig x (fun sg => { sg with current := v }) R)) x).triggers = [E] := by
    have hsg : getSig (invalidateAll (getSig (updSig x (fun sg => { sg with current := v }) R) x).cacheInvalidators (updSig x (fun sg => { sg with current := v }) R)) x = getSig (updSig x (fun sg => { sg with current := v }) R) x := by
      show (invalidateAll (getSig (updSig x (fun sg => { sg with current := v }) R) x).cacheInvalidators (updSig x (fun sg => { sg with current := v }) R)).sigs.getD x dummySig = (updSig x (fun sg => { sg with current := v }) R).sigs.getD x dummySig
      rw [invalidateAll_sigs]
    rw [hsg, getSig_updSig_self x _ _ hxR]
    exact htrigR
  have h6 : step (q2+1) (.propagate x) (updSig x (fun sg => { sg with current := v }) R) = step q2 (.fireTrigs x 0) (invalidateAll (getSig (updSig x (fun sg => { sg with current := v }) R) x).cacheInvalidators (updSig x (fun sg => { sg with current := v }) R)) := by
    rw [step_succ]
    simp only [stepB, hSU, Bool.false_eq_true, if_false, hIVb]
  rw [h6] at hh2 ⊢
  obtain ⟨q3, rfl⟩ := live_fuel _ _ _ hh2
  have hIV : halt (invalidateAll (getSig (updSig x (fun sg => { sg with current := v }) R) x).cacheInvalidators (updSig x (fun sg => { sg with current := v }) R)) = false := by
    show ((invalidateAll (getSig (updSig x (fun sg => { sg with current := v }) R) x).cacheInvalidators (updSig x (fun sg => { sg with current := v }) R)).err || (invalidateAll (getSig (updSig x (fun sg => { sg with current := v }) R) x).cacheInvalidators (updSig x (fun sg => { sg with current := v }) R)).fuelOut) = false
    rw [(ctl_parts (ctl_invalidateAll _ _)).2.2.2.2.2.2.1, (ctl_parts (ctl_invalidateAll _ _)).2.2.2.2.2.2.2]
    exact hlive
  have hd0 : (getSig (invalidateAll (getSig (updSig x (fun sg => { sg with current := v }) R) x).cacheInvalidators (updSig x (fun sg => { sg with current := v }) R)) x).triggers.drop 0 = [E] := by
    rw [List.drop_zero]
    exact htr2
  have h7 : step (q3+1) (.fireTrigs x 0) (invalidateAll (getSig (updSig x (fun sg => { sg with current := v }) R) x).cacheInvalidators (updSig x (fun sg => { sg with current := v }) R)) = step q3 (.fireTrigs x (0+1)) (step q3 (.runTrig E) (invalidateAll (getSig (updSig x (fun sg => { sg with current := v }) R) x).cacheInvalidators (updSig x (fun sg => { sg with current := v }) R))).2 := by
    rw [step_succ]
    simp only [stepB, hIV, Bool.false_eq_true, if_false, hd0]
  rw [h7] at hh2 ⊢
  obtain ⟨q4, rfl⟩ := live_fuel _ _ _ hh2
  have hEffIV : getEff (invalidateAll (getSig (updSig x (fun sg => { sg with current := v }) R) x).cacheInvalidators (updSig x (fun sg => { sg with current := v }) R)) E = getEff (updSig x (fun sg => { sg with current := v }) R) E := by
    show (invalidateAll (getSig (updSig x (fun sg => { sg with current := v }) R) x).cacheInvalidators (updSig x (fun sg => { sg with current := v }) R)).effs.getD E dummyEff = (updSig x (fun sg => { sg with current := v }) R).effs.getD E dummyEff
    rw [invalidateAll_effs]
  have hch : (getEff (invalidateAll (getSig (updSig x (fun sg => { sg with current := v }) R) x).cacheInvalidators (updSig x (fun sg => { sg with current := v }) R)) E).childEffects = [] := by
    rw [hEffIV]
    show (getEff R E).childEffects = []
    exact hchR
  have h8 : step (q4+1) (.runTrig E) (invalidateAll (getSig (updSig x (fun sg => { sg with current := v }) R) x).cacheInvalidators (updSig x (fun sg => { sg with current := v }) R)) = step q4 (.execStmts (getEff ({ invalidateAll (getSig (updSig x (fun sg => { sg with current := v }) R) x).cacheInvalidators (updSig x (fun sg => { sg with current := v }) R) with runs := (invalidateAll (getSig (updSig x (fun sg => { sg with current := v }) R) x).cacheInvalidators (updSig x (fun sg => { sg with current := v }) R)).runs ++ [E] } : St) E).body) ({ invalidateAll (getSig (updSig x (fun sg => { sg with current := v }) R) x).cacheInvalidators (updSig x (fun sg => { sg with current := v }) R) with runs := (invalidateAll (getSig (updSig x (fun sg => { sg with current := v }) R) x).cacheInvalidators (updSig x (fun sg => { sg with current := v }) R)).runs ++ [E] } : St) := by
    rw [step_succ]
    simp only [stepB, hIV, Bool.false_eq_true, if_false, hch, List.foldl_nil]
  rw [h8] at hh2 ⊢
  have hbS5 : (getEff ({ invalidateAll (getSig (updSig x (fun sg => { sg with current := v }) R) x).cacheInvalidators (updSig x (fun sg => { sg with current := v }) R) with runs := (invalidateAll (getSig (updSig x (fun sg => { sg with current := v }) R) x).cacheInvalidators (updSig x (fun sg => { sg with current := v }) R)).runs ++ [E] } : St) E).body = (getEff R E).body := by
    show (getEff (invalidateAll (getSig (updSig x (fun sg => { sg with current := v }) R) x).cacheInvalidators (updSig x (fun sg => { sg with current := v }) R)) E).body = (getEff R E).body
    rw [hEffIV]
    rfl
  have hcalm : calmCall (.execStmts (getEff ({ invalidateAll (getSig (updSig x (fun sg => { sg with current := v }) R) x).cacheInvalidators (updSig x (fun sg => { sg with current := v }) R) with runs := (invalidateAll (getSig (updSig x (fun sg => { sg with current := v }) R) x).cacheInvalidators (updSig x (fun sg => { sg with current := v }) R)).runs ++ [E] } : St) E).body) := by
    show calmL (getEff ({ invalidateAll (getSig (updSig x (fun sg => { sg with current := v }) R) x).cacheInvalidators (updSig x (fun sg => { sg with current := v }) R) with runs := (invalidateAll (getSig (updSig x (fun sg => { sg with current := v }) R) x).cacheInvalidators (updSig x (fun sg => { sg with current := v }) R)).runs ++ [E] } : St) E).body = true
    rw [hbS5]
    exact hbodyR
  have hS5eff : ({ invalidateAll (getSig (updSig x (fun sg => { sg with current := v }) R) x).cacheInvalidators (updSig x (fun sg => { sg with current := v }) R) with runs := (invalidateAll (getSig (updSig x (fun sg => { sg with current := v }) R) x).cacheInvalidators (updSig x (fun sg => { sg with current := v }) R)).runs ++ [E] } : St).effStack = [] := by
    show (invalidateAll (getSig (updSig x (fun sg => { sg with current := v }) R) x).cacheInvalidators (updSig x (fun sg => { sg with current := v }) R)).effStack = []
    rw [(ctl_parts (ctl_invalidateAll _ _)).1]
    exact hReff
  have hT2halt : halt (step q4 (.execStmts (getEff ({ invalidateAll (getSig (updSig x (fun sg => { sg with current := v }) R) x).cacheInvalidators (updSig x (fun sg => { sg with current := v }) R) with runs := (invalidateAll (getSig (updSig x (fun sg => { sg with current := v }) R) x).cacheInvalidators (updSig x (fun sg => { sg with current := v }) R)).runs ++ [E] } : St) E).body) ({ invalidateAll (getSig (updSig x (fun sg => { sg with current := v }) R) x).cacheInvalidators (updSig x (fun sg => { sg with current := v }) R) with runs := (invalidateAll (getSig (updSig x (fun sg => { sg with current := v }) R) x).cacheInvalidators (updSig x (fun sg => { sg with current := v }) R)).runs ++ [E] } : St)).2 = false := live_of _ _ _ hh2
  have hT2trig : (getSig (step q4 (.execStmts (getEff ({ invalidateAll (getSig (updSig x (fun sg => { sg with current := v }) R) x).cacheInvalidators (updSig x (fun sg => { sg with current := v }) R) with runs := (invalidateAll (getSig (updSig x (fun sg => { sg with current := v }) R) x).cacheInvalidators (updSig x (fun sg => { sg with current := v }) R)).runs ++ [E] } : St) E).body) ({ invalidateAll (getSig (updSig x (fun sg => { sg with current := v }) R) x).cacheInvalidators (updSig x (fun sg => { sg with current := v }) R) with runs := (invalidateAll (getSig (updSig x (fun sg => { sg with current := v }) R) x).cacheInvalidators (updSig x (fun sg => { sg with current := v }) R)).runs ++ [E] } : St)).2 x).triggers = [E] := by
    rw [trigsPres q4 (.execStmts (getEff ({ invalidateAll (getSig (updSig x (fun sg => { sg with current := v }) R) x).cacheInvalidators (updSig x (fun sg => { sg with current := v }) R) with runs := (invalidateAll (getSig (updSig x (fun sg => { sg with current := v }) R) x).cacheInvalidators (updSig x (fun sg => { sg with current := v }) R)).runs ++ [E] } : St) E).body) ({ invalidateAll (getSig (updSig x (fun sg => { sg with current := v }) R) x).cacheInvalidators (updSig x (fun sg => { sg with current := v }) R) with runs := (invalidateAll (getSig (updSig x (fun sg => { sg with current := v }) R) x).cacheInvalidators (updSig x (fun sg => { sg with current := v }) R)).runs ++ [E] } : St) hcalm hS5eff x]
    show (getSig (invalidateAll (getSig (updSig x (fun sg => { sg with current := v }) R) x).cacheInvalidators (updSig x (fun sg => { sg with current := v }) R)) x).triggers = [E]
    exact htr2
  have hd1 : (getSig (step q4 (.execStmts (getEff ({ invalidateAll (getSig (updSig x (fun sg => { sg with current := v }) R) x).cacheInvalidators (updSig x (fun sg => { sg with current := v }) R) with runs := (invalidateAll (getSig (updSig x (fun sg => { sg with current := v }) R) x).cacheInvalidators (updSig x (fun sg => { sg with current := v }) R)).runs ++ [E] } : St) E).body) ({ invalidateAll (getSig (updSig x (fun sg => { sg with current := v }) R) x).cacheInvalidators (updSig x (fun sg => { sg with current := v }) R) with runs := (invalidateAll (getSig (updSig x (fun sg => { sg with current := v }) R) x).cacheInvalidators (updSig x (fun sg => { sg with current := v }) R)).runs ++ [E] } : St)).2 x).triggers.drop (0+1) = [] := by
    rw [hT2trig]
    rfl
  have h9 : step (q4+1) (.fireTrigs x (0+1)) (step q4 (.execStmts (getEff ({ invalidateAll (getSig (updSig x (fun sg => { sg with current := v }) R) x).cacheInvalidators (updSig x (fun sg => { sg with current := v }) R) with runs := (invalidateAll (getSig (updSig x (fun sg => { sg with current := v }) R) x).cacheInvalidators (updSig x (fun sg => { sg with current := v }) R)).runs ++ [E] } : St) E).body) ({ invalidateAll (getSig (updSig x (fun sg => { sg with current := v }) R) x).cacheInvalidators (updSig x (fun sg => { sg with current := v }) R) with runs := (invalidateAll (getSig (updSig x (fun sg => { sg with current := v }) R) x).cacheInvalidators (updSig x (fun sg => { sg with current := v }) R)).runs ++ [E] } : St)).2 = (0, (step q4 (.execStmts (getEff ({ invalidateAll (getSig (updSig x (fun sg => { sg with current := v }) R) x).cacheInvalidators (updSig x (fun sg => { sg with current := v }) R) with runs := (invalidateAll (getSig (updSig x (fun sg => { sg with current := v }) R) x).cacheInvalidators (updSig x (fun sg => { sg with current := v }) R)).runs ++ [E] } : St) E).body) ({ invalidateAll (getSig (updSig x (fun sg => { sg with current := v }) R) x).cacheInvalidators (updSig x (fun sg => { sg with current := v }) R) with runs := (invalidateAll (getSig (updSig x (fun sg => { sg with current := v }) R) x).cacheInvalidators (updSig x (fun sg => { sg with current := v }) R)).runs ++ [E] } : St)).2) := by
    rw [step_succ]
    simp only [stepB, hT2halt, Bool.false_eq_true, if_false, hd1]
  rw [h9]
  show (step q4 (.execStmts (getEff ({ invalidateAll (getSig (updSig x (fun sg => { sg with current := v }) R) x).cacheInvalidators (updSig x (fun sg => { sg with current := v }) R) with runs := (invalidateAll (getSig (updSig x (fun sg => { sg with current := v }) R) x).cacheInvalidators (updSig x (fun sg => { sg with current := v }) R)).runs ++ [E] } : St) E).body) ({ invalidateAll (getSig (updSig x (fun sg => { sg with current := v }) R) x).cacheInvalidators (updSig x (fun sg => { sg with current := v }) R) with runs := (invalidateAll (getSig (updSig x (fun sg => { sg with current := v }) R) x).cacheInvalidators (updSig x (fun sg => { sg with current := v }) R)).runs ++ [E] } : St)).2.runs = R.runs ++ [E]
  rw [runsPres q4 (.execStmts (getEff ({ invalidateAll (getSig (updSig x (fun sg => { sg with current := v }) R) x).cacheInvalidators (updSig x (fun sg => { sg with current := v }) R) with runs := (invalidateAll (getSig (updSig x (fun sg => { sg with current := v }) R) x).cacheInvalidators (updSig x (fun sg => { sg with current := v }) R)).runs ++ [E] } : St) E).body) ({ invalidateAll (getSig (updSig x (fun sg => { sg with current := v }) R) x).cacheInvalidators (updSig x (fun sg => { sg with current := v }) R) with runs := (invalidateAll (getSig (updSig x (fun sg => { sg with current := v }) R) x).cacheInvalidators (updSig x (fun sg => { sg with current := v }) R)).runs ++ [E] } : St) hcalm]
  show (invalidateAll (getSig (updSig x (fun sg => { sg with current := v }) R) x).cacheInvalidators (updSig x (fun sg => { sg with current := v }) R)).runs ++ [E] = R.runs ++ [E]
  rw [(ctl_parts (ctl_invalidateAll _ _)).2.2.2.1]
  rfl

/-- The computeds of a fresh chain state: computed `0` reads cell `0`,
computed `i+1` reads computed `i`, all dirty. -/
theorem chainComp (a : Int) (k i : Nat) (h : i < k) :
    getComp (mkSt [a] (chainBodies k)) i = ⟨chainBody i, false, 0, []⟩ := by
  show ((chainBodies k).map (fun b => (⟨b, false, 0, []⟩ : CompSt))).getD i dummyComp = _
  rw [getD_map_lt _ _ _ _ (.const 0) (by simpa [chainBodies] using h)]
  show (⟨(chainBodies k).getD i (.const 0), false, 0, []⟩ : CompSt) = _
  have hb : (chainBodies k).getD i (.const 0) = chainBody i := by
    show ((List.range k).map chainBody).getD i (.const 0) = _
    rw [getD_map_lt _ _ _ _ 0 (by simpa using h)]
    rw [getD_range k i 0 h]
  rw [hb]

/-- The state after `effect(() => read (top of an all-dirty chain))` on a
fresh one-cell chain: the effect ran once, the stacks are empty again,
and the cell's dependent set is exactly the effect's trigger. -/
theorem c1Setup (j : Nat) (a : Int) (f1 : Nat)
    (hh1 : halt (step f1 (.mkEffRun false [.readC j]) (mkSt [a] (chainBodies (j+1)))).2 = false) :
    (step f1 (.mkEffRun false [.readC j]) (mkSt [a] (chainBodies (j+1)))).2.runs = [0] ∧
    (step f1 (.mkEffRun false [.readC j]) (mkSt [a] (chainBodies (j+1)))).2.effStack = [] ∧
    (step f1 (.mkEffRun false [.readC j]) (mkSt [a] (chainBodies (j+1)))).2.batchStack = [] ∧
    (getSig (step f1 (.mkEffRun false [.readC j]) (mkSt [a] (chainBodies (j+1)))).2 0).triggers = [0] ∧
    (getSig (step f1 (.mkEffRun false [.readC j]) (mkSt [a] (chainBodies (j+1)))).2 0).current = a ∧
    (getSig (step f1 (.mkEffRun false [.readC j]) (mkSt [a] (chainBodies (j+1)))).2 0).equal = (fun x y : Int => x == y) ∧
    0 < (step f1 (.mkEffRun false [.readC j]) (mkSt [a] (chainBodies (j+1)))).2.sigs.length ∧
    (getEff (step f1 (.mkEffRun false [.readC j]) (mkSt [a] (chainBodies (j+1)))).2 0).body = [.readC j] ∧
    (getEff (step f1 (.mkEffRun false [.readC j]) (mkSt [a] (chainBodies (j+1)))).2 0).childEffects = [] := by
  obtain ⟨g1, rfl⟩ := live_fuel _ _ _ hh1
  have hs : halt (mkSt [a] (chainBodies (j+1))) = false := live_of _ _ _ hh1
  have hpar : (mkSt [a] (chainBodies (j+1))).effStack.head? = none := rfl
  have h1 : step (g1+1) (.mkEffRun false [.readC j]) (mkSt [a] (chainBodies (j+1)))
      = (if halt (step g1 (.execStmts [.readC j]) ({ (mkSt [a] (chainBodies (j+1))) with effs := (mkSt [a] (chainBodies (j+1))).effs ++ [(⟨[.readC j], false, [], []⟩ : EffSt)], effStack := (mkSt [a] (chainBodies (j+1))).effs.length :: (mkSt [a] (chainBodies (j+1))).effStack, runs := (mkSt [a] (chainBodies (j+1))).runs ++ [(mkSt [a] (chainBodies (j+1))).effs.length] } : St)).2 = true
         then (0, (step g1 (.execStmts [.readC j]) ({ (mkSt [a] (chainBodies (j+1))) with effs := (mkSt [a] (chainBodies (j+1))).effs ++ [(⟨[.readC j], false, [], []⟩ : EffSt)], effStack := (mkSt [a] (chainBodies (j+1))).effs.length :: (mkSt [a] (chainBodies (j+1))).effStack, runs := (mkSt [a] (chainBodies (j+1))).runs ++ [(mkSt [a] (chainBodies (j+1))).effs.length] } : St)).2)
         else (0, { (step g1 (.execStmts [.readC j]) ({ (mkSt [a] (chainBodies (j+1))) with effs := (mkSt [a] (chainBodies (j+1))).effs ++ [(⟨[.readC j], false, [], []⟩ : EffSt)], effStack := (mkSt [a] (chainBodies (j+1))).effs.length :: (mkSt [a] (chainBodies (j+1))).effStack, runs := (mkSt [a] (chainBodies (j+1))).runs ++ [(mkSt [a] (chainBodies (j+1))).effs.length] } : St)).2 with effStack := (step g1 (.execStmts [.readC j]) ({ (mkSt [a] (chainBodies (j+1))) with effs := (mkSt [a] (chainBodies (j+1))).effs ++ [(⟨[.readC j], false, [], []⟩ : EffSt)], effStack := (mkSt [a] (chainBodies (j+1))).effs.length :: (mkSt [a] (chainBodies (j+1))).effStack, runs := (mkSt [a] (chainBodies (j+1))).runs ++ [(mkSt [a] (chainBodies (j+1))).effs.length] } : St)).2.effStack.tail })) := by
    rw [step_succ]
    simp only [stepB, hs, Bool.false_eq_true, if_false, hpar]
  rw [h1] at hh1 ⊢
  by_cases hP : halt (step g1 (.execStmts [.readC j]) ({ (mkSt [a] (chainBodies (j+1))) with effs := (mkSt [a] (chainBodies (j+1))).effs ++ [(⟨[.readC j], false, [], []⟩ : EffSt)], effStack := (mkSt [a] (chainBodies (j+1))).effs.length :: (mkSt [a] (chainBodies (j+1))).effStack, runs := (mkSt [a] (chainBodies (j+1))).runs ++ [(mkSt [a] (chainBodies (j+1))).effs.length] } : St)).2 = true
  · rw [if_pos hP] at hh1
    exact absurd hh1 (by simp [hP])
  · rw [if_neg hP] at hh1 ⊢
    simp only [Bool.not_eq_true] at hP
    obtain ⟨g2, rfl⟩ := live_fuel _ _ _ hP
    have hS1 : halt ({ (mkSt [a] (chainBodies (j+1))) with effs := (mkSt [a] (chainBodies (j+1))).effs ++ [(⟨[.readC j], false, [], []⟩ : EffSt)], effStack := (mkSt [a] (chainBodies (j+1))).effs.length :: (mkSt [a] (chainBodies (j+1))).effStack, runs := (mkSt [a] (chainBodies (j+1))).runs ++ [(mkSt [a] (chainBodies (j+1))).effs.length] } : St) = false := hs
    have h2 : step (g2+1) (.execStmts [.readC j]) ({ (mkSt [a] (chainBodies (j+1))) with effs := (mkSt [a] (chainBodies (j+1))).effs ++ [(⟨[.readC j], false, [], []⟩ : EffSt)], effStack := (mkSt [a] (chainBodies (j+1))).effs.length :: (mkSt [a] (chainBodies (j+1))).effStack, runs := (mkSt [a] (chainBodies (j+1))).runs ++ [(mkSt [a] (chainBodies (j+1))).effs.length] } : St) = step g2 (.execStmts []) (step g2 (.execStmt (.readC j)) ({ (mkSt [a] (chainBodies (j+1))) with effs := (mkSt [a] (chainBodies (j+1))).effs ++ [(⟨[.readC j], false, [], []⟩ : EffSt)], effStack := (mkSt [a] (chainBodies (j+1))).effs.length :: (mkSt [a] (chainBodies (j+1))).effStack, runs := (mkSt [a] (chainBodies (j+1))).runs ++ [(mkSt [a] (chainBodies (j+1))).effs.length] } : St)).2 := by
      rw [step_succ]
      simp only [stepB, hS1, Bool.false_eq_true, if_false]
    rw [h2] at hP ⊢
    obtain ⟨g3, rfl⟩ := live_fuel _ _ _ hP
    rw [execStmts_nil] at hP ⊢
    have h3 : step (g3+1) (.execStmt (.readC j)) ({ (mkSt [a] (chainBodies (j+1))) with effs := (mkSt [a] (chainBodies (j+1))).effs ++ [(⟨[.readC j], false, [], []⟩ : EffSt)], effStack := (mkSt [a] (chainBodies (j+1))).effs.length :: (mkSt [a] (chainBodies (j+1))).effStack, runs := (mkSt [a] (chainBodies (j+1))).runs ++ [(mkSt [a] (chainBodies (j+1))).effs.length] } : St)
        = (if halt (step g3 (.compRead j) ({ (mkSt [a] (chainBodies (j+1))) with effs := (mkSt [a] (chainBodies (j+1))).effs ++ [(⟨[.readC j], false, [], []⟩ : EffSt)], effStack := (mkSt [a] (chainBodies (j+1))).effs.length :: (mkSt [a] (chainBodies (j+1))).effStack, runs := (mkSt [a] (chainBodies (j+1))).runs ++ [(mkSt [a] (chainBodies (j+1))).effs.length] } : St)).2 = true then (0, (step g3 (.compRead j) ({ (mkSt [a] (chainBodies (j+1))) with effs := (mkSt [a] (chainBodies (j+1))).effs ++ [(⟨[.readC j], false, [], []⟩ : EffSt)], effStack := (mkSt [a] (chainBodies (j+1))).effs.length :: (mkSt [a] (chainBodies (j+1))).effStack, runs := (mkSt [a] (chainBodies (j+1))).runs ++ [(mkSt [a] (chainBodies (j+1))).effs.length] } : St)).2) else (0, { (step g3 (.compRead j) ({ (mkSt [a] (chainBodies (j+1))) with effs := (mkSt [a] (chainBodies (j+1))).effs ++ [(⟨[.readC j], false, [], []⟩ : EffSt)], effStack := (mkSt [a] (chainBodies (j+1))).effs.length :: (mkSt [a] (chainBodies (j+1))).effStack, runs := (mkSt [a] (chainBodies (j+1))).runs ++ [(mkSt [a] (chainBodies (j+1))).effs.length] } : St)).2 with log := (step g3 (.compRead j) ({ (mkSt [a] (chainBodies (j+1))) with effs := (mkSt [a] (chainBodies (j+1))).effs ++ [(⟨[.readC j], false, [], []⟩ : EffSt)], effStack := (mkSt [a] (chainBodies (j+1))).effs.length :: (mkSt [a] (chainBodies (j+1))).effStack, runs := (mkSt [a] (chainBodies (j+1))).runs ++ [(mkSt [a] (chainBodies (j+1))).effs.length] } : St)).2.log ++ [(step g3 (.compRead j) ({ (mkSt [a] (chainBodies (j+1))) with effs := (mkSt [a] (chainBodies (j+1))).effs ++ [(⟨[.readC j], false, [], []⟩ : EffSt)], effStack := (mkSt [a] (chainBodies (j+1))).effs.length :: (mkSt [a] (chainBodies (j+1))).effStack, runs := (mkSt [a] (chainBodies (j+1))).runs ++ [(mkSt [a] (chainBodies (j+1))).effs.length] } : St)).1] })) := by
      rw [step_succ]
      simp only [stepB, hS1, Bool.false_eq_true, if_false]
    rw [h3] at hP ⊢
    by_cases hC : halt (step g3 (.compRead j) ({ (mkSt [a] (chainBodies (j+1))) with effs := (mkSt [a] (chainBodies (j+1))).effs ++ [(⟨[.readC j], false, [], []⟩ : EffSt)], effStack := (mkSt [a] (chainBodies (j+1))).effs.length :: (mkSt [a] (chainBodies (j+1))).effStack, runs := (mkSt [a] (chainBodies (j+1))).runs ++ [(mkSt [a] (chainBodies (j+1))).effs.length] } : St)).2 = true
    · rw [if_pos hC] at hP
      exact absurd hP (by simp [hC])
    · rw [if_neg hC] at hP ⊢
      simp only [Bool.not_eq_true] at hC
      have hb0 : (getComp ({ (mkSt [a] (chainBodies (j+1))) with effs := (mkSt [a] (chainBodies (j+1))).effs ++ [(⟨[.readC j], false, [], []⟩ : EffSt)], effStack := (mkSt [a] (chainBodies (j+1))).effs.length :: (mkSt [a] (chainBodies (j+1))).effStack, runs := (mkSt [a] (chainBodies (j+1))).runs ++ [(mkSt [a] (chainBodies (j+1))).effs.length] } : St) 0).body = .readSig 0 := by
        show (getComp (mkSt [a] (chainBodies (j+1))) 0).body = .readSig 0
        rw [chainComp a (j+1) 0 (by omega)]
        rfl
      have hbs : ∀ i, i < j → (getComp ({ (mkSt [a] (chainBodies (j+1))) with effs := (mkSt [a] (chainBodies (j+1))).effs ++ [(⟨[.readC j], false, [], []⟩ : EffSt)], effStack := (mkSt [a] (chainBodies (j+1))).effs.length :: (mkSt [a] (chainBodies (j+1))).effStack, runs := (mkSt [a] (chainBodies (j+1))).runs ++ [(mkSt [a] (chainBodies (j+1))).effs.length] } : St) (i+1)).body = .readComp i := by
        intro i hi
        show (getComp (mkSt [a] (chainBodies (j+1))) (i+1)).body = .readComp i
        rw [chainComp a (j+1) (i+1) (by omega)]
        rfl
      have hdirty : ∀ i, i ≤ j → (getComp ({ (mkSt [a] (chainBodies (j+1))) with effs := (mkSt [a] (chainBodies (j+1))).effs ++ [(⟨[.readC j], false, [], []⟩ : EffSt)], effStack := (mkSt [a] (chainBodies (j+1))).effs.length :: (mkSt [a] (chainBodies (j+1))).effStack, runs := (mkSt [a] (chainBodies (j+1))).runs ++ [(mkSt [a] (chainBodies (j+1))).effs.length] } : St) i).hasCache = false := by
        intro i hi
        show (getComp (mkSt [a] (chainBodies (j+1))) i).hasCache = false
        rw [chainComp a (j+1) i (by omega)]
      have hlen1 : 0 < ({ (mkSt [a] (chainBodies (j+1))) with effs := (mkSt [a] (chainBodies (j+1))).effs ++ [(⟨[.readC j], false, [], []⟩ : EffSt)], effStack := (mkSt [a] (chainBodies (j+1))).effs.length :: (mkSt [a] (chainBodies (j+1))).effStack, runs := (mkSt [a] (chainBodies (j+1))).runs ++ [(mkSt [a] (chainBodies (j+1))).effs.length] } : St).sigs.length := by
        show 0 < (mkSigs [a]).length
        simp [mkSigs]
      obtain ⟨w1, w2⟩ := chainEval j g3 ({ (mkSt [a] (chainBodies (j+1))) with effs := (mkSt [a] (chainBodies (j+1))).effs ++ [(⟨[.readC j], false, [], []⟩ : EffSt)], effStack := (mkSt [a] (chainBodies (j+1))).effs.length :: (mkSt [a] (chainBodies (j+1))).effStack, runs := (mkSt [a] (chainBodies (j+1))).runs ++ [(mkSt [a] (chainBodies (j+1))).effs.length] } : St) 0 hb0 hbs hdirty rfl hlen1 hC
      obtain ⟨E1, E2, E3, E4, E5⟩ := evalFrame g3 (.compRead j) ({ (mkSt [a] (chainBodies (j+1))) with effs := (mkSt [a] (chainBodies (j+1))).effs ++ [(⟨[.readC j], false, [], []⟩ : EffSt)], effStack := (mkSt [a] (chainBodies (j+1))).effs.length :: (mkSt [a] (chainBodies (j+1))).effStack, runs := (mkSt [a] (chainBodies (j+1))).runs ++ [(mkSt [a] (chainBodies (j+1))).effs.length] } : St) trivial
      have hruns := runsPres g3 (.compRead j) ({ (mkSt [a] (chainBodies (j+1))) with effs := (mkSt [a] (chainBodies (j+1))).effs ++ [(⟨[.readC j], false, [], []⟩ : EffSt)], effStack := (mkSt [a] (chainBodies (j+1))).effs.length :: (mkSt [a] (chainBodies (j+1))).effStack, runs := (mkSt [a] (chainBodies (j+1))).runs ++ [(mkSt [a] (chainBodies (j+1))).effs.length] } : St) trivial
      refine ⟨?_, ?_, ?_, ?_, ?_, ?_, ?_, ?_, ?_⟩
      · show (step g3 (.compRead j) ({ (mkSt [a] (chainBodies (j+1))) with effs := (mkSt [a] (chainBodies (j+1))).effs ++ [(⟨[.readC j], false, [], []⟩ : EffSt)], effStack := (mkSt [a] (chainBodies (j+1))).effs.length :: (mkSt [a] (chainBodies (j+1))).effStack, runs := (mkSt [a] (chainBodies (j+1))).runs ++ [(mkSt [a] (chainBodies (j+1))).effs.length] } : St)).2.runs = [0]
        rw [hruns]
        rfl
      · show (step g3 (.compRead j) ({ (mkSt [a] (chainBodies (j+1))) with effs := (mkSt [a] (chainBodies (j+1))).effs ++ [(⟨[.readC j], false, [], []⟩ : EffSt)], effStack := (mkSt [a] (chainBodies (j+1))).effs.length :: (mkSt [a] (chainBodies (j+1))).effStack, runs := (mkSt [a] (chainBodies (j+1))).runs ++ [(mkSt [a] (chainBodies (j+1))).effs.length] } : St)).2.effStack.tail = []
        rw [E2]
        rfl
      · show (step g3 (.compRead j) ({ (mkSt [a] (chainBodies (j+1))) with effs := (mkSt [a] (chainBodies (j+1))).effs ++ [(⟨[.readC j], false, [], []⟩ : EffSt)], effStack := (mkSt [a] (chainBodies (j+1))).effs.length :: (mkSt [a] (chainBodies (j+1))).effStack, runs := (mkSt [a] (chainBodies (j+1))).runs ++ [(mkSt [a] (chainBodies (j+1))).effs.length] } : St)).2.batchStack = []
        rw [E3]
        rfl
      · show (getSig (step g3 (.compRead j) ({ (mkSt [a] (chainBodies (j+1))) with effs := (mkSt [a] (chainBodies (j+1))).effs ++ [(⟨[.readC j], false, [], []⟩ : EffSt)], effStack := (mkSt [a] (chainBodies (j+1))).effs.length :: (mkSt [a] (chainBodies (j+1))).effStack, runs := (mkSt [a] (chainBodies (j+1))).runs ++ [(mkSt [a] (chainBodies (j+1))).effs.length] } : St)).2 0).triggers = [0]
        rw [w2]
        rfl
      · exact (E4 0).1
      · exact (E4 0).2
      · show 0 < (step g3 (.compRead j) ({ (mkSt [a] (chainBodies (j+1))) with effs := (mkSt [a] (chainBodies (j+1))).effs ++ [(⟨[.readC j], false, [], []⟩ : EffSt)], effStack := (mkSt [a] (chainBodies (j+1))).effs.length :: (mkSt [a] (chainBodies (j+1))).effStack, runs := (mkSt [a] (chainBodies (j+1))).runs ++ [(mkSt [a] (chainBodies (j+1))).effs.length] } : St)).2.sigs.length
        rw [E5]
        exact hlen1
      · exact (E1 0).1
      · exact (E1 0).2.2

/-- C1: propagation correctness for chains cell → computed* → effect,
outside a batch. First conjunct, the direct chain (no computeds): an
effect reading the cell runs once at construction, and an unequal write
to the cell re-runs its body exactly once before the write call returns
(`runs` goes `[0]` to `[0, 0]`). Second conjunct, a chain of `j+1`
computeds (computed 0 reads the cell, computed `i+1` reads computed `i`)
with an effect reading the top computed: the construction run evaluates
the chain and registers the effect's trigger on the cell through the
derivations, and an unequal write to the root cell again re-runs the
effect's body exactly once before the write returns. -/
theorem c1_propagation :
    (∀ (a v : Int) (f1 f2 : Nat),
      ((v == a) = false) →
      halt (step f1 (.mkEffRun false [.readS 0]) (mkSt [a] [])).2 = false →
      halt (step f2 (.setSig 0 v) (step f1 (.mkEffRun false [.readS 0]) (mkSt [a] [])).2).2 = false →
      (step f1 (.mkEffRun false [.readS 0]) (mkSt [a] [])).2.runs = [0] ∧
      (step f2 (.setSig 0 v) (step f1 (.mkEffRun false [.readS 0]) (mkSt [a] [])).2).2.runs = [0, 0]) ∧
    (∀ (j : Nat) (a v : Int) (f1 f2 : Nat),
      ((v == a) = false) →
      halt (step f1 (.mkEffRun false [.readC j]) (mkSt [a] (chainBodies (j+1)))).2 = false →
      halt (step f2 (.setSig 0 v) (step f1 (.mkEffRun false [.readC j]) (mkSt [a] (chainBodies (j+1)))).2).2 = false →
      (step f1 (.mkEffRun false [.readC j]) (mkSt [a] (chainBodies (j+1)))).2.runs = [0] ∧
      (step f2 (.setSig 0 v) (step f1 (.mkEffRun false [.readC j]) (mkSt [a] (chainBodies (j+1)))).2).2.runs = [0, 0]) := by
  constructor
  · intro a v f1 f2 hv hh1 hh2
    obtain ⟨q1, q2, q3, q4, q5, q6, q7, q8, q9, q10, q11⟩ := c6Setup [a] f1 hh1
    have hq1 : (step f1 (.mkEffRun false [.readS 0]) (mkSt [a] [])).2.runs = [0] := q1
    have htrigR : (getSig (step f1 (.mkEffRun false [.readS 0]) (mkSt [a] [])).2 0).triggers = [0] := by
      have := q9 0 (by simp)
      rw [show getSig (step f1 (.mkEffRun false [.readS 0]) (mkSt [a] [])).2 0 = getSig (step f1 (.mkEffRun false (readAll ([a] : List Int).length)) (mkSt [a] [])).2 0 from rfl, this]
    have hneR : ((getSig (step f1 (.mkEffRun false [.readS 0]) (mkSt [a] [])).2 0).equal v (getSig (step f1 (.mkEffRun false [.readS 0]) (mkSt [a] [])).2 0).current) = false := by
      have := q9 0 (by simp)
      rw [show getSig (step f1 (.mkEffRun false [.readS 0]) (mkSt [a] [])).2 0 = getSig (step f1 (.mkEffRun false (readAll ([a] : List Int).length)) (mkSt [a] [])).2 0 from rfl, this]
      exact hv
    have hbodyR : calmL (getEff (step f1 (.mkEffRun false [.readS 0]) (mkSt [a] [])).2 0).body = true := by
      rw [show getEff (step f1 (.mkEffRun false [.readS 0]) (mkSt [a] [])).2 0 = getEff (step f1 (.mkEffRun false (readAll ([a] : List Int).length)) (mkSt [a] [])).2 0 from rfl, q10]
      rfl
    have hchR : (getEff (step f1 (.mkEffRun false [.readS 0]) (mkSt [a] [])).2 0).childEffects = [] := by
      rw [show getEff (step f1 (.mkEffRun false [.readS 0]) (mkSt [a] [])).2 0 = getEff (step f1 (.mkEffRun false (readAll ([a] : List Int).length)) (mkSt [a] [])).2 0 from rfl, q10]
    have hxR : 0 < (step f1 (.mkEffRun false [.readS 0]) (mkSt [a] [])).2.sigs.length := by
      have : (step f1 (.mkEffRun false [.readS 0]) (mkSt [a] [])).2.sigs.length = ([a] : List Int).length := q7
      rw [this]
      simp
    have hfire := fireOnce (step f1 (.mkEffRun false [.readS 0]) (mkSt [a] [])).2 0 0 v f2 q4 (by rw [show (step f1 (.mkEffRun false [.readS 0]) (mkSt [a] [])).2.batchStack = (step f1 (.mkEffRun false (readAll ([a] : List Int).length)) (mkSt [a] [])).2.batchStack from rfl, q6]) hxR htrigR hneR hbodyR hchR hh2
    refine ⟨hq1, ?_⟩
    rw [hfire, hq1]
    rfl
  · intro j a v f1 f2 hv hh1 hh2
    obtain ⟨k1, k2, k3, k4, k5, k6, k7, k8, k9⟩ := c1Setup j a f1 hh1
    have hneR : ((getSig (step f1 (.mkEffRun false [.readC j]) (mkSt [a] (chainBodies (j+1)))).2 0).equal v (getSig (step f1 (.mkEffRun false [.readC j]) (mkSt [a] (chainBodies (j+1)))).2 0).current) = false := by
      rw [k5, k6]
      exact hv
    have hbodyR : calmL (getEff (step f1 (.mkEffRun false [.readC j]) (mkSt [a] (chainBodies (j+1)))).2 0).body = true := by
      rw [k8]
      rfl
    have hfire := fireOnce (step f1 (.mkEffRun false [.readC j]) (mkSt [a] (chainBodies (j+1)))).2 0 0 v f2 k2 k3 k7 k4 hneR hbodyR k9 hh2
    refine ⟨k1, ?_⟩
    rw [hfire, k1]
    rfl

/-- C1 witness: the direct chain on a cell holding 4 written with 7, and
a two-computed chain on a cell holding 5 written with 9. -/
theorem c1_propagation_witness :
    ((((7 : Int) == (4 : Int)) = false) ∧
     halt (step 6 (.mkEffRun false [.readS 0]) (mkSt [4] [])).2 = false ∧
     halt (step 8 (.setSig 0 7) (step 6 (.mkEffRun false [.readS 0]) (mkSt [4] [])).2).2 = false ∧
     ((step 6 (.mkEffRun false [.readS 0]) (mkSt [4] [])).2.runs = [0] ∧ (step 8 (.setSig 0 7) (step 6 (.mkEffRun false [.readS 0]) (mkSt [4] [])).2).2.runs = [0, 0])) ∧
    ((((9 : Int) == (5 : Int)) = false) ∧
     halt (step 12 (.mkEffRun false [.readC 1]) (mkSt [5] (chainBodies 2))).2 = false ∧
     halt (step 12 (.setSig 0 9) (step 12 (.mkEffRun false [.readC 1]) (mkSt [5] (chainBodies 2))).2).2 = false ∧
     ((step 12 (.mkEffRun false [.readC 1]) (mkSt [5] (chainBodies 2))).2.runs = [0] ∧ (step 12 (.setSig 0 9) (step 12 (.mkEffRun false [.readC 1]) (mkSt [5] (chainBodies 2))).2).2.runs = [0, 0])) :=
  ⟨⟨by decide, by decide, by decide,
     c1_propagation.1 4 7 6 8 (by decide) (by decide) (by decide)⟩,
   ⟨by decide, by decide, by decide,
     c1_propagation.2 1 5 9 12 12 (by decide) (by decide) (by decide)⟩⟩

/-- C2: late binding. A computed `c` already evaluated and cached records
its upstream cells in `lateEffects`; an effect created afterwards reads
`c` from the cache — no `evals` entry, the logged value is the cached one
— yet the cache-hit path wires the effect's trigger onto the upstream
cell `x` (`triggers` becomes the new effect's id). A subsequent write of
an unequal value to `x` re-runs the effect's body exactly once: `runs`
ends as construction-run ++ one re-run. -/
theorem c2_late_binding (s : St) (c x : Nat) (v : Int) (f1 f2 : Nat)
    (hcache : (getComp s c).hasCache = true)
    (hlate : x ∈ (getComp s c).lateEffects)
    (heff : s.effStack = [])
    (hbatch : s.batchStack = [])
    (htrig : (getSig s x).triggers = [])
    (hx : x < s.sigs.length)
    (hne : ((getSig s x).equal v (getSig s x).current) = false)
    (hh1 : halt (step f1 (.mkEffRun false [.readC c]) s).2 = false)
    (hh2 : halt (step f2 (.setSig x v) (step f1 (.mkEffRun false [.readC c]) s).2).2 = false) :
    (step f1 (.mkEffRun false [.readC c]) s).2.evals = s.evals ∧
    (step f1 (.mkEffRun false [.readC c]) s).2.log = s.log ++ [(getComp s c).cached] ∧
    (step f1 (.mkEffRun false [.readC c]) s).2.runs = s.runs ++ [s.effs.length] ∧
    (getSig (step f1 (.mkEffRun false [.readC c]) s).2 x).triggers = [s.effs.length] ∧
    (step f2 (.setSig x v) (step f1 (.mkEffRun false [.readC c]) s).2).2.runs = s.runs ++ [s.effs.length] ++ [s.effs.length] := by
  obtain ⟨k1, k2, k3, k4, k5, k6, k7, k8, k9⟩ := c2Setup s c f1 hcache heff hh1
  have hRx : getSig (step f1 (.mkEffRun false [.readC c]) s).2 x = { getSig s x with triggers := [s.effs.length] } := by
    rw [k9 x hx, if_pos hlate, htrig]
    simp [addIfAbsent]
  refine ⟨k1, k2, k3, by rw [hRx], ?_⟩
  have hfire := fireOnce (step f1 (.mkEffRun false [.readC c]) s).2 x s.effs.length v f2
    k4
    (by rw [k5]; exact hbatch)
    (by rw [k6]; exact hx)
    (by rw [hRx])
    (by rw [hRx]; exact hne)
    (by rw [k7]; rfl)
    k8
    hh2
  rw [hfire, k3]

/-- C2 witness: evaluate `computed(() => s() + 3)` once (caching 8), then
create an effect that reads it — cache hit — and write 9 to the cell: the
effect re-runs. -/
theorem c2_late_binding_witness :
    (getComp (step 6 (.compRead 0) (mkSt [5] [.add (.readSig 0) (.const 3)])).2 0).hasCache = true ∧
    0 ∈ (getComp (step 6 (.compRead 0) (mkSt [5] [.add (.readSig 0) (.const 3)])).2 0).lateEffects ∧
    (step 6 (.compRead 0) (mkSt [5] [.add (.readSig 0) (.const 3)])).2.effStack = [] ∧
    (step 6 (.compRead 0) (mkSt [5] [.add (.readSig 0) (.const 3)])).2.batchStack = [] ∧
    (getSig (step 6 (.compRead 0) (mkSt [5] [.add (.readSig 0) (.const 3)])).2 0).triggers = [] ∧
    0 < (step 6 (.compRead 0) (mkSt [5] [.add (.readSig 0) (.const 3)])).2.sigs.length ∧
    ((getSig (step 6 (.compRead 0) (mkSt [5] [.add (.readSig 0) (.const 3)])).2 0).equal 9 (getSig (step 6 (.compRead 0) (mkSt [5] [.add (.readSig 0) (.const 3)])).2 0).current) = false ∧
    halt (step 8 (.mkEffRun false [.readC 0]) (step 6 (.compRead 0) (mkSt [5] [.add (.readSig 0) (.const 3)])).2).2 = false ∧
    halt (step 12 (.setSig 0 9) (step 8 (.mkEffRun false [.readC 0]) (step 6 (.compRead 0) (mkSt [5] [.add (.readSig 0) (.const 3)])).2).2).2 = false ∧
    ((step 8 (.mkEffRun false [.readC 0]) (step 6 (.compRead 0) (mkSt [5] [.add (.readSig 0) (.const 3)])).2).2.evals = (step 6 (.compRead 0) (mkSt [5] [.add (.readSig 0) (.const 3)])).2.evals ∧
     (step 8 (.mkEffRun false [.readC 0]) (step 6 (.compRead 0) (mkSt [5] [.add (.readSig 0) (.const 3)])).2).2.log = (step 6 (.compRead 0) (mkSt [5] [.add (.readSig 0) (.const 3)])).2.log ++ [(getComp (step 6 (.compRead 0) (mkSt [5] [.add (.readSig 0) (.const 3)])).2 0).cached] ∧
     (step 8 (.mkEffRun false [.readC 0]) (step 6 (.compRead 0) (mkSt [5] [.add (.readSig 0) (.const 3)])).2).2.runs = (step 6 (.compRead 0) (mkSt [5] [.add (.readSig 0) (.const 3)])).2.runs ++ [(step 6 (.compRead 0) (mkSt [5] [.add (.readSig 0) (.const 3)])).2.effs.length] ∧
     (getSig (step 8 (.mkEffRun false [.readC 0]) (step 6 (.compRead 0) (mkSt [5] [.add (.readSig 0) (.const 3)])).2).2 0).triggers = [(step 6 (.compRead 0) (mkSt [5] [.add (.readSig 0) (.const 3)])).2.effs.length] ∧
     (step 12 (.setSig 0 9) (step 8 (.mkEffRun false [.readC 0]) (step 6 (.compRead 0) (mkSt [5] [.add (.readSig 0) (.const 3)])).2).2).2.runs = (step 6 (.compRead 0) (mkSt [5] [.add (.readSig 0) (.const 3)])).2.runs ++ [(step 6 (.compRead 0) (mkSt [5] [.add (.readSig 0) (.const 3)])).2.effs.length] ++ [(step 6 (.compRead 0) (mkSt [5] [.add (.readSig 0) (.const 3)])).2.effs.length]) :=
  ⟨by decide, by decide, by decide, by decide, by decide, by decide, by decide, by decide, by decide,
    c2_late_binding (step 6 (.compRead 0) (mkSt [5] [.add (.readSig 0) (.const 3)])).2 0 0 9 8 12 (by decide) (by decide) (by decide) (by decide) (by decide)
      (by decide) (by decide) (by decide) (by decide)⟩
end SignalModel
